import Mathlib

/-!
# Stripe layout of kiui (src/Ui/Frame/mkStripe.cpp)

A shallow embedding of the `Stripe` container of `mkStripe.cpp` and of the
properties its specification states about it.

Conventions of the embedding:

* C++ `float` values are rationals (`ℚ`). The sums and differences of lengths
  and the products of `expandLength` are the exact ones; the running sum, the
  reciprocal and the products of `normalizeSpan` are rounded to binary32 by
  `round32`, as the hardware rounds them.
* A `Frame*` is a `Frame` record held in the `d_contents` list of its `Stripe`;
  `name` stands for the identity of the object.
* `d_sequence` is the view of the first `d_sequence_size` entries of
  `d_contents` (the constructor builds it over `d_contents`, and `insertFlow`
  and `removeFlow` move its size by one).
* An access outside a vector, a null `d_weights` that is dereferenced and a
  cast of a non-Stripe frame to `Stripe` have no defined behaviour in C++: the
  operation returns `none`.
* `mkFrame.h`, `mkStripe.h` and `mkDim.h` are outside the sources embedded here:
  what the code of `mkStripe.cpp` uses from them is modelled from the
  specification, in the definitions marked so.
-/

set_option autoImplicit false

namespace mk

/-! ## Dimensions, style enumerations and vectors -/

/-- Modelled from the spec: the enumeration `Dimension` of mkDim.h (the two axes);
`DIM_X` is 0 and `DIM_Y` is 1 when used as a subscript. -/
inductive Dimension where
  | DIM_X
  | DIM_Y
  deriving DecidableEq, Repr

/-- Modelled from the spec: the per-axis size policy of mkDim.h (fixed size,
shrink-to-content, expand). -/
inductive Sizing where
  | FIXED
  | SHRINK
  | EXPAND
  deriving DecidableEq, Repr

/-- Modelled from the spec: the alignment values of mkDim.h read by
`positionSequence`. -/
inductive Align where
  | LEFT
  | CENTER
  | RIGHT
  deriving DecidableEq, Repr

/-- Modelled from the spec: the weight mode of a layout style (NONE, LIST, TABLE). -/
inductive Weight where
  | NONE
  | LIST
  | TABLE
  deriving DecidableEq, Repr

/-- Modelled from the spec: the frame kinds of mkFrame.h that `mkStripe.cpp` tells
apart. -/
inductive FrameType where
  | FRAME
  | STRIPE
  | LAYER
  | LAYER3D
  deriving DecidableEq, Repr

/-- A value per axis (`DimFloat`, `DimAlign`, the sizing pair of a frame). -/
structure Dim (α : Type) where
  x : α
  y : α
  deriving DecidableEq, Repr

/-- Subscript of a per-axis value by a dimension. -/
def Dim.get {α : Type} (v : Dim α) : Dimension → α
  | Dimension.DIM_X => v.x
  | Dimension.DIM_Y => v.y

/-- Assignment to one axis of a per-axis value. -/
def Dim.set {α : Type} (v : Dim α) (d : Dimension) (a : α) : Dim α :=
  match d with
  | Dimension.DIM_X => { v with x := a }
  | Dimension.DIM_Y => { v with y := a }

abbrev DimFloat := Dim ℚ

abbrev DimSizing := Dim Sizing

abbrev DimAlign := Dim Align

/-- The numeric value of a dimension when it is used as a subscript. -/
def Dimension.toNat : Dimension → Nat
  | Dimension.DIM_X => 0
  | Dimension.DIM_Y => 1

/-- A box of four floats (`BoxFloat`): subscripts 0 and 1 are the near sides on
x and y, subscripts 2 and 3 the far sides. -/
structure BoxFloat where
  x0 : ℚ
  y0 : ℚ
  x1 : ℚ
  y1 : ℚ
  deriving DecidableEq, Repr

/-- Subscript of a box. -/
def BoxFloat.get (b : BoxFloat) : Nat → ℚ
  | 0 => b.x0
  | 1 => b.y0
  | 2 => b.x1
  | _ => b.y1

/-! ## Binary32 arithmetic -/

/-- The number of binary digits of `n` less one, for `0 < n ≤ fuel`: the exponent of
the largest power of 2 that is at most `n`. -/
def ilog2 : Nat → Nat → Nat
  | 0, _ => 0
  | fuel + 1, n => if n < 2 then 0 else ilog2 fuel (n / 2) + 1

/-- The integer nearest to `q`; of the two integers nearest to a value half-way
between them, the even one (round to nearest, ties to even). -/
def roundHalfEven (q : ℚ) : Int :=
  if q - ⌊q⌋ < 1 / 2 then ⌊q⌋
  else if 1 / 2 < q - ⌊q⌋ then ⌊q⌋ + 1
  else if ⌊q⌋ % 2 = 0 then ⌊q⌋ else ⌊q⌋ + 1

/-- The binary exponent of a rational other than 0: the integer `e` with
`2 ^ e ≤ |q| < 2 ^ (e + 1)`. -/
def binaryExponent (q : ℚ) : Int :=
  if (2 : ℚ) ^ ((ilog2 q.num.natAbs q.num.natAbs : Int) - (ilog2 q.den q.den : Int)) ≤ |q| then
    (ilog2 q.num.natAbs q.num.natAbs : Int) - (ilog2 q.den q.den : Int)
  else (ilog2 q.num.natAbs q.num.natAbs : Int) - (ilog2 q.den q.den : Int) - 1

/-- The spacing of the binary32 values around `q`: `2 ^ (e - 23)` for the binary
exponent `e` of `q` (a significand of 24 binary digits), `e` being taken not
below -126 (the subnormal values are spaced by `2 ^ (-149)`). -/
def quantum32 (q : ℚ) : ℚ :=
  (2 : ℚ) ^ (max (binaryExponent q) (-126) - 23)

/-- The value a C++ `float` (IEEE 754 binary32) operation leaves when its exact result
is `q`: the multiple of the spacing nearest to `q`, ties to even. A result of
magnitude `2 ^ 128` or more, which the hardware turns into an infinity, is
outside what the function models. -/
def round32 (q : ℚ) : ℚ :=
  if q = 0 then 0
  else (roundHalfEven (q / quantum32 q) : ℚ) * quantum32 q

/-! ## Frames -/

/-- Modelled from the spec: the class `Frame` of mkFrame.h, reduced to the
attributes `mkStripe.cpp` reads and writes: flow and hidden flags, index in the
parent, size policy, position, size and span per axis, the margin of its layout
style. For a child that is itself a Stripe, `subSequenceSize` is the size of its
own sequence and `subSpans` the spans of its own contents, which is all that
`dispatchTableWeights` touches. -/
structure Frame where
  name : Nat
  flow : Bool
  hidden : Bool
  index : Nat
  sizing : DimSizing
  position : DimFloat
  size : DimFloat
  span : DimFloat
  margin : DimFloat
  frameType : FrameType
  subSequenceSize : Nat
  subSpans : List DimFloat
  deriving DecidableEq, Repr

namespace Frame

/-- Modelled from the spec: `Frame::dexpand`, the frame expands on the axis. -/
def dexpand (f : Frame) (d : Dimension) : Bool := f.sizing.get d == Sizing.EXPAND

/-- Modelled from the spec: `Frame::dshrink`, the frame shrinks to its content on the axis. -/
def dshrink (f : Frame) (d : Dimension) : Bool := f.sizing.get d == Sizing.SHRINK

/-- Modelled from the spec: `Frame::dsize`, the size on the axis. -/
def dsize (f : Frame) (d : Dimension) : ℚ := f.size.get d

/-- Modelled from the spec: `Frame::dposition`, the position on the axis. -/
def dposition (f : Frame) (d : Dimension) : ℚ := f.position.get d

/-- Modelled from the spec: `Frame::dspan`, the span on the axis. -/
def dspan (f : Frame) (d : Dimension) : ℚ := f.span.get d

/-- Modelled from the spec: `Frame::doffset`, the extent of the frame on the axis,
which the specification identifies with its size on that axis (Scenario A counts
a child of length 50 for 50). -/
def doffset (f : Frame) (d : Dimension) : ℚ := f.dsize d

/-- Modelled from the spec: `Frame::setSizeDim` on a child, the write of the size on
the axis. -/
def setSizeDim (f : Frame) (d : Dimension) (v : ℚ) : Frame :=
  { f with size := f.size.set d v }

/-- Modelled from the spec: `Frame::setPositionDim`, the write of the position on the
axis. -/
def setPositionDim (f : Frame) (d : Dimension) (v : ℚ) : Frame :=
  { f with position := f.position.set d v }

/-- Modelled from the spec: `Frame::setSpanDim`, the write of the span on the axis. -/
def setSpanDim (f : Frame) (d : Dimension) (v : ℚ) : Frame :=
  { f with span := f.span.set d v }

/-- Modelled from the spec: `Frame::setSpanDimDirect`, the write of the span on the
axis. -/
def setSpanDimDirect (f : Frame) (d : Dimension) (v : ℚ) : Frame :=
  { f with span := f.span.set d v }

/-- Modelled from the spec: `Frame::setIndex`, the write of the index. -/
def setIndex (f : Frame) (i : Nat) : Frame := { f with index := i }

end Frame

/-! ## The Stripe -/

/-- The state of a `Stripe`: its own frame attributes (size, size policy), the
values it reads from its layout style (`d_layout`: layout dimension, padding,
spacing, weight mode) and ink style (`d_inkstyle`: alignment), and the members
declared by the constructor of `mkStripe.cpp`. -/
structure Stripe where
  size : DimFloat
  sizing : DimSizing
  layoutDim : Dimension
  padding : BoxFloat
  spacing : DimFloat
  weight : Weight
  align : DimAlign
  d_cursor : ℚ
  d_contents : List Frame
  d_sequence_size : Nat
  d_sequenceLength : ℚ
  d_freeSpace : ℚ
  d_floatDepth : ℚ
  d_maxDepth : ℚ
  d_relayout : Bool
  d_weights : Option (List ℚ)
  deriving DecidableEq, Repr

namespace Stripe

/-- The length axis, as `updateSizing` sets it: the layout dimension. -/
def d_length (s : Stripe) : Dimension := s.layoutDim

/-- The depth axis, as `updateSizing` sets it: the other dimension. -/
def d_depth (s : Stripe) : Dimension :=
  if s.layoutDim = Dimension.DIM_X then Dimension.DIM_Y else Dimension.DIM_X

/-- The members the constructor `Stripe::Stripe` initialises, over the frame and
style attributes of `s`. -/
def construct (s : Stripe) : Stripe :=
  { s with
    d_cursor := 0
    d_contents := []
    d_sequence_size := 0
    d_sequenceLength := 0
    d_freeSpace := 0
    d_floatDepth := 0
    d_maxDepth := 0
    d_relayout := true
    d_weights := none }

/-- The view `d_sequence`: the first `d_sequence_size` entries of `d_contents`. -/
def sequence (s : Stripe) : List Frame := s.d_contents.take s.d_sequence_size

/-- Modelled from the spec: `Frame::dshrink` on the Stripe itself. -/
def dshrink (s : Stripe) (d : Dimension) : Bool := s.sizing.get d == Sizing.SHRINK

/-- Modelled from the spec: `Frame::dsize` on the Stripe itself. -/
def dsize (s : Stripe) (d : Dimension) : ℚ := s.size.get d

/-- Modelled from the spec: `Frame::dspace`, the available space on the axis: the
size less the two paddings of that axis. -/
def dspace (s : Stripe) (d : Dimension) : ℚ :=
  s.size.get d - s.padding.get d.toNat - s.padding.get (d.toNat + 2)

/-- Application of `g` to every frame of the sequence view, in place in
`d_contents`. -/
def mapSequence (s : Stripe) (g : Frame → Frame) : List Frame :=
  (s.d_contents.take s.d_sequence_size).map g ++ s.d_contents.drop s.d_sequence_size

/-! ### Vector operations -/

/-- The vector insertion of `x` before position `i`; not defined past the end. -/
def insertAt {α : Type} (l : List α) (i : Nat) (x : α) : Option (List α) :=
  if i ≤ l.length then some (l.take i ++ x :: l.drop i) else none

/-- The vector erasure of position `i`; not defined outside the vector. -/
def eraseAt {α : Type} (l : List α) (i : Nat) : Option (List α) :=
  if i < l.length then some (l.take i ++ l.drop (i + 1)) else none

/-- The exchange of positions `i` and `j` (`std::swap` of two elements); not
defined outside the vector. -/
def swapAt {α : Type} (l : List α) (i j : Nat) : Option (List α) :=
  match l[i]?, l[j]? with
  | some a, some b => some ((l.set i b).set j a)
  | _, _ => none

/-- The loop of `reindex`: the frame at position `i` gets index `i`, from
position `start` on. -/
def reindexFrom (start : Nat) : Nat → List Frame → List Frame
  | _, [] => []
  | i, f :: fs => (if start ≤ i then f.setIndex i else f) :: reindexFrom start (i + 1) fs

/-- The method `Stripe::reindex`. -/
def reindex (s : Stripe) (start : Nat) : Stripe :=
  { s with d_contents := reindexFrom start 0 s.d_contents }

/-! ### Expansion -/

/-- The method `Stripe::expandDepth`. -/
def expandDepth (s : Stripe) : Stripe :=
  let space := s.dspace s.d_depth
  { s with d_contents := s.d_contents.map (fun frame =>
      if frame.dexpand s.d_depth then frame.setSizeDim s.d_depth space else frame) }

/-- The loop of `expandLength` over `d_contents`: the frames with their new sizes,
and the value left in `d_freeSpace`. -/
def expandLengthLoop (s : Stripe) (space : ℚ) : List Frame → ℚ → List Frame × ℚ
  | [], free => ([], free)
  | frame :: rest, free =>
    if frame.dexpand s.d_length then
      let sized :=
        if frame.flow then frame.setSizeDim s.d_length (space * frame.dspan s.d_length)
        else frame.setSizeDim s.d_length (s.dspace s.d_length)
      let r := expandLengthLoop s space rest 0
      (sized :: r.1, r.2)
    else
      let r := expandLengthLoop s space rest free
      (frame :: r.1, r.2)

/-- The method `Stripe::expandLength`. -/
def expandLength (s : Stripe) : Stripe :=
  let space := s.dspace s.d_length - s.d_sequenceLength
  let r := expandLengthLoop s space s.d_contents space
  { s with d_freeSpace := r.2, d_contents := r.1 }

/-- The method `Stripe::resized`. -/
def resized (s : Stripe) (dim : Dimension) : Stripe :=
  let s1 := if dim = s.d_length then s.expandLength else s.expandDepth
  { s1 with d_relayout := true }

/-- Modelled from the spec: `Frame::setSizeDim` on the Stripe itself: the write of
its size on the axis, followed by `resized` when the size changes ("called when
this Stripe's own size changes"). -/
def setSizeDim (s : Stripe) (dim : Dimension) (v : ℚ) : Stripe :=
  if s.size.get dim = v then s
  else resized { s with size := s.size.set dim v } dim

/-- The method `Stripe::updateLength`. -/
def updateLength (s : Stripe) : Stripe :=
  if s.dshrink s.d_length then
    s.setSizeDim s.d_length
      (s.d_sequenceLength + s.padding.get s.d_length.toNat + s.padding.get (s.d_length.toNat + 2))
  else s

/-- The method `Stripe::updateDepth`. -/
def updateDepth (s : Stripe) : Stripe :=
  if s.dshrink s.d_depth then
    s.setSizeDim s.d_depth
      (s.d_maxDepth + s.padding.get s.d_depth.toNat + s.padding.get (s.d_depth.toNat + 2))
  else s

/-- The method `Stripe::recomputeDepth`. -/
def recomputeDepth (s : Stripe) : Stripe :=
  let m := s.sequence.foldl
    (fun acc frame => if s.dshrink s.d_depth then max acc (frame.doffset s.d_depth) else acc) 0
  updateDepth { s with d_maxDepth := m }

/-! ### Incremental flow maintenance -/

/-- The method `Stripe::flowSizedLength`. -/
def flowSizedLength (s : Stripe) (_child : Frame) (delta : ℚ) : Stripe :=
  let s1 := updateLength { s with d_sequenceLength := s.d_sequenceLength + delta }
  { s1 with d_relayout := true }

/-- The method `Stripe::flowSizedDepth`. -/
def flowSizedDepth (s : Stripe) (child : Frame) (delta : ℚ) : Stripe :=
  if delta < 0 ∧ s.d_maxDepth = -delta + child.doffset s.d_depth then
    s.recomputeDepth
  else if delta > 0 then
    updateDepth { s with d_maxDepth := max s.d_maxDepth (child.doffset s.d_depth) }
  else s

/-- The method `Stripe::flowShown`. -/
def flowShown (s : Stripe) (child : Frame) : Stripe :=
  let s1 :=
    if s.d_sequence_size > 1 then
      { s with d_sequenceLength := s.d_sequenceLength + s.spacing.get s.d_length }
    else s
  let s2 :=
    if !child.dexpand s1.d_length then s1.flowSizedLength child (child.doffset s1.d_length)
    else s1
  if !child.dexpand s2.d_depth then s2.flowSizedDepth child (child.doffset s2.d_depth)
  else s2

/-- The method `Stripe::flowHidden`. -/
def flowHidden (s : Stripe) (child : Frame) : Stripe :=
  let s1 :=
    if s.d_sequence_size > 1 then
      { s with d_sequenceLength := s.d_sequenceLength - s.spacing.get s.d_length }
    else s
  let s2 :=
    if !child.dexpand s1.d_length then s1.flowSizedLength child (-child.doffset s1.d_length)
    else s1
  if !child.dexpand s2.d_depth then s2.flowSizedDepth child (-child.doffset s2.d_depth)
  else s2

/-- The method `Stripe::insertFlow`. -/
def insertFlow (s : Stripe) (frame : Frame) (_index : Nat) : Stripe :=
  let s1 := { s with d_sequence_size := s.d_sequence_size + 1, d_relayout := true }
  if !frame.hidden then s1.flowShown frame else s1

/-- The method `Stripe::removeFlow`; the size of the sequence is a `size_t`, which
is at least 1 whenever the frame removed is in the sequence. -/
def removeFlow (s : Stripe) (frame : Frame) : Stripe :=
  let s1 := { s with d_sequence_size := s.d_sequence_size - 1, d_relayout := true }
  if !frame.hidden then s1.flowHidden frame else s1

/-! ### Structural operations -/

/-- The method `Stripe::insert`. The binding of the frame to its parent is a
pointer write outside the state modelled here. -/
def insert (s : Stripe) (frame : Frame) (index : Nat) : Option Stripe :=
  let index := if frame.flow then min s.d_sequence_size index else index
  match insertAt s.d_contents index frame with
  | none => none
  | some cs =>
    let s1 := reindex { s with d_contents := cs } index
    if frame.flow then some (s1.insertFlow (frame.setIndex index) index) else some s1

/-- The method `Stripe::append`. -/
def append (s : Stripe) (frame : Frame) : Option Stripe :=
  s.insert frame (if frame.flow then s.d_sequence_size else s.d_contents.length)

/-- The method `Stripe::remove`. The unbinding of the frame is a pointer write
outside the state modelled here. -/
def remove (s : Stripe) (frame : Frame) : Option Stripe :=
  match eraseAt s.d_contents frame.index with
  | none => none
  | some cs =>
    let s1 := reindex { s with d_contents := cs } frame.index
    if frame.flow then some (s1.removeFlow frame) else some s1

/-- The method `Stripe::clear`. -/
def clear (s : Stripe) : Stripe :=
  { s with d_contents := [], d_relayout := true }

/-- The method `Stripe::move`; the two positions are `size_t` subscripts of
`d_contents`. -/
def move (s : Stripe) (source target : Nat) : Option Stripe :=
  match swapAt s.d_contents source target with
  | none => none
  | some cs =>
    some (reindex { s with d_contents := cs } (if source < target then source else target))

/-! ### The layout pass -/

/-- The test of the two loops of `normalizeSpan`: length-expanding and not hidden. -/
def spanned (s : Stripe) (frame : Frame) : Bool :=
  frame.dexpand s.d_length && !frame.hidden

/-- The first loop of `normalizeSpan`: the running sum, in binary32, of the length
spans of the visible, length-expanding frames of the sequence (`span += ...`). -/
def spanSum (s : Stripe) : ℚ :=
  s.sequence.foldl
    (fun span frame => if s.spanned frame then round32 (span + frame.dspan s.d_length) else span)
    0

/-- The method `Stripe::normalizeSpan`: each visible, length-expanding frame of the
sequence gets the span `(1.f / span) * frame->dspan(d_length)`, the division
and the product being binary32 operations. A sum of 0, for which the division
gives an infinity, is outside what the function models. -/
def normalizeSpan (s : Stripe) : Stripe :=
  let span := s.spanSum
  { s with d_contents := s.mapSequence (fun frame =>
      if s.spanned frame then
        frame.setSpanDimDirect s.d_length (round32 (round32 (1 / span) * frame.dspan s.d_length))
      else frame) }

/-- The loop of `dispatchWeights`: the weight at position `index`, when it is not
negative, becomes the span of `d_contents[index]`. -/
def dispatchWeightsLoop (d : Dimension) : List ℚ → Nat → List Frame → Option (List Frame)
  | [], _, cs => some cs
  | w :: ws, index, cs =>
    if w ≥ 0 then
      match cs[index]? with
      | none => none
      | some frame => dispatchWeightsLoop d ws (index + 1) (cs.set index (frame.setSpanDim d w))
    else dispatchWeightsLoop d ws (index + 1) cs

/-- The method `Stripe::dispatchWeights`. -/
def dispatchWeights (s : Stripe) : Option Stripe :=
  match s.d_weights with
  | none => none
  | some ws =>
    match dispatchWeightsLoop s.d_length ws 0 s.d_contents with
    | none => none
    | some cs => some { s with d_contents := cs, d_weights := some [] }

/-- Modelled from the spec: the cast `as<Stripe>()` is defined on the frames whose
type is STRIPE or a later kind (the test `deepRelayout` makes before the cast). -/
def isStripe (frame : Frame) : Bool :=
  frame.frameType != FrameType.FRAME

/-- The body of the inner loop of `dispatchTableWeights` on one frame of the
sequence: a row whose own sequence has `n` frames gets weight `w` as the span,
on axis `d`, of its child number `index`. -/
def dispatchTableRow (d : Dimension) (n index : Nat) (w : ℚ) (frame : Frame) : Option Frame :=
  if isStripe frame then
    if frame.subSequenceSize = n then
      match frame.subSpans[index]? with
      | none => none
      | some sp => some { frame with subSpans := frame.subSpans.set index (sp.set d w) }
    else some frame
  else none

/-- The inner loop of `dispatchTableWeights` over the sequence. -/
def dispatchTableRows (d : Dimension) (n index : Nat) (w : ℚ) : List Frame → Option (List Frame)
  | [] => some []
  | frame :: rest =>
    match dispatchTableRow d n index w frame, dispatchTableRows d n index w rest with
    | some frame1, some rest1 => some (frame1 :: rest1)
    | _, _ => none

/-- The outer loop of `dispatchTableWeights` over the weights. -/
def dispatchTableLoop (d : Dimension) (n : Nat) : List ℚ → Nat → List Frame → Option (List Frame)
  | [], _, rows => some rows
  | w :: ws, index, rows =>
    match dispatchTableRows d n index w rows with
    | none => none
    | some rows1 => dispatchTableLoop d n ws (index + 1) rows1

/-- The method `Stripe::dispatchTableWeights`. -/
def dispatchTableWeights (s : Stripe) : Option Stripe :=
  match s.d_weights with
  | none => none
  | some ws =>
    match dispatchTableLoop s.d_depth ws.length ws 0 s.sequence with
    | none => none
    | some rows => some { s with d_contents := rows ++ s.d_contents.drop s.d_sequence_size }

/-- The loop of `positionSequence` over the sequence; `prev` is the last visible
frame placed and `perpOffset` the variable of that name. -/
def positionLoop (s : Stripe) (offset : ℚ) : ℚ → Option Frame → List Frame → List Frame
  | _, _, [] => []
  | perpOffset, prev, frame :: rest =>
    if !frame.hidden then
      let perp :=
        if s.align.get s.d_depth = Align.CENTER then
          (s.dspace s.d_depth - frame.doffset s.d_depth) / 2
        else if s.align.get s.d_length = Align.RIGHT then
          s.dspace s.d_depth - frame.doffset s.d_depth
        else perpOffset
      let placed := frame.setPositionDim s.d_length
        (match prev with
         | none => offset
         | some p => p.dposition s.d_length + p.dsize s.d_length + s.spacing.get s.d_length)
      let placed := placed.setPositionDim s.d_depth
        (perp + s.padding.get s.d_depth.toNat + frame.margin.get s.d_depth / 2)
      placed :: positionLoop s offset perp (some placed) rest
    else frame :: positionLoop s offset perpOffset prev rest

/-- The method `Stripe::positionSequence`. -/
def positionSequence (s : Stripe) : Stripe :=
  let offset := -s.d_cursor + s.padding.get s.d_length.toNat
  let offset :=
    if s.align.get s.d_length = Align.CENTER then offset + s.d_freeSpace / 2
    else if s.align.get s.d_length = Align.RIGHT then offset + s.d_freeSpace
    else offset
  { s with d_contents :=
      positionLoop s offset 0 none s.sequence ++ s.d_contents.drop s.d_sequence_size }

/-- The test `d_weights && d_weights->size() > 0` of `relayout`. -/
def hasWeights (s : Stripe) : Bool :=
  match s.d_weights with
  | none => false
  | some ws => decide (ws.length > 0)

/-- The weight dispatch of `relayout`. -/
def dispatch (s : Stripe) : Option Stripe :=
  if s.weight = Weight.LIST ∧ s.hasWeights = true then s.dispatchWeights
  else if s.weight = Weight.TABLE then s.dispatchTableWeights
  else some s

/-- The method `Stripe::relayout`. -/
def relayout (s : Stripe) : Option Stripe :=
  if !s.d_relayout then some s
  else
    match dispatch (normalizeSpan { s with d_relayout := false }) with
    | none => none
    | some s1 => some (positionSequence (expandLength (expandDepth s1)))

end Stripe

namespace Stripe

/-! ### Cursor -/

end Stripe


namespace Stripe

/-! ### Full recomputation and size notifications -/

/-- Modelled from the spec: `Stripe::offset(frame)`, declared in mkStripe.h: the length
extent of the frame plus the inter-item spacing of the Stripe ("the child's
length extent plus inter-item spacing"). -/
def offset (s : Stripe) (frame : Frame) : ℚ :=
  frame.doffset s.d_length + s.spacing.get s.d_length

/-- The method `Stripe::recomputeLength`. -/
def recomputeLength (s : Stripe) : Stripe :=
  let total := s.sequence.foldl
    (fun acc frame =>
      if !frame.dexpand s.d_depth && !frame.hidden then acc + s.offset frame else acc) 0
  updateLength { s with d_sequenceLength := total }

/-- The method `Stripe::flowSized`. -/
def flowSized (s : Stripe) (child : Frame) (dim : Dimension) (delta : ℚ) : Stripe :=
  if child.hidden then s
  else if dim = s.d_length then s.flowSizedLength child delta
  else s.flowSizedDepth child delta

end Stripe

namespace Stripe

/-! ### Hit testing -/

/-- The loop of `Stripe::pinpoint` over the children in the order it visits them.
`visible` stands for `Frame::visible` and `hit` for the virtual call
`frame->pinpoint(x, y, opaque)` at the point tested, both declared in mkFrame.h;
a frame returned is given by its name, the null pointer by `none`. -/
def pinpointLoop (visible : Frame → Bool) (hit : Frame → Option Nat) :
    List Frame → Option Nat
  | [] => none
  | frame :: rest =>
    if visible frame && frame.frameType != FrameType.LAYER3D then
      match hit frame with
      | some target => some target
      | none => pinpointLoop visible hit rest
    else pinpointLoop visible hit rest

/-- The method `Stripe::pinpoint` at one point: `inside` is the value of
`this->inside(x, y)` and `base` the result of `Frame::pinpoint(x, y, opaque)` on
the Stripe itself; the loop runs over `reverse_adapt(d_contents)`. -/
def pinpoint (s : Stripe) (inside : Bool) (visible : Frame → Bool) (hit : Frame → Option Nat)
    (base : Option Nat) : Option Nat :=
  if !inside then none
  else
    match pinpointLoop visible hit s.d_contents.reverse with
    | some target => some target
    | none => base

end Stripe

/-! ## Style attributes -/

/-- The class template `StyleAttr<T>` of mkStyle.h: a value and the flag telling that
it was set explicitly. -/
structure StyleAttr (α : Type) where
  val : α
  set : Bool
  deriving DecidableEq, Repr

namespace StyleAttr

/-- The converting constructor `StyleAttr(const T& v)`: the flag is false. -/
def ofVal {α : Type} (v : α) : StyleAttr α := { val := v, set := false }

/-- The method `StyleAttr::copy`. -/
def copy {α : Type} (a other : StyleAttr α) (inherit : Bool) : StyleAttr α :=
  if inherit && a.set then a
  else { val := other.val, set := if !inherit then other.set else a.set }

end StyleAttr

/-- Modelled from the spec: the pair of pivots `DimPivot` of mkDim.h, each given by
its numeric value. -/
abbrev DimPivot := Dim Nat

/-- The attributes of the class `LayoutStyle` of mkStyle.h. The enumerations `Flow`,
`Clipping`, `Opacity` and `Space` of mkDim.h are given by their numeric values. -/
structure LayoutStyle where
  d_flow : StyleAttr Nat
  d_clipping : StyleAttr Nat
  d_opacity : StyleAttr Nat
  d_space : StyleAttr Nat
  d_layoutDim : StyleAttr Dimension
  d_span : StyleAttr DimFloat
  d_size : StyleAttr DimFloat
  d_padding : StyleAttr BoxFloat
  d_margin : StyleAttr DimFloat
  d_spacing : StyleAttr DimFloat
  d_pivot : StyleAttr DimPivot
  d_weight : StyleAttr Weight
  d_weights : StyleAttr (List ℚ)
  d_updated : Nat
  deriving DecidableEq, Repr

namespace LayoutStyle

/-- The method `LayoutStyle::copy`: `d_flow` is copied from the attribute of `other`,
every other attribute from the value of the attribute of `other`, which the
converting constructor wraps with a false flag. -/
def copy (s other : LayoutStyle) (inherit : Bool) : LayoutStyle :=
  { s with
    d_flow := s.d_flow.copy other.d_flow inherit
    d_clipping := s.d_clipping.copy (StyleAttr.ofVal other.d_clipping.val) inherit
    d_opacity := s.d_opacity.copy (StyleAttr.ofVal other.d_opacity.val) inherit
    d_space := s.d_space.copy (StyleAttr.ofVal other.d_space.val) inherit
    d_layoutDim := s.d_layoutDim.copy (StyleAttr.ofVal other.d_layoutDim.val) inherit
    d_span := s.d_span.copy (StyleAttr.ofVal other.d_span.val) inherit
    d_size := s.d_size.copy (StyleAttr.ofVal other.d_size.val) inherit
    d_padding := s.d_padding.copy (StyleAttr.ofVal other.d_padding.val) inherit
    d_margin := s.d_margin.copy (StyleAttr.ofVal other.d_margin.val) inherit
    d_spacing := s.d_spacing.copy (StyleAttr.ofVal other.d_spacing.val) inherit
    d_pivot := s.d_pivot.copy (StyleAttr.ofVal other.d_pivot.val) inherit
    d_weight := s.d_weight.copy (StyleAttr.ofVal other.d_weight.val) inherit
    d_weights := s.d_weights.copy (StyleAttr.ofVal other.d_weights.val) inherit }

end LayoutStyle

/-! ## The columns of the node canvas -/

/-- The value an `int` expression of mathematical value `v` has on a 32-bit two's
complement machine. Signed overflow is not defined by the language; out of range
this is the value the wrapping arithmetic of the hardware leaves. -/
def wrapInt (v : Int) : Int := (v + 2147483648) % 4294967296 - 2147483648

/-- Modelled from the spec: the class `Node` of Node.h, reduced to the member
`m_order` that `layoutNodes` reads, an `int`. -/
structure Node where
  m_order : Int
  deriving DecidableEq, Repr

namespace Canvas

/-- The variable `minIndex` of `Canvas::layoutNodes` after the first loop. -/
def minIndex (nodes : List Node) : Int :=
  nodes.foldl (fun acc node => min acc node.m_order) 0

/-- The variable `maxIndex` of `Canvas::layoutNodes` after the first loop. -/
def maxIndex (nodes : List Node) : Int :=
  nodes.foldl (fun acc node => max acc node.m_order) 0

/-- The variable `shift` of `Canvas::layoutNodes`. -/
def shift (nodes : List Node) : Int :=
  wrapInt (-(min 0 (minIndex nodes)))

/-- The number of columns the second loop of `Canvas::layoutNodes` creates: the
number of `i` from 0 on with `i < maxIndex + shift + 1`. -/
def columnCount (nodes : List Node) : Nat :=
  (wrapInt (wrapInt (maxIndex nodes + shift nodes) + 1)).toNat

/-- The subscript `node->m_order + shift` of `columns` in the third loop. -/
def columnIndex (nodes : List Node) (node : Node) : Int :=
  wrapInt (node.m_order + shift nodes)

/-- The part of `Canvas::layoutNodes` that builds the columns: the number of columns
created and, for each node in order, the subscript of the column it is put
in. -/
def layoutNodes (nodes : List Node) : Nat × List Int :=
  (columnCount nodes, nodes.map (columnIndex nodes))

end Canvas
/-! ## Vocabulary of the properties -/

/-- The frame with its size forgotten: what the expansion steps never change. -/
def Frame.forgetSize (f : Frame) : Frame := { f with size := ⟨0, 0⟩ }

/-- Frame `g` is frame `f` after expansion steps: equal but for the size on the
axes on which the frame expands. -/
def Frame.Resized (f g : Frame) : Prop :=
  g.forgetSize = f.forgetSize ∧ ∀ d, f.dexpand d = false → g.size.get d = f.size.get d

/-- Stripe `t` is Stripe `s` after size bookkeeping (`updateLength`, `updateDepth`,
`resized`, the `flowSized` family): the style values, the cursor, the size of
the sequence and the weights are those of `s`, and the contents are those of
`s` up to the sizes of expanding frames. -/
structure Stripe.Kept (s t : Stripe) : Prop where
  sizing : t.sizing = s.sizing
  layoutDim : t.layoutDim = s.layoutDim
  padding : t.padding = s.padding
  spacing : t.spacing = s.spacing
  weight : t.weight = s.weight
  align : t.align = s.align
  d_cursor : t.d_cursor = s.d_cursor
  d_sequence_size : t.d_sequence_size = s.d_sequence_size
  d_floatDepth : t.d_floatDepth = s.d_floatDepth
  d_weights : t.d_weights = s.d_weights
  contents : List.Forall₂ Frame.Resized s.d_contents t.d_contents

/-- Stripe `t` is Stripe `s` after size bookkeeping that leaves the length of the
sequence alone: `d_sequenceLength` is that of `s`, and a set dirty flag is still
set. -/
def Stripe.Tracked (s t : Stripe) : Prop :=
  t.d_sequenceLength = s.d_sequenceLength ∧ (s.d_relayout = true → t.d_relayout = true)

/-- Index integrity: the frame held at position `i` has index `i`. -/
def IndexOk (cs : List Frame) : Prop :=
  ∀ (i : Nat) (f : Frame), cs[i]? = some f → f.index = i

/-- The position at which `insert` splices the frame: `index`, brought down to the
size of the sequence for a flow frame. -/
def Stripe.insertIndex (s : Stripe) (frame : Frame) (index : Nat) : Nat :=
  if frame.flow then min s.d_sequence_size index else index

/-- The Stripe with `frame` spliced into its contents before position `i`. -/
def Stripe.spliced (s : Stripe) (frame : Frame) (i : Nat) : Stripe :=
  { s with d_contents := s.d_contents.take i ++ frame :: s.d_contents.drop i }

/-! ### Scenario data -/

/-- A leaf frame of depth 20 and span 1, at the origin, of fixed depth, with no
margin: `name`, flow and hidden flags, size policy on x and size on x are given. -/
def Frame.leaf (name : Nat) (flow hidden : Bool) (policy : Sizing) (length : ℚ) (index : Nat) :
    Frame :=
  { name := name, flow := flow, hidden := hidden, index := index,
    sizing := ⟨policy, Sizing.FIXED⟩, position := ⟨0, 0⟩, size := ⟨length, 20⟩,
    span := ⟨1, 1⟩, margin := ⟨0, 0⟩, frameType := FrameType.FRAME,
    subSequenceSize := 0, subSpans := [] }

/-- The container of the scenarios of the specification, as constructed: a
horizontal Stripe of length 300 and depth 40, of fixed size, padding 0, spacing
10 on its length, LEFT alignment, weight mode NONE. -/
def Stripe.row : Stripe :=
  Stripe.construct
    { size := ⟨300, 40⟩, sizing := ⟨Sizing.FIXED, Sizing.FIXED⟩, layoutDim := Dimension.DIM_X,
      padding := ⟨0, 0, 0, 0⟩, spacing := ⟨10, 0⟩, weight := Weight.NONE,
      align := ⟨Align.LEFT, Align.LEFT⟩, d_cursor := 0, d_contents := [],
      d_sequence_size := 0, d_sequenceLength := 0, d_freeSpace := 0, d_floatDepth := 0,
      d_maxDepth := 0, d_relayout := true, d_weights := none }

/-- The row holding three visible flow children of length 50 (Scenario A), as three
calls of `append` leave it. -/
def Stripe.three : Stripe :=
  { Stripe.row with
    d_contents := [Frame.leaf 1 true false Sizing.FIXED 50 0,
      Frame.leaf 2 true false Sizing.FIXED 50 1, Frame.leaf 3 true false Sizing.FIXED 50 2]
    d_sequence_size := 3
    d_sequenceLength := 170
    d_maxDepth := 20 }

/-! ### Sequences of structural operations -/

/-- A structural call on a Stripe: `insert(frame, index)`, `append(frame)`,
`remove(frame)` for the child held at `position`, `move(source, target)`. -/
inductive Op where
  | insert (frame : Frame) (index : Nat)
  | append (frame : Frame)
  | remove (position : Nat)
  | move (source target : Nat)
  deriving DecidableEq, Repr

/-- One structural call; `remove` is called with the frame held at the position. -/
def Stripe.step (s : Stripe) : Op → Option Stripe
  | Op.insert frame index => s.insert frame index
  | Op.append frame => s.append frame
  | Op.remove position =>
    match s.d_contents[position]? with
    | none => none
    | some frame => s.remove frame
  | Op.move source target => s.move source target

/-- A sequence of structural calls, each on the Stripe the one before it left. -/
def Stripe.run : Stripe → List Op → Option Stripe
  | s, [] => some s
  | s, op :: rest =>
    match s.step op with
    | none => none
    | some t => t.run rest

/-- The call is in range: its subscripts are positions of `d_contents` (the end
included for `insert`). -/
def Op.inRange (s : Stripe) : Op → Bool
  | Op.insert _ index => decide (index ≤ s.d_contents.length)
  | Op.append _ => true
  | Op.remove position => decide (position < s.d_contents.length)
  | Op.move source target =>
    decide (source < s.d_contents.length) && decide (target < s.d_contents.length)

/-- The call respects the two regions of `d_contents`: a non-flow frame is inserted
at or after the end of the sequence, and `move` exchanges two frames of the
sequence or two frames after it. -/
def Op.regional (s : Stripe) : Op → Bool
  | Op.insert frame index => frame.flow || decide (s.d_sequence_size ≤ index)
  | Op.append _ => true
  | Op.remove _ => true
  | Op.move source target =>
    decide (source < s.d_sequence_size ↔ target < s.d_sequence_size)

/-- Every call of the sequence is in range on the Stripe it is made on. -/
def Stripe.inRangeRun : Stripe → List Op → Bool
  | _, [] => true
  | s, op :: rest =>
    op.inRange s &&
      match s.step op with
      | none => false
      | some t => t.inRangeRun rest

/-- Every call of the sequence is in range and respects the regions on the Stripe
it is made on. -/
def Stripe.regionalRun : Stripe → List Op → Bool
  | _, [] => true
  | s, op :: rest =>
    op.inRange s && op.regional s &&
      match s.step op with
      | none => false
      | some t => t.regionalRun rest

/-- The first `k` flags are true and the others false. -/
def Prefixed (k : Nat) (bs : List Bool) : Prop :=
  k ≤ bs.length ∧ ∀ (i : Nat) (b : Bool), bs[i]? = some b → (b = true ↔ i < k)

/-- The flow frames of the contents are exactly its first `k` frames. -/
def FlowFirst (k : Nat) (cs : List Frame) : Prop :=
  Prefixed k (cs.map Frame.flow)

/-- The calls of the counterexample of C2: a flow frame is inserted at position 0,
then a non-flow frame at position 0. -/
def sequenceBreakingOps : List Op :=
  [Op.insert (Frame.leaf 1 true false Sizing.FIXED 50 0) 0,
   Op.insert (Frame.leaf 2 false false Sizing.FIXED 50 0) 0]

/-- The calls of the witness of C2: appends of flow and non-flow frames, an insert
of a flow frame at the front, an exchange inside the sequence and a removal. -/
def regionalOps : List Op :=
  [Op.append (Frame.leaf 1 true false Sizing.FIXED 50 0),
   Op.append (Frame.leaf 2 false false Sizing.FIXED 50 0),
   Op.insert (Frame.leaf 3 true true Sizing.EXPAND 50 0) 0,
   Op.insert (Frame.leaf 4 false false Sizing.FIXED 50 0) 2,
   Op.move 0 1,
   Op.remove 1]

/-! ### Quantities of the specification -/

/-- The visible flow children: the frames of the sequence that are not hidden. -/
def Stripe.visibleFlow (s : Stripe) : List Frame :=
  s.sequence.filter (fun f => !f.hidden)

/-- The sum of the length extents of the visible flow children that are not
length-expanding. -/
def Stripe.extentSum (s : Stripe) : ℚ :=
  ((s.visibleFlow.filter (fun f => !f.dexpand s.d_length)).map
    (fun f => f.doffset s.d_length)).sum

/-- The value the specification gives to `sequenceLength`: the extents of the
visible, non-length-expanding flow children and `N - 1` spacings for `N` visible
flow children; 0 when there is none. -/
def Stripe.specLength (s : Stripe) : ℚ :=
  if s.visibleFlow.length = 0 then 0
  else s.extentSum + ((s.visibleFlow.length : ℚ) - 1) * s.spacing.get s.d_length

/-- The frame with its hidden flag cleared. -/
def Frame.unhidden (f : Frame) : Frame := { f with hidden := false }

/-- Modelled from the spec: a hidden child of the Stripe is made visible
(`Frame::show` is not in src): its hidden flag is cleared and the Stripe is
notified by `flowShown`. -/
def Stripe.shown (s : Stripe) (position : Nat) : Option Stripe :=
  match s.d_contents[position]? with
  | none => none
  | some frame =>
    some (Stripe.flowShown { s with d_contents := s.d_contents.set position frame.unhidden }
      frame.unhidden)

/-- The frame with its spans forgotten: what the span normalisation and the weight
dispatch never change. -/
def Frame.forgetSpan (f : Frame) : Frame := { f with span := ⟨0, 0⟩, subSpans := [] }

/-- The steps of `relayout` after the weight dispatch. -/
def Stripe.arrange (s : Stripe) : Stripe :=
  s.expandDepth.expandLength.positionSequence

/-- The three-child row of Scenario A in weight mode LIST with the pending weights
2 and 3, after a layout pass has cleared its dirty flag. -/
def Stripe.pending : Stripe :=
  { Stripe.three with weight := Weight.LIST, d_weights := some [2, 3], d_relayout := false }

/-- The frame a call inserts. -/
def Op.frame : Op → Option Frame
  | Op.insert frame _ => some frame
  | Op.append frame => some frame
  | Op.remove _ => none
  | Op.move _ _ => none

/-- The calls of the failing input of C4: a hidden flow child of length 50 is
appended to the empty row, then a visible one. -/
def hiddenFirstOps : List Op :=
  [Op.append (Frame.leaf 1 true true Sizing.FIXED 50 0),
   Op.append (Frame.leaf 2 true false Sizing.FIXED 50 0)]

/-- The calls of Scenario A: three visible flow children of length 50 are appended to
the empty row. -/
def scenarioA : List Op :=
  [Op.append (Frame.leaf 1 true false Sizing.FIXED 50 0),
   Op.append (Frame.leaf 2 true false Sizing.FIXED 50 0),
   Op.append (Frame.leaf 3 true false Sizing.FIXED 50 0)]

/-- The calls of Scenario B: three visible flow children of length 50 are appended
to the empty row, the middle one length-expanding with span 1. -/
def scenarioB : List Op :=
  [Op.append (Frame.leaf 1 true false Sizing.FIXED 50 0),
   Op.append (Frame.leaf 2 true false Sizing.EXPAND 50 0),
   Op.append (Frame.leaf 3 true false Sizing.FIXED 50 0)]

/-! ### Table dispatch -/

/-- The relation between a row of the sequence before (`row`) and after (`out`) the
dispatch of the weights `ws` to the columns `index`, `index + 1`, ... on axis
`d`, for a weight table of size `n`: a row whose own sequence has another size
is untouched; in a row whose own sequence has size `n`, child `index + i` gets
weight `ws[i]` as its span on `d`, and the children before `index` and after the
last column keep their spans. -/
def TableRow (d : Dimension) (n : Nat) (ws : List ℚ) (index : Nat) (row out : Frame) : Prop :=
  (row.subSequenceSize ≠ n → out = row) ∧
  (row.subSequenceSize = n →
    out.subSequenceSize = n ∧
    (∀ i, i < index ∨ index + ws.length ≤ i → out.subSpans[i]? = row.subSpans[i]?) ∧
    (∀ i w, ws[i]? = some w →
      ∃ sp, row.subSpans[index + i]? = some sp ∧
        out.subSpans[index + i]? = some (sp.set d w)))

/-- What the table dispatch keeps of a row: its kind, the size of its own sequence
and the number of its children. -/
def RowShape (row out : Frame) : Prop :=
  Stripe.isStripe out = Stripe.isStripe row ∧ out.subSequenceSize = row.subSequenceSize ∧
    out.subSpans.length = row.subSpans.length

/-- A frame of the sequence that is itself a Stripe (a row of a table): `count` is
the size of its own sequence and `spans` the spans of its own contents. -/
def Frame.tableRow (name : Nat) (count : Nat) (spans : List DimFloat) : Frame :=
  { name := name, flow := true, hidden := false, index := name,
    sizing := ⟨Sizing.EXPAND, Sizing.SHRINK⟩, position := ⟨0, 0⟩, size := ⟨0, 0⟩,
    span := ⟨1, 1⟩, margin := ⟨0, 0⟩, frameType := FrameType.STRIPE,
    subSequenceSize := count, subSpans := spans }

/-- A vertical TABLE-mode Stripe with the weight table 2, 3, 4 and three rows: row 0
has three children, all in its sequence; row 1 has three children of which two
are in its sequence (one is a non-flow child); row 2 has four children of which
three are in its sequence. -/
def Stripe.table : Stripe :=
  { Stripe.row with
    layoutDim := Dimension.DIM_Y
    weight := Weight.TABLE
    d_weights := some [2, 3, 4]
    d_sequence_size := 3
    d_contents :=
      [Frame.tableRow 0 3 [⟨1, 1⟩, ⟨1, 1⟩, ⟨1, 1⟩],
       Frame.tableRow 1 2 [⟨1, 1⟩, ⟨1, 1⟩, ⟨1, 1⟩],
       Frame.tableRow 2 3 [⟨1, 1⟩, ⟨1, 1⟩, ⟨1, 1⟩, ⟨1, 1⟩]] }

/-! ### Scenario data of the later properties -/

/-- The three-child row of Scenario A after a layout pass has cleared its dirty
flag. -/
def Stripe.clean : Stripe :=
  { Stripe.three with d_relayout := false }

/-- The frame `normalizeSpan` leaves in place of `frame`: a visible, length-expanding
frame has its length span multiplied by the reciprocal of the sum `total`, both
operations in binary32. -/
def Stripe.normalized (s : Stripe) (total : ℚ) (frame : Frame) : Frame :=
  if s.spanned frame then
    frame.setSpanDimDirect s.d_length (round32 (round32 (1 / total) * frame.dspan s.d_length))
  else frame

/-- The length spans of the visible, length-expanding frames of the sequence, in
order: the values `normalizeSpan` reads. -/
def Stripe.spannedSpans (s : Stripe) : List ℚ :=
  (s.sequence.filter (fun f => s.spanned f)).map (fun f => f.dspan s.d_length)

/-- The unit roundoff of binary32: half the spacing of the values between 1 and 2. -/
def unit32 : ℚ := 1 / 16777216

/-- The least positive normal binary32 value, `2 ^ (-126)`. -/
def tiny32 : ℚ := 1 / 85070591730234615865843651857942052864

/-- The three-child row of Scenario A in which the children are length-expanding with
the spans 3, 3 and 1. -/
def Stripe.sevenths : Stripe :=
  { Stripe.three with
    d_contents :=
      [{ Frame.leaf 1 true false Sizing.EXPAND 50 0 with span := ⟨3, 1⟩ },
       { Frame.leaf 2 true false Sizing.EXPAND 50 1 with span := ⟨3, 1⟩ },
       { Frame.leaf 3 true false Sizing.EXPAND 50 2 with span := ⟨1, 1⟩ }] }

/-- The frame `dispatchWeights` leaves in place of `frame` when `weight` is the entry
of the weight table at its position: a weight that is not negative becomes the
length span. -/
def Stripe.weighted (s : Stripe) (weight : Option ℚ) (frame : Frame) : Frame :=
  match weight with
  | none => frame
  | some w => if w ≥ 0 then frame.setSpanDim s.d_length w else frame

/-- The three-child row of Scenario A with the pending weights -1 and 3. -/
def Stripe.negative : Stripe :=
  { Stripe.three with weight := Weight.LIST, d_weights := some [-1, 3] }

/-- The three-child row of Scenario A in which the spans of the children are 1, 3 and
2, the first two children being length-expanding, the second hidden. -/
def Stripe.spans : Stripe :=
  { Stripe.three with
    d_contents :=
      [{ Frame.leaf 1 true false Sizing.EXPAND 50 0 with span := ⟨1, 1⟩ },
       { Frame.leaf 2 true true Sizing.EXPAND 50 1 with span := ⟨3, 1⟩ },
       { Frame.leaf 3 true false Sizing.EXPAND 50 2 with span := ⟨3, 1⟩ },
       { Frame.leaf 4 true false Sizing.FIXED 50 3 with span := ⟨2, 1⟩ }]
    d_sequence_size := 4 }

/-- The three-child row of Scenario B: the middle child is length-expanding, every
child is a flow child. -/
def Stripe.stretch : Stripe :=
  { Stripe.three with
    d_contents := [Frame.leaf 1 true false Sizing.FIXED 50 0,
      Frame.leaf 2 true false Sizing.EXPAND 50 1, Frame.leaf 3 true false Sizing.FIXED 50 2] }

/-- The positions the specification gives to children of lengths `sizes` laid one
after the other from `start` with the gap `g`: each one starts where the previous
one ends, plus the gap. -/
def runningPositions (g : ℚ) : ℚ → List ℚ → List ℚ
  | _, [] => []
  | start, x :: xs => start :: runningPositions g (start + x + g) xs

/-- The row of the scenarios holding one hidden flow child of length 50 and depth 20,
as `append` leaves it: the hidden child counts neither in `d_sequenceLength` nor
in `d_maxDepth`. -/
def Stripe.lone : Stripe :=
  { Stripe.row with
    d_contents := [Frame.leaf 1 true true Sizing.FIXED 50 0]
    d_sequence_size := 1 }

/-- The row of the scenarios holding exactly one visible flow child of length 50 and
depth 20, as one call of `append` leaves it. -/
def Stripe.one : Stripe :=
  { Stripe.row with
    d_contents := [Frame.leaf 1 true false Sizing.FIXED 50 0]
    d_sequence_size := 1
    d_sequenceLength := 50
    d_maxDepth := 20 }

/-- The calls of the round trip on a Stripe whose sequence has `size` frames: a visible
flow frame of length 50 is inserted at the end of the sequence and removed
again. -/
def roundTrip (size : Nat) : List Op :=
  [Op.insert (Frame.leaf 9 true false Sizing.FIXED 50 0) size, Op.remove size]

/-- The first child of Scenario A after its depth has grown from 20 to 25. -/
def Frame.grown : Frame :=
  { Frame.leaf 1 true false Sizing.FIXED 50 0 with size := ⟨50, 25⟩ }

/-- The clean three-child row of Scenario A in which the first child has just grown to
depth 25: the state in which the child notifies the row with
`flowSized(child, DIM_Y, 5)`. -/
def Stripe.notified : Stripe :=
  { Stripe.clean with
    d_contents := [Frame.grown, Frame.leaf 2 true false Sizing.FIXED 50 1,
      Frame.leaf 3 true false Sizing.FIXED 50 2] }

/-- The length of the sequence as the specification states it for `recomputeLength`:
the sum, over the visible frames of the sequence that are not length-expanding,
of the length extent plus the inter-item spacing. -/
def Stripe.specRecomputedLength (s : Stripe) : ℚ :=
  ((s.sequence.filter (fun f => !f.dexpand s.d_length && !f.hidden)).map
    (fun f => f.doffset s.d_length + s.spacing.get s.d_length)).sum

/-- The largest of 0 and the values of the list, taken from the left as the loop of
`recomputeDepth` does. -/
def maxOf (l : List ℚ) : ℚ := l.foldl max 0

/-- The value of `maxDepth` as the specification states it for `recomputeDepth`: the
maximum depth extent among the frames of the sequence that are depth-shrinking,
0 when there is none. -/
def Stripe.specRecomputedDepth (s : Stripe) : ℚ :=
  maxOf ((s.sequence.filter (fun f => f.dshrink s.d_depth)).map (fun f => f.doffset s.d_depth))

/-- The row of the scenarios (of fixed depth) holding one visible flow child of depth
20 that is depth-shrinking. -/
def Stripe.wrapped : Stripe :=
  { Stripe.one with
    d_contents :=
      [{ Frame.leaf 1 true false Sizing.FIXED 50 0 with sizing := ⟨Sizing.FIXED, Sizing.SHRINK⟩ }] }

/-- The three-child row of Scenario A made depth-shrinking itself; its children are of
fixed depth 20. -/
def Stripe.hugging : Stripe :=
  { Stripe.three with sizing := ⟨Sizing.FIXED, Sizing.SHRINK⟩ }

/-- A child is eligible at the point tested: it is visible, it is not a 3D layer, and
its own hit test yields a frame. -/
def Frame.eligible (visible : Frame → Bool) (hit : Frame → Option Nat) (f : Frame) : Bool :=
  visible f && f.frameType != FrameType.LAYER3D && (hit f).isSome

/-- A hit test for the examples: the children named 2 and 3 are hit and return
themselves. -/
def hitAbove (f : Frame) : Option Nat :=
  if 2 ≤ f.name ∧ f.name ≤ 3 then some f.name else none

/-- The three-child row of Scenario A in which the last child is a 3D layer. -/
def Stripe.layered : Stripe :=
  { Stripe.three with
    d_contents := [Frame.leaf 1 true false Sizing.FIXED 50 0,
      Frame.leaf 2 true false Sizing.FIXED 50 1,
      { Frame.leaf 3 true false Sizing.FIXED 50 2 with frameType := FrameType.LAYER3D }] }

/-- The result of the cascade on one attribute: the flag is that of the target, the
value is that of the target when its flag is set and that of `other` when it
is not. -/
def StyleAttr.Cascaded {α : Type} (target other result : StyleAttr α) : Prop :=
  result.set = target.set ∧ result.val = if target.set then target.val else other.val


/-! ### Incremental depth tracking -/

theorem Dim.get_set {α : Type} (v : Dim α) (d e : Dimension) (a : α) :
    (v.set d a).get e = if e = d then a else v.get e := by
  cases d <;> cases e <;> simp [Dim.set, Dim.get]

theorem Frame.resized_refl (f : Frame) : Frame.Resized f f := ⟨rfl, fun _ _ => rfl⟩

theorem Frame.resized_trans {f g h : Frame} (a : Frame.Resized f g) (b : Frame.Resized g h) :
    Frame.Resized f h := by
  refine ⟨b.1.trans a.1, fun d hd => ?_⟩
  have hg : g.dexpand d = false := by
    have := congrArg Frame.sizing a.1
    simp only [Frame.forgetSize] at this
    simpa [Frame.dexpand, this] using hd
  rw [b.2 d hg, a.2 d hd]

theorem Frame.resized_setSizeDim (f : Frame) (d : Dimension) (v : ℚ) (h : f.dexpand d = true) :
    Frame.Resized f (f.setSizeDim d v) := by
  refine ⟨rfl, fun e he => ?_⟩
  have : e ≠ d := by rintro rfl; rw [h] at he; cases he
  simp [Frame.setSizeDim, Dim.get_set, this]

theorem forall₂_resized_refl (cs : List Frame) : List.Forall₂ Frame.Resized cs cs :=
  List.forall₂_same.2 (fun f _ => Frame.resized_refl f)

theorem forall₂_resized_trans {a b c : List Frame} (h1 : List.Forall₂ Frame.Resized a b)
    (h2 : List.Forall₂ Frame.Resized b c) : List.Forall₂ Frame.Resized a c := by
  induction h1 generalizing c with
  | nil => cases h2; exact List.Forall₂.nil
  | cons h _ ih =>
    cases h2 with
    | cons h' t' => exact List.Forall₂.cons (Frame.resized_trans h h') (ih t')

namespace Stripe

theorem kept_refl (s : Stripe) : Kept s s :=
  ⟨rfl, rfl, rfl, rfl, rfl, rfl, rfl, rfl, rfl, rfl, forall₂_resized_refl _⟩

theorem kept_trans {s t u : Stripe} (a : Kept s t) (b : Kept t u) : Kept s u :=
  ⟨b.sizing.trans a.sizing, b.layoutDim.trans a.layoutDim, b.padding.trans a.padding,
   b.spacing.trans a.spacing, b.weight.trans a.weight, b.align.trans a.align,
   b.d_cursor.trans a.d_cursor, b.d_sequence_size.trans a.d_sequence_size,
   b.d_floatDepth.trans a.d_floatDepth, b.d_weights.trans a.d_weights,
   forall₂_resized_trans a.contents b.contents⟩

theorem expandLengthLoop_fst (s : Stripe) (space : ℚ) (cs : List Frame) (free : ℚ) :
    List.Forall₂ Frame.Resized cs (expandLengthLoop s space cs free).1 := by
  induction cs generalizing free with
  | nil => exact List.Forall₂.nil
  | cons f fs ih =>
    unfold expandLengthLoop
    by_cases h : f.dexpand s.d_length = true
    · simp only [h, if_true]
      refine List.Forall₂.cons ?_ (ih 0)
      split
      · exact Frame.resized_setSizeDim _ _ _ h
      · exact Frame.resized_setSizeDim _ _ _ h
    · simp only [h]
      exact List.Forall₂.cons (Frame.resized_refl f) (ih free)

theorem kept_expandLength (s : Stripe) : Kept s s.expandLength :=
  ⟨rfl, rfl, rfl, rfl, rfl, rfl, rfl, rfl, rfl, rfl, expandLengthLoop_fst _ _ _ _⟩

theorem kept_expandDepth (s : Stripe) : Kept s s.expandDepth := by
  refine ⟨rfl, rfl, rfl, rfl, rfl, rfl, rfl, rfl, rfl, rfl, ?_⟩
  simp only [expandDepth]
  rw [List.forall₂_map_right_iff]
  refine List.forall₂_same.2 (fun f _ => ?_)
  split
  · exact Frame.resized_setSizeDim _ _ _ (by assumption)
  · exact Frame.resized_refl f

theorem kept_resized (s : Stripe) (dim : Dimension) : Kept s (s.resized dim) := by
  unfold resized
  by_cases h : dim = s.d_length
  · simp only [h, if_true]
    exact ⟨rfl, rfl, rfl, rfl, rfl, rfl, rfl, rfl, rfl, rfl, (kept_expandLength s).contents⟩
  · simp only [h, if_false]
    exact ⟨rfl, rfl, rfl, rfl, rfl, rfl, rfl, rfl, rfl, rfl, (kept_expandDepth s).contents⟩

theorem kept_setSizeDim (s : Stripe) (dim : Dimension) (v : ℚ) : Kept s (s.setSizeDim dim v) := by
  unfold setSizeDim
  split
  · exact kept_refl s
  · have a : Kept s { s with size := s.size.set dim v } :=
      ⟨rfl, rfl, rfl, rfl, rfl, rfl, rfl, rfl, rfl, rfl, forall₂_resized_refl _⟩
    exact kept_trans a (kept_resized _ dim)

theorem kept_updateLength (s : Stripe) : Kept s s.updateLength := by
  unfold updateLength
  split
  · exact kept_setSizeDim _ _ _
  · exact kept_refl s

theorem kept_updateDepth (s : Stripe) : Kept s s.updateDepth := by
  unfold updateDepth
  split
  · exact kept_setSizeDim _ _ _
  · exact kept_refl s

theorem kept_recomputeDepth (s : Stripe) : Kept s s.recomputeDepth := by
  have a : ∀ m, Kept s { s with d_maxDepth := m } := fun _ =>
    ⟨rfl, rfl, rfl, rfl, rfl, rfl, rfl, rfl, rfl, rfl, forall₂_resized_refl _⟩
  exact kept_trans (a _) (kept_updateDepth _)

theorem kept_flowSizedLength (s : Stripe) (child : Frame) (delta : ℚ) :
    Kept s (s.flowSizedLength child delta) := by
  unfold flowSizedLength
  have h := kept_updateLength { s with d_sequenceLength := s.d_sequenceLength + delta }
  exact ⟨h.sizing, h.layoutDim, h.padding, h.spacing, h.weight, h.align, h.d_cursor,
    h.d_sequence_size, h.d_floatDepth, h.d_weights, h.contents⟩

theorem kept_flowSizedDepth (s : Stripe) (child : Frame) (delta : ℚ) :
    Kept s (s.flowSizedDepth child delta) := by
  unfold flowSizedDepth
  split
  · exact kept_recomputeDepth s
  · split
    · have a : ∀ m, Kept s { s with d_maxDepth := m } := fun _ =>
        ⟨rfl, rfl, rfl, rfl, rfl, rfl, rfl, rfl, rfl, rfl, forall₂_resized_refl _⟩
      exact kept_trans (a _) (kept_updateDepth _)
    · exact kept_refl s

theorem kept_spaced (s : Stripe) (v : ℚ) (c : Prop) [Decidable c] :
    Kept s (if c then { s with d_sequenceLength := v } else s) := by
  split
  · exact ⟨rfl, rfl, rfl, rfl, rfl, rfl, rfl, rfl, rfl, rfl, forall₂_resized_refl _⟩
  · exact kept_refl s

theorem kept_ite (s t : Stripe) (c : Prop) [Decidable c] (h : Kept s t) :
    Kept s (if c then t else s) := by
  split
  · exact h
  · exact kept_refl s

theorem kept_flowShown (s : Stripe) (child : Frame) : Kept s (s.flowShown child) :=
  kept_trans (kept_trans (kept_spaced s _ _) (kept_ite _ _ _ (kept_flowSizedLength _ _ _)))
    (kept_ite _ _ _ (kept_flowSizedDepth _ _ _))

theorem kept_flowHidden (s : Stripe) (child : Frame) : Kept s (s.flowHidden child) :=
  kept_trans (kept_trans (kept_spaced s _ _) (kept_ite _ _ _ (kept_flowSizedLength _ _ _)))
    (kept_ite _ _ _ (kept_flowSizedDepth _ _ _))

end Stripe

/-! ## Index integrity -/

theorem map_forgetSize_of_resized {cs ds : List Frame} (h : List.Forall₂ Frame.Resized cs ds) :
    ds.map Frame.forgetSize = cs.map Frame.forgetSize := by
  induction h with
  | nil => rfl
  | cons h _ ih => simp [h.1, ih]

theorem map_index_of_resized {cs ds : List Frame} (h : List.Forall₂ Frame.Resized cs ds) :
    ds.map Frame.index = cs.map Frame.index := by
  have e : ∀ l : List Frame, l.map Frame.index = (l.map Frame.forgetSize).map Frame.index := by
    intro l; rw [List.map_map]; rfl
  rw [e ds, e cs, map_forgetSize_of_resized h]

theorem map_name_of_resized {cs ds : List Frame} (h : List.Forall₂ Frame.Resized cs ds) :
    ds.map Frame.name = cs.map Frame.name := by
  have e : ∀ l : List Frame, l.map Frame.name = (l.map Frame.forgetSize).map Frame.name := by
    intro l; rw [List.map_map]; rfl
  rw [e ds, e cs, map_forgetSize_of_resized h]

theorem indexOk_iff_map (cs : List Frame) :
    IndexOk cs ↔ ∀ (i n : Nat), (cs.map Frame.index)[i]? = some n → n = i := by
  constructor
  · intro h i n hn
    rw [List.getElem?_map] at hn
    cases hf : cs[i]? with
    | none => simp [hf] at hn
    | some f =>
      simp [hf] at hn
      rw [← hn]; exact h i f hf
  · intro h i f hf
    apply h i f.index
    rw [List.getElem?_map, hf]; rfl

theorem indexOk_of_resized {cs ds : List Frame} (h : List.Forall₂ Frame.Resized cs ds)
    (hc : IndexOk cs) : IndexOk ds := by
  rw [indexOk_iff_map] at hc ⊢
  rw [map_index_of_resized h]; exact hc

theorem getElem?_reindexFrom (start : Nat) (cs : List Frame) (k i : Nat) :
    (Stripe.reindexFrom start k cs)[i]? =
      (cs[i]?).map (fun f => if start ≤ k + i then f.setIndex (k + i) else f) := by
  induction cs generalizing k i with
  | nil => simp [Stripe.reindexFrom]
  | cons f fs ih =>
    cases i with
    | zero => simp [Stripe.reindexFrom]
    | succ j =>
      simp only [Stripe.reindexFrom, List.getElem?_cons_succ]
      rw [ih (k + 1) j]
      have : k + 1 + j = k + (j + 1) := by omega
      rw [this]

theorem indexOk_reindexFrom (start : Nat) (cs : List Frame)
    (h : ∀ (i : Nat) (f : Frame), i < start → cs[i]? = some f → f.index = i) :
    IndexOk (Stripe.reindexFrom start 0 cs) := by
  intro i f hf
  rw [getElem?_reindexFrom] at hf
  cases hc : cs[i]? with
  | none => simp [hc] at hf
  | some g =>
    simp only [hc, Option.map_some', Nat.zero_add, Option.some.injEq] at hf
    by_cases hs : start ≤ i
    · simp only [hs, if_true] at hf
      rw [← hf]; rfl
    · simp only [hs, if_false] at hf
      rw [← hf]; exact h i g (by omega) hc

theorem map_name_reindexFrom (start k : Nat) (cs : List Frame) :
    (Stripe.reindexFrom start k cs).map Frame.name = cs.map Frame.name := by
  induction cs generalizing k with
  | nil => rfl
  | cons f fs ih =>
    simp only [Stripe.reindexFrom, List.map_cons, ih]
    split <;> rfl


namespace Stripe

theorem insertFlow_contents (s : Stripe) (frame : Frame) (index : Nat) :
    List.Forall₂ Frame.Resized s.d_contents (s.insertFlow frame index).d_contents := by
  unfold insertFlow
  split
  · exact (kept_flowShown { s with d_sequence_size := s.d_sequence_size + 1, d_relayout := true }
      frame).contents
  · exact forall₂_resized_refl _

theorem removeFlow_contents (s : Stripe) (frame : Frame) :
    List.Forall₂ Frame.Resized s.d_contents (s.removeFlow frame).d_contents := by
  unfold removeFlow
  split
  · exact (kept_flowHidden { s with d_sequence_size := s.d_sequence_size - 1, d_relayout := true }
      frame).contents
  · exact forall₂_resized_refl _

theorem insert_contents (s : Stripe) (frame : Frame) (index : Nat)
    (h : s.insertIndex frame index ≤ s.d_contents.length) :
    ∃ t, s.insert frame index = some t ∧
      List.Forall₂ Frame.Resized
        (reindex { s with d_contents := s.d_contents.take (s.insertIndex frame index) ++
            frame :: s.d_contents.drop (s.insertIndex frame index) }
          (s.insertIndex frame index)).d_contents
        t.d_contents := by
  unfold insertIndex at h ⊢
  simp only [insert, insertAt, h, if_true]
  by_cases hf : frame.flow = true
  · simp only [hf, if_true]
    refine ⟨_, rfl, ?_⟩
    exact insertFlow_contents _ _ _
  · simp only [hf]
    exact ⟨_, rfl, forall₂_resized_refl _⟩

theorem remove_contents (s : Stripe) (frame : Frame) (h : frame.index < s.d_contents.length) :
    ∃ t, s.remove frame = some t ∧
      List.Forall₂ Frame.Resized
        (reindex { s with d_contents :=
            s.d_contents.take frame.index ++ s.d_contents.drop (frame.index + 1) }
          frame.index).d_contents
        t.d_contents := by
  simp only [remove, eraseAt, h, if_true]
  by_cases hf : frame.flow = true
  · simp only [hf, if_true]
    refine ⟨_, rfl, ?_⟩
    exact removeFlow_contents _ _
  · simp only [hf]
    exact ⟨_, rfl, forall₂_resized_refl _⟩

theorem move_contents (s : Stripe) (a b : Nat) (ha : a < s.d_contents.length)
    (hb : b < s.d_contents.length) :
    ∃ x y, s.d_contents[a]? = some x ∧ s.d_contents[b]? = some y ∧
      s.move a b = some (reindex { s with d_contents := (s.d_contents.set a y).set b x }
        (if a < b then a else b)) := by
  refine ⟨s.d_contents[a], s.d_contents[b], List.getElem?_eq_getElem ha,
    List.getElem?_eq_getElem hb, ?_⟩
  simp only [move, swapAt, List.getElem?_eq_getElem ha, List.getElem?_eq_getElem hb]

end Stripe

/-! ## Binary32 rounding: the error of one operation -/

theorem ilog2_spec (fuel n : Nat) (hn : 0 < n) (hf : n ≤ fuel) :
    2 ^ ilog2 fuel n ≤ n ∧ n < 2 ^ (ilog2 fuel n + 1) := by
  induction fuel generalizing n with
  | zero => omega
  | succ k ih =>
    unfold ilog2
    by_cases h2 : n < 2
    · rw [if_pos h2]
      have h1 : n = 1 := by omega
      subst h1
      simp
    · rw [if_neg h2]
      obtain ⟨h3, h4⟩ := ih (n / 2) (by omega) (by omega)
      simp only [pow_succ] at h4 ⊢
      generalize 2 ^ ilog2 k (n / 2) = x at h3 h4 ⊢
      constructor <;> omega

theorem roundHalfEven_error (y : ℚ) : |(roundHalfEven y : ℚ) - y| ≤ 1 / 2 := by
  have h1 := Int.floor_le y
  have h2 := Int.lt_floor_add_one y
  unfold roundHalfEven
  rw [abs_le]
  by_cases c1 : y - ⌊y⌋ < 1 / 2
  · rw [if_pos c1]
    constructor <;> linarith
  · rw [if_neg c1]
    by_cases c2 : 1 / 2 < y - ⌊y⌋
    · rw [if_pos c2]
      push_cast
      constructor <;> linarith
    · rw [if_neg c2]
      have c3 : y - ⌊y⌋ = 1 / 2 := le_antisymm (not_lt.mp c2) (not_lt.mp c1)
      by_cases c4 : ⌊y⌋ % 2 = 0
      · rw [if_pos c4]
        constructor <;> linarith
      · rw [if_neg c4]
        push_cast
        constructor <;> linarith

theorem abs_eq_natAbs_div (q : ℚ) : |q| = (q.num.natAbs : ℚ) / (q.den : ℚ) := by
  have h : |q| = |(q.num : ℚ) / (q.den : ℚ)| := by rw [Rat.num_div_den]
  rw [h, abs_div, Nat.abs_cast, ← Int.cast_abs, Int.abs_eq_natAbs, Int.cast_natCast]

/-- The binary exponent brackets the value: `2 ^ e ≤ |q| < 2 ^ (e + 1)`. -/
theorem binaryExponent_spec (q : ℚ) (hq : q ≠ 0) :
    (2 : ℚ) ^ binaryExponent q ≤ |q| ∧ |q| < (2 : ℚ) ^ (binaryExponent q + 1) := by
  have hn : 0 < q.num.natAbs := Int.natAbs_pos.2 (Rat.num_ne_zero.2 hq)
  have hd : 0 < q.den := q.den_pos
  obtain ⟨ha1, ha2⟩ := ilog2_spec q.num.natAbs q.num.natAbs hn le_rfl
  obtain ⟨hb1, hb2⟩ := ilog2_spec q.den q.den hd le_rfl
  have habs := abs_eq_natAbs_div q
  have two : (2 : ℚ) ≠ 0 := by norm_num
  unfold binaryExponent
  generalize ilog2 q.num.natAbs q.num.natAbs = a at ha1 ha2 ⊢
  generalize ilog2 q.den q.den = b at hb1 hb2 ⊢
  have hk : (2 : ℚ) ^ ((a : Int) - (b : Int)) = (2 : ℚ) ^ a / (2 : ℚ) ^ b := by
    rw [zpow_sub₀ two, zpow_natCast, zpow_natCast]
  have ha1' : (2 : ℚ) ^ a ≤ (q.num.natAbs : ℚ) := by exact_mod_cast ha1
  have ha2' : (q.num.natAbs : ℚ) < (2 : ℚ) ^ a * 2 := by
    have : q.num.natAbs < 2 ^ a * 2 := by rw [← pow_succ]; exact ha2
    exact_mod_cast this
  have hb1' : (2 : ℚ) ^ b ≤ (q.den : ℚ) := by exact_mod_cast hb1
  have hb2' : (q.den : ℚ) < (2 : ℚ) ^ b * 2 := by
    have : q.den < 2 ^ b * 2 := by rw [← pow_succ]; exact hb2
    exact_mod_cast this
  have hpa : (0 : ℚ) < (2 : ℚ) ^ a := pow_pos (by norm_num) _
  have hpb : (0 : ℚ) < (2 : ℚ) ^ b := pow_pos (by norm_num) _
  have hdq : (0 : ℚ) < (q.den : ℚ) := by exact_mod_cast hd
  have hnq : (0 : ℚ) < (q.num.natAbs : ℚ) := by exact_mod_cast hn
  by_cases c : (2 : ℚ) ^ ((a : Int) - (b : Int)) ≤ |q|
  · rw [if_pos c]
    refine ⟨c, ?_⟩
    rw [zpow_add_one₀ two, hk, habs, div_mul_eq_mul_div, div_lt_div_iff₀ hdq hpb]
    calc (q.num.natAbs : ℚ) * (2 : ℚ) ^ b
        < ((2 : ℚ) ^ a * 2) * (2 : ℚ) ^ b := by
          exact mul_lt_mul_of_pos_right ha2' hpb
      _ ≤ ((2 : ℚ) ^ a * 2) * (q.den : ℚ) := by
          exact mul_le_mul_of_nonneg_left hb1' (by positivity)
  · rw [if_neg c]
    constructor
    · have e : (2 : ℚ) ^ ((a : Int) - (b : Int) - 1) = (2 : ℚ) ^ a / ((2 : ℚ) ^ b * 2) := by
        rw [zpow_sub₀ two, hk, zpow_one, div_div]
      rw [e, habs, div_le_div_iff₀ (by positivity) hdq]
      calc (2 : ℚ) ^ a * (q.den : ℚ)
          ≤ (q.num.natAbs : ℚ) * (q.den : ℚ) := by
            exact mul_le_mul_of_nonneg_right ha1' hdq.le
        _ ≤ (q.num.natAbs : ℚ) * ((2 : ℚ) ^ b * 2) := by
            exact mul_le_mul_of_nonneg_left hb2'.le hnq.le
    · rw [sub_add_cancel]
      exact not_le.mp c

theorem tiny32_eq : tiny32 = (2 : ℚ) ^ (-126 : Int) := by
  unfold tiny32
  rw [zpow_neg, one_div]
  norm_num

theorem unit32_pos : 0 < unit32 := by unfold unit32; norm_num

theorem unit32_lt_one : unit32 < 1 := by unfold unit32; norm_num

theorem tiny32_pos : 0 < tiny32 := by unfold tiny32; norm_num

/-- The relative error of one binary32 operation whose result is in the normal range
is at most the unit roundoff. -/
theorem round32_error (q : ℚ) (hq : tiny32 ≤ |q|) : |round32 q - q| ≤ unit32 * |q| := by
  have hq0 : q ≠ 0 := by
    intro h
    rw [h, abs_zero] at hq
    exact absurd hq (not_le.mpr tiny32_pos)
  obtain ⟨hlo, hhi⟩ := binaryExponent_spec q hq0
  have two : (2 : ℚ) ≠ 0 := by norm_num
  have he : -126 ≤ binaryExponent q := by
    have h1 : (2 : ℚ) ^ (-126 : Int) < (2 : ℚ) ^ (binaryExponent q + 1) := by
      rw [← tiny32_eq]
      exact lt_of_le_of_lt hq hhi
    have h2 := (zpow_lt_zpow_iff_right₀ (by norm_num : (1 : ℚ) < 2)).1 h1
    omega
  unfold round32
  rw [if_neg hq0]
  have hquant : quantum32 q = (2 : ℚ) ^ (binaryExponent q - 23) := by
    unfold quantum32
    rw [max_eq_left he]
  rw [hquant]
  have hQpos : (0 : ℚ) < (2 : ℚ) ^ (binaryExponent q - 23) := zpow_pos (by norm_num) _
  have herr := roundHalfEven_error (q / (2 : ℚ) ^ (binaryExponent q - 23))
  have hhalf : (1 / 2 : ℚ) * (2 : ℚ) ^ (binaryExponent q - 23) =
      unit32 * (2 : ℚ) ^ binaryExponent q := by
    have e23 : (2 : ℚ) ^ (23 : Int) = 8388608 := by norm_num
    rw [zpow_sub₀ two, e23]
    unfold unit32
    ring
  generalize (2 : ℚ) ^ (binaryExponent q - 23) = Q at hQpos herr hhalf ⊢
  have hsplit : (roundHalfEven (q / Q) : ℚ) * Q - q = ((roundHalfEven (q / Q) : ℚ) - q / Q) * Q := by
    field_simp
  rw [hsplit, abs_mul, abs_of_pos hQpos]
  calc |(roundHalfEven (q / Q) : ℚ) - q / Q| * Q
      ≤ 1 / 2 * Q := mul_le_mul_of_nonneg_right herr hQpos.le
    _ = unit32 * (2 : ℚ) ^ binaryExponent q := hhalf
    _ ≤ unit32 * |q| := mul_le_mul_of_nonneg_left hlo unit32_pos.le

theorem round32_bounds (q : ℚ) (hq : tiny32 ≤ q) :
    (1 - unit32) * q ≤ round32 q ∧ round32 q ≤ (1 + unit32) * q := by
  have hpos : 0 < q := lt_of_lt_of_le tiny32_pos hq
  have h := round32_error q (by rw [abs_of_pos hpos]; exact hq)
  rw [abs_of_pos hpos, abs_le] at h
  constructor <;> linarith [h.1, h.2]

/-! ## Binary32 rounding: running sums and scaled values -/

theorem running_bounds (l : List ℚ) (hl : ∀ a ∈ l, tiny32 ≤ a) (acc total : ℚ) (k : Nat)
    (ht : 0 ≤ total) (hlo : (1 - unit32) ^ k * total ≤ acc)
    (hhi : acc ≤ (1 + unit32) ^ k * total) :
    (1 - unit32) ^ (k + l.length) * (total + l.sum) ≤
        l.foldl (fun acc a => round32 (acc + a)) acc ∧
      l.foldl (fun acc a => round32 (acc + a)) acc ≤
        (1 + unit32) ^ (k + l.length) * (total + l.sum) := by
  induction l generalizing acc total k with
  | nil => simpa using ⟨hlo, hhi⟩
  | cons a l ih =>
    have ha : tiny32 ≤ a := hl a (List.mem_cons_self _ _)
    have ha0 : 0 ≤ a := le_trans tiny32_pos.le ha
    have hu0 : 0 ≤ 1 - unit32 := by linarith [unit32_lt_one]
    have hu1 : 1 - unit32 ≤ 1 := by linarith [unit32_pos]
    have hv1 : 1 ≤ 1 + unit32 := by linarith [unit32_pos]
    have hpk : 0 ≤ (1 - unit32) ^ k := pow_nonneg hu0 k
    have hpk1 : (1 - unit32) ^ k ≤ 1 := pow_le_one₀ hu0 hu1
    have hqk1 : 1 ≤ (1 + unit32) ^ k := one_le_pow₀ hv1
    have hacc0 : 0 ≤ acc := le_trans (mul_nonneg hpk ht) hlo
    obtain ⟨hr1, hr2⟩ := round32_bounds (acc + a) (by linarith)
    have hstep := ih (fun b hb => hl b (List.mem_cons_of_mem _ hb)) (round32 (acc + a))
      (total + a) (k + 1) (by linarith)
      (by
        have h1 : (1 - unit32) ^ k * (total + a) ≤ acc + a := by
          have := mul_le_of_le_one_left ha0 hpk1
          linarith
        calc (1 - unit32) ^ (k + 1) * (total + a)
            = (1 - unit32) * ((1 - unit32) ^ k * (total + a)) := by ring
          _ ≤ (1 - unit32) * (acc + a) := mul_le_mul_of_nonneg_left h1 hu0
          _ ≤ round32 (acc + a) := hr1)
      (by
        have h1 : acc + a ≤ (1 + unit32) ^ k * (total + a) := by
          have := le_mul_of_one_le_left ha0 hqk1
          linarith
        calc round32 (acc + a) ≤ (1 + unit32) * (acc + a) := hr2
          _ ≤ (1 + unit32) * ((1 + unit32) ^ k * (total + a)) :=
            mul_le_mul_of_nonneg_left h1 (by linarith)
          _ = (1 + unit32) ^ (k + 1) * (total + a) := by ring)
    simp only [List.foldl_cons, List.length_cons, List.sum_cons]
    have e1 : k + (l.length + 1) = k + 1 + l.length := by omega
    have e2 : total + (a + l.sum) = total + a + l.sum := by ring
    rw [e1, e2]
    exact hstep

theorem scaled_bounds (l : List ℚ) (r : ℚ) (hl : ∀ a ∈ l, tiny32 ≤ r * a) :
    (1 - unit32) * (r * l.sum) ≤ (l.map (fun a => round32 (r * a))).sum ∧
      (l.map (fun a => round32 (r * a))).sum ≤ (1 + unit32) * (r * l.sum) := by
  induction l with
  | nil => simp
  | cons a l ih =>
    obtain ⟨h1, h2⟩ := round32_bounds (r * a) (hl a (List.mem_cons_self _ _))
    obtain ⟨h3, h4⟩ := ih (fun b hb => hl b (List.mem_cons_of_mem _ hb))
    simp only [List.map_cons, List.sum_cons]
    constructor <;> linarith

/-- The spans `normalizeSpan` computes from the values `l` sum to 1 up to rounding:
`l` are the old spans, `total` their running binary32 sum. -/
theorem normalized_sum_bounds (l : List ℚ) (hne : l ≠ []) (hl : ∀ a ∈ l, tiny32 ≤ a)
    (htop : l.foldl (fun acc a => round32 (acc + a)) 0 ≤ 1 / tiny32)
    (hlow : ∀ a ∈ l,
      tiny32 ≤ round32 (1 / l.foldl (fun acc a => round32 (acc + a)) 0) * a) :
    (1 - unit32) ^ 2 ≤
        (l.map (fun a => round32
          (round32 (1 / l.foldl (fun acc a => round32 (acc + a)) 0) * a))).sum *
          (1 + unit32) ^ l.length ∧
      (l.map (fun a => round32
          (round32 (1 / l.foldl (fun acc a => round32 (acc + a)) 0) * a))).sum *
          (1 - unit32) ^ l.length ≤ (1 + unit32) ^ 2 := by
  obtain ⟨hs1, hs2⟩ := running_bounds l hl 0 0 0 le_rfl (by simp) (by simp)
  simp only [Nat.zero_add, zero_add] at hs1 hs2
  obtain ⟨hb1, hb2⟩ := scaled_bounds l _ hlow
  generalize l.foldl (fun acc a => round32 (acc + a)) 0 = total at hs1 hs2 hb1 hb2 htop hlow ⊢
  generalize (l.map (fun a => round32 (round32 (1 / total) * a))).sum = sigma at hb1 hb2 ⊢
  have hu0 : 0 < 1 - unit32 := by linarith [unit32_lt_one]
  have hv0 : 0 < 1 + unit32 := by linarith [unit32_pos]
  have hsum : 0 < l.sum := by
    cases l with
    | nil => exact absurd rfl hne
    | cons a l =>
      have ha := hl a (List.mem_cons_self _ _)
      have hrest : 0 ≤ l.sum := List.sum_nonneg (fun b hb =>
        le_trans tiny32_pos.le (hl b (List.mem_cons_of_mem _ hb)))
      rw [List.sum_cons]
      linarith [tiny32_pos]
  have htotal : 0 < total := lt_of_lt_of_le (mul_pos (pow_pos hu0 _) hsum) hs1
  have hinv : tiny32 ≤ 1 / total := by
    rw [le_div_iff₀ htotal]
    have := mul_le_mul_of_nonneg_left htop tiny32_pos.le
    rw [mul_one_div_cancel (ne_of_gt tiny32_pos)] at this
    exact this
  obtain ⟨hr1, hr2⟩ := round32_bounds (1 / total) hinv
  generalize round32 (1 / total) = r at hr1 hr2 hb1 hb2
  generalize l.length = n at hs1 hs2 ⊢
  generalize l.sum = A at hs1 hs2 hb1 hb2 hsum
  have hp : 0 < (1 - unit32) ^ n := pow_pos hu0 n
  have hq : 0 < (1 + unit32) ^ n := pow_pos hv0 n
  have hrA1 : (1 - unit32) * (A / total) ≤ r * A := by
    have := mul_le_mul_of_nonneg_right hr1 hsum.le
    calc (1 - unit32) * (A / total) = (1 - unit32) * (1 / total) * A := by ring
      _ ≤ r * A := this
  have hrA2 : r * A ≤ (1 + unit32) * (A / total) := by
    have := mul_le_mul_of_nonneg_right hr2 hsum.le
    calc r * A ≤ (1 + unit32) * (1 / total) * A := this
      _ = (1 + unit32) * (A / total) := by ring
  have hratio1 : 1 ≤ A / total * (1 + unit32) ^ n := by
    rw [div_mul_eq_mul_div, le_div_iff₀ htotal]
    linarith
  have hratio2 : A / total * (1 - unit32) ^ n ≤ 1 := by
    rw [div_mul_eq_mul_div, div_le_iff₀ htotal]
    linarith
  constructor
  · calc (1 - unit32) ^ 2 = (1 - unit32) * ((1 - unit32) * 1) := by ring
      _ ≤ (1 - unit32) * ((1 - unit32) * (A / total * (1 + unit32) ^ n)) :=
        mul_le_mul_of_nonneg_left (mul_le_mul_of_nonneg_left hratio1 hu0.le) hu0.le
      _ = (1 - unit32) * ((1 - unit32) * (A / total)) * (1 + unit32) ^ n := by ring
      _ ≤ (1 - unit32) * (r * A) * (1 + unit32) ^ n :=
        mul_le_mul_of_nonneg_right (mul_le_mul_of_nonneg_left hrA1 hu0.le) hq.le
      _ ≤ sigma * (1 + unit32) ^ n := mul_le_mul_of_nonneg_right hb1 hq.le
  · calc sigma * (1 - unit32) ^ n ≤ (1 + unit32) * (r * A) * (1 - unit32) ^ n :=
        mul_le_mul_of_nonneg_right hb2 hp.le
      _ ≤ (1 + unit32) * ((1 + unit32) * (A / total)) * (1 - unit32) ^ n :=
        mul_le_mul_of_nonneg_right (mul_le_mul_of_nonneg_left hrA2 hv0.le) hp.le
      _ = (1 + unit32) * ((1 + unit32) * (A / total * (1 - unit32) ^ n)) := by ring
      _ ≤ (1 + unit32) * ((1 + unit32) * 1) :=
        mul_le_mul_of_nonneg_left (mul_le_mul_of_nonneg_left hratio2 hv0.le) hv0.le
      _ = (1 + unit32) ^ 2 := by ring

/-! ## C1: index integrity -/

theorem indexOk_of_range (cs : List Frame)
    (h : cs.map Frame.index = List.range cs.length) : IndexOk cs := by
  rw [indexOk_iff_map, h]
  intro i n hn
  rw [List.getElem?_range] at hn
  · exact (Option.some.inj hn).symm
  · by_contra hlt
    rw [List.getElem?_eq_none (by simpa using hlt)] at hn
    cases hn

theorem insert_indexOk (s : Stripe) (hs : IndexOk s.d_contents) (frame : Frame) (index : Nat)
    (h : index ≤ s.d_contents.length) :
    ∃ t, s.insert frame index = some t ∧ IndexOk t.d_contents := by
  have hi : s.insertIndex frame index ≤ s.d_contents.length := by
    unfold Stripe.insertIndex; split <;> omega
  obtain ⟨t, ht, hr⟩ := Stripe.insert_contents s frame index hi
  refine ⟨t, ht, indexOk_of_resized hr (indexOk_reindexFrom _ _ ?_)⟩
  intro i f hlt hf
  rw [List.getElem?_append_left (by simp; omega), List.getElem?_take_of_lt hlt] at hf
  exact hs i f hf

theorem remove_indexOk (s : Stripe) (hs : IndexOk s.d_contents) (frame : Frame)
    (h : frame.index < s.d_contents.length) :
    ∃ t, s.remove frame = some t ∧ IndexOk t.d_contents := by
  obtain ⟨t, ht, hr⟩ := Stripe.remove_contents s frame h
  refine ⟨t, ht, indexOk_of_resized hr (indexOk_reindexFrom _ _ ?_)⟩
  intro i f hlt hf
  rw [List.getElem?_append_left (by simp; omega), List.getElem?_take_of_lt hlt] at hf
  exact hs i f hf

theorem move_indexOk (s : Stripe) (hs : IndexOk s.d_contents) (a b : Nat)
    (ha : a < s.d_contents.length) (hb : b < s.d_contents.length) :
    ∃ t, s.move a b = some t ∧ IndexOk t.d_contents := by
  obtain ⟨x, y, -, -, hm⟩ := Stripe.move_contents s a b ha hb
  refine ⟨_, hm, indexOk_reindexFrom _ _ ?_⟩
  intro i f hlt hf
  have h1 : a ≠ i := by split at hlt <;> omega
  have h2 : b ≠ i := by split at hlt <;> omega
  rw [List.getElem?_set_ne h2, List.getElem?_set_ne h1] at hf
  exact hs i f hf

/-- C1 (index integrity). In a Stripe whose contents satisfy `contents[i].index() == i`,
every in-range `insert(frame, index)`, `remove(frame)` and `move(from, to)` returns
a Stripe whose contents satisfy it again; and removing the middle child `b` of the
three children `a, b, c` leaves `a` and `c`, in that order, with indices 0 and 1. -/
theorem C1_index_integrity (s : Stripe) (hs : IndexOk s.d_contents) :
    (∀ (frame : Frame) (index : Nat), index ≤ s.d_contents.length →
      ∃ t, s.insert frame index = some t ∧ IndexOk t.d_contents) ∧
    (∀ (frame : Frame), frame.index < s.d_contents.length →
      ∃ t, s.remove frame = some t ∧ IndexOk t.d_contents) ∧
    (∀ (a b : Nat), a < s.d_contents.length → b < s.d_contents.length →
      ∃ t, s.move a b = some t ∧ IndexOk t.d_contents) ∧
    (∀ (a b c : Frame), s.d_contents = [a, b, c] →
      ∃ t, s.remove b = some t ∧ t.d_contents.map Frame.name = [a.name, c.name] ∧
        t.d_contents.map Frame.index = [0, 1]) := by
  refine ⟨insert_indexOk s hs, remove_indexOk s hs, move_indexOk s hs, ?_⟩
  intro a b c hc
  have hb : b.index = 1 := hs 1 b (by rw [hc]; rfl)
  obtain ⟨t, ht, hr⟩ := Stripe.remove_contents s b (by rw [hc, hb]; simp)
  refine ⟨t, ht, ?_, ?_⟩
  · rw [map_name_of_resized hr]
    simp only [Stripe.reindex]
    rw [map_name_reindexFrom, hc, hb]; rfl
  · have ha : a.index = 0 := hs 0 a (by rw [hc]; rfl)
    rw [map_index_of_resized hr, hc, hb]
    simp [Stripe.reindex, Stripe.reindexFrom, Frame.setIndex, ha]

/-- Witness of C1 on the three-child row of Scenario A: its indices are 0, 1, 2, and
removing the child at index 1 leaves the children named 1 and 3 with indices 0
and 1. -/
theorem C1_index_integrity_witness :
    IndexOk Stripe.three.d_contents ∧
    ∃ t, Stripe.three.remove (Frame.leaf 2 true false Sizing.FIXED 50 1) = some t ∧
      t.d_contents.map Frame.name = [1, 3] ∧ t.d_contents.map Frame.index = [0, 1] :=
  ⟨indexOk_of_range _ (by decide),
   (C1_index_integrity Stripe.three (indexOk_of_range _ (by decide))).2.2.2
     (Frame.leaf 1 true false Sizing.FIXED 50 0) (Frame.leaf 2 true false Sizing.FIXED 50 1)
     (Frame.leaf 3 true false Sizing.FIXED 50 2) rfl⟩

/-! ## C2: the sequence and the flow frames -/

theorem getElem?_splice {α : Type} (l : List α) (i : Nat) (x : α) (j : Nat)
    (h : i ≤ l.length) :
    (l.take i ++ x :: l.drop i)[j]? =
      if j < i then l[j]? else if j = i then some x else l[j - 1]? := by
  have hl : (l.take i).length = i := by simp; omega
  by_cases h1 : j < i
  · rw [List.getElem?_append_left (by omega), List.getElem?_take_of_lt h1, if_pos h1]
  · rw [List.getElem?_append_right (by omega), hl, if_neg h1]
    by_cases h2 : j = i
    · subst h2; simp
    · rw [if_neg h2]
      obtain ⟨m, hm⟩ : ∃ m, j - i = m + 1 := ⟨j - i - 1, by omega⟩
      rw [hm, List.getElem?_cons_succ, List.getElem?_drop]
      congr 1; omega

theorem getElem?_unsplice {α : Type} (l : List α) (i : Nat) (j : Nat) (h : i ≤ l.length) :
    (l.take i ++ l.drop (i + 1))[j]? = if j < i then l[j]? else l[j + 1]? := by
  have hl : (l.take i).length = i := by simp; omega
  by_cases h1 : j < i
  · rw [List.getElem?_append_left (by omega), List.getElem?_take_of_lt h1, if_pos h1]
  · rw [List.getElem?_append_right (by omega), hl, if_neg h1, List.getElem?_drop]
    congr 1; omega

theorem prefixed_insert_true (k : Nat) (bs : List Bool) (i : Nat) (h : Prefixed k bs)
    (hi : i ≤ k) : Prefixed (k + 1) (bs.take i ++ true :: bs.drop i) := by
  obtain ⟨hk, hp⟩ := h
  refine ⟨by simp; omega, fun j b hb => ?_⟩
  rw [getElem?_splice _ _ _ _ (by omega)] at hb
  split at hb
  · have := hp j b hb; constructor
    · intro _; omega
    · intro _; exact this.2 (by omega)
  · split at hb
    · cases hb; simp; omega
    · have := hp (j - 1) b hb; rw [this]; omega

theorem prefixed_insert_false (k : Nat) (bs : List Bool) (i : Nat) (h : Prefixed k bs)
    (hi : k ≤ i) (hl : i ≤ bs.length) : Prefixed k (bs.take i ++ false :: bs.drop i) := by
  obtain ⟨hk, hp⟩ := h
  refine ⟨by simp; omega, fun j b hb => ?_⟩
  rw [getElem?_splice _ _ _ _ hl] at hb
  split at hb
  · exact hp j b hb
  · split at hb
    · cases hb; simp; omega
    · have := hp (j - 1) b hb; rw [this]; omega

theorem prefixed_erase (k : Nat) (bs : List Bool) (i : Nat) (b : Bool) (h : Prefixed k bs)
    (hb : bs[i]? = some b) :
    Prefixed (if b then k - 1 else k) (bs.take i ++ bs.drop (i + 1)) := by
  obtain ⟨hk, hp⟩ := h
  have hil : i < bs.length := by
    by_contra hc
    rw [List.getElem?_eq_none (by omega)] at hb; cases hb
  have hbi := hp i b hb
  have hlen : (bs.take i ++ bs.drop (i + 1)).length = bs.length - 1 := by
    simp; omega
  cases b with
  | true =>
    have hik : i < k := hbi.1 rfl
    simp only [if_true]
    refine ⟨by rw [hlen]; omega, fun j c hc => ?_⟩
    rw [getElem?_unsplice _ _ _ (by omega)] at hc
    split at hc
    · have := hp j c hc; rw [this]; omega
    · have := hp (j + 1) c hc; rw [this]; omega
  | false =>
    have hik : ¬ i < k := fun hlt => by simpa using hbi.2 hlt
    simp only [Bool.false_eq_true, if_false]
    refine ⟨by rw [hlen]; omega, fun j c hc => ?_⟩
    rw [getElem?_unsplice _ _ _ (by omega)] at hc
    split at hc
    · exact hp j c hc
    · have := hp (j + 1) c hc; rw [this]; omega

theorem prefixed_swap (k : Nat) (bs : List Bool) (a b : Nat) (x y : Bool) (h : Prefixed k bs)
    (hx : bs[a]? = some x) (hy : bs[b]? = some y) (hr : a < k ↔ b < k) :
    Prefixed k ((bs.set a y).set b x) := by
  obtain ⟨hk, hp⟩ := h
  have hxy : x = y := by
    have h1 := hp a x hx
    have h2 := hp b y hy
    cases x <;> cases y <;> simp_all
  subst hxy
  refine ⟨by simpa using hk, fun j c hc => ?_⟩
  rw [List.getElem?_set] at hc
  split at hc
  · subst_vars
    split at hc
    · cases hc; exact hp _ _ hy
    · cases hc
  · rw [List.getElem?_set] at hc
    split at hc
    · subst_vars
      split at hc
      · cases hc; exact hp _ _ hx
      · cases hc
    · exact hp j c hc

theorem take_eq_filter_of_prefixed (cs : List Frame) (k : Nat) (h : FlowFirst k cs) :
    cs.take k = cs.filter (fun f => f.flow) := by
  induction cs generalizing k with
  | nil => simp
  | cons f fs ih =>
    obtain ⟨hk, hp⟩ := h
    have h0 := hp 0 f.flow (by simp)
    cases k with
    | zero =>
      have hf : f.flow = false := by
        cases hff : f.flow with
        | false => rfl
        | true => exact absurd (h0.1 hff) (by omega)
      have hrest := ih 0 ⟨by omega, fun i b hb => by
        have := hp (i + 1) b (by simpa using hb)
        rw [this]; omega⟩
      simp only [List.take_zero] at hrest ⊢
      rw [List.filter_cons, hf]; simpa using hrest
    | succ n =>
      have hf : f.flow = true := h0.2 (by omega)
      have hrest := ih n ⟨by simpa using hk, fun i b hb => by
        have := hp (i + 1) b (by simpa using hb)
        rw [this]; omega⟩
      rw [List.take_succ_cons, List.filter_cons, hf, hrest]; rfl

theorem map_flow_of_resized {cs ds : List Frame} (h : List.Forall₂ Frame.Resized cs ds) :
    ds.map Frame.flow = cs.map Frame.flow := by
  have e : ∀ l : List Frame, l.map Frame.flow = (l.map Frame.forgetSize).map Frame.flow := by
    intro l; rw [List.map_map]; rfl
  rw [e ds, e cs, map_forgetSize_of_resized h]

theorem map_flow_reindexFrom (start k : Nat) (cs : List Frame) :
    (Stripe.reindexFrom start k cs).map Frame.flow = cs.map Frame.flow := by
  induction cs generalizing k with
  | nil => rfl
  | cons f fs ih =>
    simp only [Stripe.reindexFrom, List.map_cons, ih]
    split <;> rfl

namespace Stripe

theorem insertFlow_sequence_size (s : Stripe) (frame : Frame) (index : Nat) :
    (s.insertFlow frame index).d_sequence_size = s.d_sequence_size + 1 := by
  unfold insertFlow
  split
  · exact (kept_flowShown { s with d_sequence_size := s.d_sequence_size + 1, d_relayout := true }
      frame).d_sequence_size
  · rfl

theorem removeFlow_sequence_size (s : Stripe) (frame : Frame) :
    (s.removeFlow frame).d_sequence_size = s.d_sequence_size - 1 := by
  unfold removeFlow
  split
  · exact (kept_flowHidden { s with d_sequence_size := s.d_sequence_size - 1, d_relayout := true }
      frame).d_sequence_size
  · rfl

theorem insert_sequence_size (s t : Stripe) (frame : Frame) (index : Nat)
    (h : s.insert frame index = some t) :
    t.d_sequence_size = s.d_sequence_size + (if frame.flow then 1 else 0) := by
  unfold insert at h
  simp only at h
  split at h
  · cases h
  · split at h
    · cases h
      rw [insertFlow_sequence_size]; simp [reindex, *]
    · cases h; simp [reindex, *]

theorem remove_sequence_size (s t : Stripe) (frame : Frame) (h : s.remove frame = some t) :
    t.d_sequence_size = s.d_sequence_size - (if frame.flow then 1 else 0) := by
  unfold remove at h
  split at h
  · cases h
  · split at h
    · cases h
      rw [removeFlow_sequence_size]; simp [reindex, *]
    · cases h; simp [reindex, *]

end Stripe

/-- The invariant of the structural operations: index integrity, and the flow
frames first. -/
theorem step_invariant (s : Stripe) (op : Op) (hi : IndexOk s.d_contents)
    (hf : FlowFirst s.d_sequence_size s.d_contents) (hr : op.inRange s = true)
    (hg : op.regional s = true) :
    ∃ t, s.step op = some t ∧ IndexOk t.d_contents ∧
      FlowFirst t.d_sequence_size t.d_contents := by
  have insertCase : ∀ (frame : Frame) (index : Nat), index ≤ s.d_contents.length →
      (frame.flow = false → s.d_sequence_size ≤ index) →
      ∃ t, s.insert frame index = some t ∧ IndexOk t.d_contents ∧
        FlowFirst t.d_sequence_size t.d_contents := by
    intro frame index hle hreg
    have hidx : s.insertIndex frame index ≤ s.d_contents.length := by
      unfold Stripe.insertIndex; split <;> omega
    obtain ⟨t, ht, hres⟩ := Stripe.insert_contents s frame index hidx
    obtain ⟨t', ht', hok⟩ := insert_indexOk s hi frame index hle
    rw [ht] at ht'; cases ht'
    refine ⟨t, ht, hok, ?_⟩
    unfold FlowFirst
    rw [map_flow_of_resized hres, Stripe.insert_sequence_size s t frame index ht]
    simp only [Stripe.reindex, map_flow_reindexFrom, List.map_append, List.map_take,
      List.map_cons, List.map_drop]
    cases hfl : frame.flow with
    | true =>
      simp only [if_true]
      exact prefixed_insert_true _ _ _ hf (by simp [Stripe.insertIndex, hfl])
    | false =>
      have : s.insertIndex frame index = index := by simp [Stripe.insertIndex, hfl]
      rw [this]
      simpa using prefixed_insert_false _ _ _ hf (hreg hfl) (by simpa using hle)
  cases op with
  | insert frame index =>
    simp only [Op.inRange, decide_eq_true_eq] at hr
    simp only [Op.regional, Bool.or_eq_true, decide_eq_true_eq] at hg
    refine insertCase frame index hr (fun h => ?_)
    rcases hg with h' | h'
    · rw [h] at h'; cases h'
    · exact h'
  | append frame =>
    have hk : s.d_sequence_size ≤ s.d_contents.length := by simpa using hf.1
    show ∃ t, s.insert frame _ = some t ∧ _
    refine insertCase frame _ (by split <;> omega) (fun h => ?_)
    simp [h, hk]
  | remove position =>
    simp only [Op.inRange, decide_eq_true_eq] at hr
    have hget : s.d_contents[position]? = some s.d_contents[position] :=
      List.getElem?_eq_getElem hr
    generalize s.d_contents[position] = frame at hget
    have hix : frame.index = position := hi position frame hget
    simp only [Stripe.step, hget]
    obtain ⟨t, ht, hres⟩ := Stripe.remove_contents s frame (by omega)
    obtain ⟨t', ht', hok⟩ := remove_indexOk s hi frame (by omega)
    rw [ht] at ht'; cases ht'
    refine ⟨t, ht, hok, ?_⟩
    unfold FlowFirst
    rw [map_flow_of_resized hres, Stripe.remove_sequence_size s t frame ht]
    simp only [Stripe.reindex, map_flow_reindexFrom, List.map_append, List.map_take,
      List.map_drop, hix]
    have := prefixed_erase _ _ position frame.flow hf (by rw [List.getElem?_map, hget]; rfl)
    cases hfl : frame.flow <;> simpa [hfl] using this
  | move a b =>
    simp only [Op.inRange, Bool.and_eq_true, decide_eq_true_eq] at hr
    simp only [Op.regional, decide_eq_true_eq] at hg
    obtain ⟨x, y, hx, hy, hm⟩ := Stripe.move_contents s a b hr.1 hr.2
    obtain ⟨t', ht', hok⟩ := move_indexOk s hi a b hr.1 hr.2
    rw [hm] at ht'; cases ht'
    refine ⟨_, hm, hok, ?_⟩
    unfold FlowFirst
    simp only [Stripe.reindex, map_flow_reindexFrom, List.map_set]
    exact prefixed_swap _ _ a b x.flow y.flow hf (by rw [List.getElem?_map, hx]; rfl)
      (by rw [List.getElem?_map, hy]; rfl) hg

theorem run_invariant (ops : List Op) (s : Stripe) (hi : IndexOk s.d_contents)
    (hf : FlowFirst s.d_sequence_size s.d_contents) (h : s.regionalRun ops = true) :
    ∃ t, s.run ops = some t ∧ IndexOk t.d_contents ∧
      FlowFirst t.d_sequence_size t.d_contents := by
  induction ops generalizing s with
  | nil => exact ⟨s, rfl, hi, hf⟩
  | cons op rest ih =>
    simp only [Stripe.regionalRun, Bool.and_eq_true] at h
    obtain ⟨t, ht, hti, htf⟩ := step_invariant s op hi hf h.1.1 h.1.2
    rw [ht] at h
    obtain ⟨u, hu, hui, huf⟩ := ih t hti htf h.2
    exact ⟨u, by simp only [Stripe.run, ht, hu], hui, huf⟩

/-- C2, counterexample: on the empty row, the in-range calls `insert(a, 0)` of a flow
frame `a` and `insert(b, 0)` of a non-flow frame `b` leave contents `[b, a]` with a
sequence of size 1: the sequence view is `[b]`, the flow children are `[a]`. -/
theorem C2_sequence_consistency_counterexample :
    Stripe.row.inRangeRun sequenceBreakingOps = true ∧
    (Stripe.row.run sequenceBreakingOps).map
      (fun t => (t.sequence.map Frame.name,
        (t.d_contents.filter (fun f => f.flow)).map Frame.name)) = some ([2], [1]) := by
  decide!

/-- C2 (sequence consistency), amended. Starting from an empty Stripe, after every
sequence of in-range `insert`, `append`, `remove` and `move` calls in which a
non-flow frame is inserted at or after the end of the sequence and `move`
exchanges two frames of the sequence or two frames after it, the calls all
return and the sequence view is the list of the children with `flow()` true, in
the same order. -/
theorem C2_sequence_consistency (base : Stripe) (ops : List Op)
    (h : base.construct.regionalRun ops = true) :
    ∃ t, base.construct.run ops = some t ∧
      t.sequence = t.d_contents.filter (fun f => f.flow) := by
  have hi : IndexOk base.construct.d_contents := by
    intro i f hf
    simp [Stripe.construct] at hf
  have hf : FlowFirst base.construct.d_sequence_size base.construct.d_contents :=
    ⟨by simp [Stripe.construct], fun i b hb => by simp [Stripe.construct] at hb⟩
  obtain ⟨t, ht, -, htf⟩ := run_invariant ops base.construct hi hf h
  exact ⟨t, ht, take_eq_filter_of_prefixed _ _ htf⟩

/-- Witness of C2 on the empty row with calls on flow and non-flow frames. -/
theorem C2_sequence_consistency_witness :
    Stripe.row.construct.regionalRun regionalOps = true ∧
    ∃ t, Stripe.row.construct.run regionalOps = some t ∧
      t.sequence = t.d_contents.filter (fun f => f.flow) :=
  ⟨by decide!, C2_sequence_consistency Stripe.row regionalOps (by decide!)⟩

/-! ## C3: clear and the size of the sequence -/

/-- C3, evaluation of the code: `clear()` empties the contents and leaves
`d_sequence.size()` as it was. On the three-child row that the three `append`
calls of Scenario A build, where the size of the sequence is the number of flow
children (3), the contents are empty after `clear()` and the size of the
sequence is still 3. -/
theorem C3_clear_keeps_sequence_size :
    (∀ s : Stripe, s.clear.d_contents = [] ∧ s.clear.d_sequence_size = s.d_sequence_size) ∧
    Stripe.row.run scenarioA = some Stripe.three ∧
    Stripe.three.d_sequence_size = (Stripe.three.d_contents.filter (fun f => f.flow)).length ∧
    Stripe.three.clear.d_sequence_size = 3 ∧
    (Stripe.three.clear.d_contents.filter (fun f => f.flow)).length = 0 :=
  ⟨fun _ => ⟨rfl, rfl⟩, by decide!, by decide, by decide, by decide⟩

/-! ## C4: sequenceLength under insertion -/

/-- C4, evaluation of the code: a hidden flow child of length 50, then a visible one,
are appended to the empty row of spacing 10. `flowShown` tests the size of the
sequence (2, the hidden child counted), so `d_sequenceLength` is 60, while the
one visible child gives 50 + 0 * 10 = 50 in the specification. -/
theorem C4_spacing_counted_after_hidden :
    (Stripe.row.run hiddenFirstOps).map
      (fun t => (t.visibleFlow.length, t.d_sequenceLength, t.specLength)) = some (1, 60, 50) := by
  decide!

/-! ## C6: Scenario B -/

/-- C6, counterexample: in Scenario B the length of the middle child after `relayout`
is not 130. -/
theorem C6_scenario_B_counterexample :
    ((Stripe.row.run scenarioB).bind Stripe.relayout).map
      (fun t => decide ((t.d_contents.map (fun f => f.dsize t.d_length))[1]? = some 130))
      = some false := by
  decide!

/-- C6 (Scenario B), amended. In the horizontal Stripe of length 300, padding 0 and
spacing 10, after three visible flow children of length 50 are inserted, the
middle one length-expanding with span 1, `d_sequenceLength` is 120 and, after
`relayout`, the middle child has length 180 = 300 - 50 - 50 - 2 * 10 and the two
flanking children still have length 50. -/
theorem C6_scenario_B :
    (Stripe.row.run scenarioB).map (fun t => t.d_sequenceLength) = some 120 ∧
    ((Stripe.row.run scenarioB).bind Stripe.relayout).map
      (fun t => t.d_contents.map (fun f => f.dsize t.d_length)) = some [50, 180, 50] := by
  decide!

/-! ## C8: a hidden child inserted, then shown -/

theorem getElem?_reindexed_splice (cs : List Frame) (i : Nat) (c : Frame) (j : Nat)
    (h : i ≤ cs.length) :
    (Stripe.reindexFrom i 0 (cs.take i ++ c :: cs.drop i))[j]? =
      if j < i then cs[j]? else if j = i then some (c.setIndex i)
      else (cs[j - 1]?).map (fun f => f.setIndex j) := by
  rw [getElem?_reindexFrom, getElem?_splice _ _ _ _ h]
  by_cases h1 : j < i
  · simp only [h1, if_true, Nat.zero_add]
    cases cs[j]? with
    | none => rfl
    | some f => simp [Nat.not_le.2 h1]
  · by_cases h2 : j = i
    · subst h2; simp
    · simp only [h1, h2, if_false, Nat.zero_add]
      have : i ≤ j := by omega
      simp [this]

theorem set_reindexed_splice (cs : List Frame) (i : Nat) (c d : Frame) (h : i ≤ cs.length) :
    (Stripe.reindexFrom i 0 (cs.take i ++ c :: cs.drop i)).set i (d.setIndex i) =
      Stripe.reindexFrom i 0 (cs.take i ++ d :: cs.drop i) := by
  apply List.ext_getElem?
  intro j
  rw [List.getElem?_set, getElem?_reindexed_splice _ _ _ _ h, getElem?_reindexed_splice _ _ _ _ h]
  by_cases hj : i = j
  · subst hj
    have hl : i < (Stripe.reindexFrom i 0 (cs.take i ++ c :: cs.drop i)).length := by
      have : (Stripe.reindexFrom i 0 (cs.take i ++ c :: cs.drop i))[i]? =
          some (c.setIndex i) := by
        rw [getElem?_reindexed_splice _ _ _ _ h]; simp
      by_contra hc
      rw [List.getElem?_eq_none (by omega)] at this; cases this
    simp [hl]
  · have : ¬ j = i := fun e => hj e.symm
    simp [hj, this]

theorem insertFlow_hidden (s : Stripe) (frame : Frame) (index : Nat)
    (h : frame.hidden = true) :
    s.insertFlow frame index =
      { s with d_sequence_size := s.d_sequence_size + 1, d_relayout := true } := by
  simp [Stripe.insertFlow, h]

theorem insertFlow_visible (s : Stripe) (frame : Frame) (index : Nat)
    (h : frame.hidden = false) :
    s.insertFlow frame index =
      Stripe.flowShown { s with d_sequence_size := s.d_sequence_size + 1, d_relayout := true }
        frame := by
  simp [Stripe.insertFlow, h]

/-- C8 (Scenario C). For every Stripe and every hidden flow child whose insertion is
in range, `insert` returns a Stripe with `sequenceLength` and `maxDepth`
unchanged; and showing that child afterwards (`flowShown` on the child, now
visible) gives the state, hence the `sequenceLength` and the `maxDepth`, that
inserting the same child visible into the original Stripe gives. -/
theorem C8_hidden_insert_then_shown (s : Stripe) (child : Frame) (index : Nat)
    (hflow : child.flow = true) (hhidden : child.hidden = true)
    (hrange : s.insertIndex child index ≤ s.d_contents.length) :
    ∃ t u v, s.insert child index = some t ∧
      t.d_sequenceLength = s.d_sequenceLength ∧ t.d_maxDepth = s.d_maxDepth ∧
      s.insert child.unhidden index = some u ∧
      t.shown (s.insertIndex child index) = some v ∧
      v.d_sequenceLength = u.d_sequenceLength ∧ v.d_maxDepth = u.d_maxDepth := by
  have hidx : s.insertIndex child index = min s.d_sequence_size index := by
    simp [Stripe.insertIndex, hflow]
  rw [hidx] at hrange ⊢
  have hget := getElem?_reindexed_splice s.d_contents _ child (min s.d_sequence_size index) hrange
  simp only [Nat.lt_irrefl, if_false, if_true] at hget
  have hset := set_reindexed_splice s.d_contents _ child child.unhidden hrange
  have ins : ∀ c : Frame, c.flow = true → s.insert c index = some
      (Stripe.insertFlow
        (Stripe.reindex (s.spliced c (min s.d_sequence_size index)) (min s.d_sequence_size index))
        (c.setIndex (min s.d_sequence_size index)) (min s.d_sequence_size index)) := by
    intro c hc
    simp only [Stripe.insert, Stripe.insertAt, hc, if_true, hrange, Stripe.spliced]
  have ht := ins child hflow
  have hu := ins child.unhidden hflow
  rw [insertFlow_hidden _ (child.setIndex (min s.d_sequence_size index)) _ hhidden] at ht
  rw [insertFlow_visible _ (child.unhidden.setIndex (min s.d_sequence_size index)) _ rfl] at hu
  refine ⟨_, _, _, ht, rfl, rfl, hu, ?_, rfl, rfl⟩
  have e : (child.setIndex (min s.d_sequence_size index)).unhidden =
      child.unhidden.setIndex (min s.d_sequence_size index) := rfl
  have hget2 : (Stripe.reindex (s.spliced child (min s.d_sequence_size index))
      (min s.d_sequence_size index)).d_contents[min s.d_sequence_size index]? =
      some (child.setIndex (min s.d_sequence_size index)) := hget
  simp only [Stripe.shown, hget2, e]
  congr 3

/-- Witness of C8: a hidden flow child of length 50 inserted at position 1 of the
three-child row of Scenario A. -/
theorem C8_hidden_insert_then_shown_witness :
    Stripe.three.insertIndex (Frame.leaf 9 true true Sizing.FIXED 50 0) 1 ≤
      Stripe.three.d_contents.length ∧
    ∃ t u v, Stripe.three.insert (Frame.leaf 9 true true Sizing.FIXED 50 0) 1 = some t ∧
      t.d_sequenceLength = Stripe.three.d_sequenceLength ∧
      t.d_maxDepth = Stripe.three.d_maxDepth ∧
      Stripe.three.insert (Frame.leaf 9 true true Sizing.FIXED 50 0).unhidden 1 = some u ∧
      t.shown (Stripe.three.insertIndex (Frame.leaf 9 true true Sizing.FIXED 50 0) 1) = some v ∧
      v.d_sequenceLength = u.d_sequenceLength ∧ v.d_maxDepth = u.d_maxDepth :=
  ⟨by decide, C8_hidden_insert_then_shown Stripe.three (Frame.leaf 9 true true Sizing.FIXED 50 0) 1
    rfl rfl (by decide)⟩

/-! ## The layout pass -/

theorem map_set_same {α β : Type} (g : α → β) (l : List α) (i : Nat) (a b : α)
    (h : l[i]? = some a) (e : g b = g a) : (l.set i b).map g = l.map g := by
  apply List.ext_getElem?
  intro j
  rw [List.map_set, List.getElem?_set]
  by_cases hij : i = j
  · have hlt : i < l.length := by
      by_contra hc
      rw [List.getElem?_eq_none (by omega)] at h; cases h
    have hlt2 : i < (l.map g).length := by rw [List.length_map]; omega
    rw [if_pos hij, if_pos hlt2, ← hij, List.getElem?_map, h, e]
    rfl
  · rw [if_neg hij]

theorem dispatchWeightsLoop_forgetSpan (d : Dimension) (ws : List ℚ) (index : Nat)
    (cs ds : List Frame) (h : Stripe.dispatchWeightsLoop d ws index cs = some ds) :
    ds.map Frame.forgetSpan = cs.map Frame.forgetSpan := by
  induction ws generalizing index cs with
  | nil => simp only [Stripe.dispatchWeightsLoop] at h; cases h; rfl
  | cons w ws ih =>
    simp only [Stripe.dispatchWeightsLoop] at h
    split at h
    · split at h
      · cases h
      · rename_i frame hfr
        rw [ih _ _ h]
        exact map_set_same _ _ _ frame _ hfr rfl
    · exact ih _ _ h

theorem dispatchWeightsLoop_some (d : Dimension) (ws : List ℚ) (index : Nat) (cs : List Frame)
    (h : index + ws.length ≤ cs.length) :
    ∃ ds, Stripe.dispatchWeightsLoop d ws index cs = some ds := by
  induction ws generalizing index cs with
  | nil => exact ⟨cs, rfl⟩
  | cons w ws ih =>
    simp only [List.length_cons] at h
    simp only [Stripe.dispatchWeightsLoop]
    split
    · have hlt : index < cs.length := by omega
      rw [List.getElem?_eq_getElem hlt]
      exact ih _ _ (by simp; omega)
    · exact ih _ _ (by omega)

theorem dispatchTableRows_forgetSpan (d : Dimension) (n index : Nat) (w : ℚ)
    (rows out : List Frame) (h : Stripe.dispatchTableRows d n index w rows = some out) :
    out.map Frame.forgetSpan = rows.map Frame.forgetSpan := by
  induction rows generalizing out with
  | nil => simp only [Stripe.dispatchTableRows] at h; cases h; rfl
  | cons f fs ih =>
    simp only [Stripe.dispatchTableRows] at h
    split at h
    · rename_i f1 fs1 hf1 hfs1
      cases h
      rw [List.map_cons, List.map_cons, ih _ hfs1]
      congr 1
      unfold Stripe.dispatchTableRow at hf1
      split at hf1
      · split at hf1
        · split at hf1
          · cases hf1
          · cases hf1; rfl
        · cases hf1; rfl
      · cases hf1
    · cases h

theorem dispatchTableLoop_forgetSpan (d : Dimension) (n : Nat) (ws : List ℚ) (index : Nat)
    (rows out : List Frame) (h : Stripe.dispatchTableLoop d n ws index rows = some out) :
    out.map Frame.forgetSpan = rows.map Frame.forgetSpan := by
  induction ws generalizing index rows with
  | nil => simp only [Stripe.dispatchTableLoop] at h; cases h; rfl
  | cons w ws ih =>
    simp only [Stripe.dispatchTableLoop] at h
    split at h
    · cases h
    · rename_i rows1 h1
      rw [ih _ _ h, dispatchTableRows_forgetSpan _ _ _ _ _ _ h1]

namespace Stripe

theorem mapSequence_forgetSpan (s : Stripe) (g : Frame → Frame)
    (hg : ∀ f, (g f).forgetSpan = f.forgetSpan) :
    (s.mapSequence g).map Frame.forgetSpan = s.d_contents.map Frame.forgetSpan := by
  unfold mapSequence
  rw [List.map_append, List.map_map]
  have : Frame.forgetSpan ∘ g = Frame.forgetSpan := funext hg
  rw [this, ← List.map_append, List.take_append_drop]

theorem normalizeSpan_forgetSpan (s : Stripe) :
    s.normalizeSpan.d_contents.map Frame.forgetSpan = s.d_contents.map Frame.forgetSpan := by
  unfold normalizeSpan
  apply mapSequence_forgetSpan
  intro f
  split <;> rfl

/-- The weight dispatch changes the contents, up to spans, and the weights only. -/
theorem dispatch_shape (s t : Stripe) (h : s.dispatch = some t) :
    ∃ cs ws, t = { s with d_contents := cs, d_weights := ws } ∧
      cs.map Frame.forgetSpan = s.d_contents.map Frame.forgetSpan := by
  unfold dispatch at h
  split at h
  · unfold dispatchWeights at h
    split at h
    · cases h
    · split at h
      · cases h
      · rename_i hl
        cases h
        exact ⟨_, _, rfl, dispatchWeightsLoop_forgetSpan _ _ _ _ _ hl⟩
  · split at h
    · unfold dispatchTableWeights at h
      split at h
      · cases h
      · split at h
        · cases h
        · rename_i hl
          cases h
          refine ⟨_, s.d_weights, rfl, ?_⟩
          rw [List.map_append, dispatchTableLoop_forgetSpan _ _ _ _ _ _ hl]
          unfold sequence
          rw [← List.map_append, List.take_append_drop]
    · cases h
      exact ⟨s.d_contents, s.d_weights, rfl, rfl⟩

theorem positionLoop_map {β : Type} (g : Frame → β)
    (hg : ∀ (f : Frame) (d : Dimension) (v : ℚ), g (f.setPositionDim d v) = g f)
    (s : Stripe) (offset perp : ℚ) (prev : Option Frame) (cs : List Frame) :
    (positionLoop s offset perp prev cs).map g = cs.map g := by
  induction cs generalizing perp prev with
  | nil => rfl
  | cons f fs ih =>
    unfold positionLoop
    split
    · simp only [List.map_cons, ih, hg]
    · simp only [List.map_cons, ih]

theorem positionSequence_map {β : Type} (g : Frame → β)
    (hg : ∀ (f : Frame) (d : Dimension) (v : ℚ), g (f.setPositionDim d v) = g f)
    (s : Stripe) : s.positionSequence.d_contents.map g = s.d_contents.map g := by
  simp only [positionSequence, List.map_append, positionLoop_map g hg, sequence]
  rw [← List.map_append, List.take_append_drop]

theorem relayout_clean (s : Stripe) (h : s.d_relayout = false) : s.relayout = some s := by
  simp [relayout, h]

theorem relayout_dirty (s : Stripe) (h : s.d_relayout = true) :
    s.relayout = (dispatch (normalizeSpan { s with d_relayout := false })).map arrange := by
  simp only [relayout, h, arrange]
  cases dispatch (normalizeSpan { s with d_relayout := false }) <;> rfl

theorem arrange_relayout (s : Stripe) : s.arrange.d_relayout = s.d_relayout := rfl

theorem arrange_weights (s : Stripe) : s.arrange.d_weights = s.d_weights := rfl

theorem relayout_mode_none (s : Stripe) (hw : s.weight = Weight.NONE) :
    ∃ t, s.relayout = some t := by
  cases hd : s.d_relayout with
  | false => exact ⟨s, relayout_clean s hd⟩
  | true =>
    rw [relayout_dirty s hd]
    have : dispatch (normalizeSpan { s with d_relayout := false }) =
        some (normalizeSpan { s with d_relayout := false }) := by
      have hw' : (normalizeSpan { s with d_relayout := false }).weight = Weight.NONE := hw
      simp [dispatch, hw']
    rw [this]
    exact ⟨_, rfl⟩

end Stripe

/-! ## C9: relayout twice -/

/-- C9 (idempotence of relayout). Whenever `relayout` returns a Stripe, its dirty flag
is false and a second `relayout` returns that very Stripe (same positions, sizes,
spans, free space and weights, of the Stripe and of every child); and `relayout`
does return on every Stripe of weight mode NONE. -/
theorem C9_relayout_idempotent (s : Stripe) :
    (∀ t, s.relayout = some t → t.d_relayout = false ∧ t.relayout = some t) ∧
    (s.weight = Weight.NONE → ∃ t, s.relayout = some t) := by
  constructor
  · intro t h
    have hflag : t.d_relayout = false := by
      cases hd : s.d_relayout with
      | false =>
        rw [Stripe.relayout_clean s hd] at h
        cases h; exact hd
      | true =>
        rw [Stripe.relayout_dirty s hd] at h
        cases hdis : Stripe.dispatch (Stripe.normalizeSpan { s with d_relayout := false }) with
        | none => rw [hdis] at h; cases h
        | some u =>
          rw [hdis] at h
          cases h
          obtain ⟨cs, ws, rfl, -⟩ := Stripe.dispatch_shape _ _ hdis
          rfl
    exact ⟨hflag, Stripe.relayout_clean t hflag⟩
  · exact Stripe.relayout_mode_none s

/-- Witness of C9 on the three-child row of Scenario A, which is dirty: `relayout`
returns, the returned Stripe is clean, and `relayout` on it returns it. -/
theorem C9_relayout_idempotent_witness :
    ∃ t, Stripe.three.relayout = some t ∧ t.d_relayout = false ∧ t.relayout = some t := by
  obtain ⟨t, ht⟩ := (C9_relayout_idempotent Stripe.three).2 rfl
  exact ⟨t, ht, (C9_relayout_idempotent Stripe.three).1 t ht⟩

/-! ## C10: the pending weights are consumed once -/

namespace Stripe

theorem arrange_map_span (s : Stripe) :
    s.arrange.d_contents.map Frame.span = s.d_contents.map Frame.span := by
  unfold arrange
  rw [positionSequence_map Frame.span (fun _ _ _ => rfl)]
  have e : ∀ l : List Frame, l.map Frame.span = (l.map Frame.forgetSize).map Frame.span := by
    intro l; rw [List.map_map]; rfl
  rw [e, map_forgetSize_of_resized (kept_expandLength _).contents,
    map_forgetSize_of_resized (kept_expandDepth _).contents, ← e]

theorem dispatch_list (s : Stripe) (ws : List ℚ) (hmode : s.weight = Weight.LIST)
    (hw : s.d_weights = some ws) (hne : ws ≠ []) (hlen : ws.length ≤ s.d_contents.length) :
    ∃ cs, s.dispatch = some { s with d_contents := cs, d_weights := some [] } := by
  have hpos : 0 < ws.length := List.length_pos.2 hne
  have hhas : s.hasWeights = true := by simp [hasWeights, hw, hpos]
  obtain ⟨cs, hcs⟩ := dispatchWeightsLoop_some s.d_length ws 0 s.d_contents (by omega)
  refine ⟨cs, ?_⟩
  simp only [dispatch, hmode, hhas, and_self, if_true, dispatchWeights, hw, hcs]

theorem dispatch_spent (s : Stripe) (hmode : s.weight = Weight.LIST)
    (hw : s.d_weights = some []) : s.dispatch = some s := by
  have hhas : s.hasWeights = false := by simp [hasWeights, hw]
  simp [dispatch, hmode, hhas]

theorem relayout_spent (s : Stripe) (hmode : s.weight = Weight.LIST)
    (hw : s.d_weights = some []) (hd : s.d_relayout = true) :
    s.relayout = some (arrange (normalizeSpan { s with d_relayout := false })) := by
  rw [relayout_dirty s hd,
    dispatch_spent (normalizeSpan { s with d_relayout := false }) hmode hw]
  rfl

end Stripe

/-- C10, counterexample: a LIST-mode Stripe with the pending weights 2 and 3 and three
children, whose dirty flag is false: `relayout` returns at once and the weights
are still pending. -/
theorem C10_weights_one_shot_counterexample :
    Stripe.pending.weight = Weight.LIST ∧
    Stripe.pending.d_weights = some [2, 3] ∧
    (2 : Nat) ≤ Stripe.pending.d_contents.length ∧
    Stripe.pending.relayout.map (fun t => t.d_weights) = some (some [2, 3]) := by
  decide!

/-- C10 (weight one-shot), amended. For every dirty LIST-mode Stripe with a non-empty
pending weight table of size at most `contents.size()`, `relayout` returns a
Stripe whose pending weight table is empty; and on that Stripe, marked dirty
again and with any contents (child spans changed), `relayout` is the pass
without weight dispatch: it returns, the weights stay empty, and the span of
every child is the one `normalizeSpan` leaves. -/
theorem C10_weights_one_shot (s : Stripe) (ws : List ℚ) (hmode : s.weight = Weight.LIST)
    (hdirty : s.d_relayout = true) (hw : s.d_weights = some ws) (hne : ws ≠ [])
    (hlen : ws.length ≤ s.d_contents.length) :
    ∃ t, s.relayout = some t ∧ t.d_weights = some [] ∧
      ∀ cs : List Frame, ∃ v,
        Stripe.relayout { t with d_relayout := true, d_contents := cs } = some v ∧
        v = Stripe.arrange (Stripe.normalizeSpan { t with d_relayout := false, d_contents := cs }) ∧
        v.d_weights = some [] ∧
        v.d_contents.map Frame.span =
          (Stripe.normalizeSpan { t with d_contents := cs }).d_contents.map Frame.span := by
  have hlen' : ws.length ≤
      (Stripe.normalizeSpan { s with d_relayout := false }).d_contents.length := by
    have := congrArg List.length (Stripe.normalizeSpan_forgetSpan { s with d_relayout := false })
    simp only [List.length_map] at this
    rw [this]; exact hlen
  obtain ⟨ds, hds⟩ := Stripe.dispatch_list (Stripe.normalizeSpan { s with d_relayout := false })
    ws hmode hw hne hlen'
  have ht : s.relayout = some (Stripe.arrange
      { Stripe.normalizeSpan { s with d_relayout := false } with
        d_contents := ds, d_weights := some [] }) := by
    rw [Stripe.relayout_dirty s hdirty, hds]; rfl
  refine ⟨_, ht, rfl, ?_⟩
  intro cs
  have hv : Stripe.relayout
      { Stripe.arrange { Stripe.normalizeSpan { s with d_relayout := false } with
          d_contents := ds, d_weights := some [] } with
        d_relayout := true, d_contents := cs } =
      some (Stripe.arrange (Stripe.normalizeSpan
        { Stripe.arrange { Stripe.normalizeSpan { s with d_relayout := false } with
            d_contents := ds, d_weights := some [] } with
          d_relayout := false, d_contents := cs })) := by
    exact Stripe.relayout_spent _ hmode rfl rfl
  refine ⟨_, hv, rfl, rfl, ?_⟩
  rw [Stripe.arrange_map_span]
  rfl

/-- Witness of C10: the three-child row of Scenario A, dirty, in mode LIST with the
pending weights 2 and 3. -/
theorem C10_weights_one_shot_witness :
    ∃ t, Stripe.relayout { Stripe.pending with d_relayout := true } = some t ∧
      t.d_weights = some [] ∧
      ∀ cs : List Frame, ∃ v,
        Stripe.relayout { t with d_relayout := true, d_contents := cs } = some v ∧
        v = Stripe.arrange (Stripe.normalizeSpan { t with d_relayout := false, d_contents := cs }) ∧
        v.d_weights = some [] ∧
        v.d_contents.map Frame.span =
          (Stripe.normalizeSpan { t with d_contents := cs }).d_contents.map Frame.span :=
  C10_weights_one_shot { Stripe.pending with d_relayout := true } [2, 3] rfl rfl rfl
    (by decide) (by decide)

/-! ## C5: the free space -/

namespace Stripe

end Stripe

namespace Stripe

theorem tracked_refl (s : Stripe) : Tracked s s := ⟨rfl, id⟩

theorem tracked_trans {s t u : Stripe} (a : Tracked s t) (b : Tracked t u) : Tracked s u :=
  ⟨b.1.trans a.1, fun h => b.2 (a.2 h)⟩

theorem tracked_resized (s : Stripe) (dim : Dimension) : Tracked s (s.resized dim) := by
  unfold resized
  split
  · exact ⟨rfl, fun _ => rfl⟩
  · exact ⟨rfl, fun _ => rfl⟩

theorem tracked_setSizeDim (s : Stripe) (dim : Dimension) (v : ℚ) :
    Tracked s (s.setSizeDim dim v) := by
  unfold setSizeDim
  split
  · exact tracked_refl s
  · have a : Tracked s { s with size := s.size.set dim v } := ⟨rfl, id⟩
    exact tracked_trans a (tracked_resized _ dim)

theorem tracked_updateLength (s : Stripe) : Tracked s s.updateLength := by
  unfold updateLength
  split
  · exact tracked_setSizeDim _ _ _
  · exact tracked_refl s

theorem tracked_updateDepth (s : Stripe) : Tracked s s.updateDepth := by
  unfold updateDepth
  split
  · exact tracked_setSizeDim _ _ _
  · exact tracked_refl s

theorem tracked_recomputeDepth (s : Stripe) : Tracked s s.recomputeDepth := by
  have a : ∀ m, Tracked s { s with d_maxDepth := m } := fun _ => ⟨rfl, id⟩
  exact tracked_trans (a _) (tracked_updateDepth _)

theorem tracked_flowSizedDepth (s : Stripe) (child : Frame) (delta : ℚ) :
    Tracked s (s.flowSizedDepth child delta) := by
  unfold flowSizedDepth
  split
  · exact tracked_recomputeDepth s
  · split
    · have a : ∀ m, Tracked s { s with d_maxDepth := m } := fun _ => ⟨rfl, id⟩
      exact tracked_trans (a _) (tracked_updateDepth _)
    · exact tracked_refl s

theorem flowSizedLength_sequenceLength (s : Stripe) (child : Frame) (delta : ℚ) :
    (s.flowSizedLength child delta).d_sequenceLength = s.d_sequenceLength + delta :=
  (tracked_updateLength { s with d_sequenceLength := s.d_sequenceLength + delta }).1

theorem flowSizedLength_relayout (s : Stripe) (child : Frame) (delta : ℚ) :
    (s.flowSizedLength child delta).d_relayout = true := rfl

theorem flowShown_tail (s : Stripe) (child : Frame) :
    (if !child.dexpand
        (if !child.dexpand s.d_length then s.flowSizedLength child (child.doffset s.d_length)
          else s).d_depth
      then Stripe.flowSizedDepth
        (if !child.dexpand s.d_length then s.flowSizedLength child (child.doffset s.d_length)
          else s) child
        (child.doffset
          (if !child.dexpand s.d_length then s.flowSizedLength child (child.doffset s.d_length)
            else s).d_depth)
      else
        (if !child.dexpand s.d_length then s.flowSizedLength child (child.doffset s.d_length)
          else s)).d_sequenceLength =
      s.d_sequenceLength + (if child.dexpand s.d_length then 0 else child.doffset s.d_length) ∧
    (s.d_relayout = true →
      (if !child.dexpand
          (if !child.dexpand s.d_length then s.flowSizedLength child (child.doffset s.d_length)
            else s).d_depth
        then Stripe.flowSizedDepth
          (if !child.dexpand s.d_length then s.flowSizedLength child (child.doffset s.d_length)
            else s) child
          (child.doffset
            (if !child.dexpand s.d_length then s.flowSizedLength child (child.doffset s.d_length)
              else s).d_depth)
        else
          (if !child.dexpand s.d_length then s.flowSizedLength child (child.doffset s.d_length)
            else s)).d_relayout = true) := by
  have h2 : (if !child.dexpand s.d_length then
        s.flowSizedLength child (child.doffset s.d_length) else s).d_sequenceLength =
      s.d_sequenceLength + (if child.dexpand s.d_length then 0 else child.doffset s.d_length) ∧
      (s.d_relayout = true → (if !child.dexpand s.d_length then
        s.flowSizedLength child (child.doffset s.d_length) else s).d_relayout = true) := by
    cases hc : child.dexpand s.d_length with
    | true => simp
    | false =>
      simp only [Bool.not_false, if_true, Bool.false_eq_true, if_false]
      exact ⟨flowSizedLength_sequenceLength _ _ _, fun _ => rfl⟩
  generalize (if !child.dexpand s.d_length then
        s.flowSizedLength child (child.doffset s.d_length) else s) = s2 at h2 ⊢
  split
  · exact ⟨(tracked_flowSizedDepth _ _ _).1.trans h2.1,
      fun h => (tracked_flowSizedDepth _ _ _).2 (h2.2 h)⟩
  · exact h2

/-- The length of the sequence after `flowShown`: a spacing when the sequence has
more than one frame, and the extent of the child when it is not
length-expanding. -/
theorem flowShown_sequenceLength (s : Stripe) (child : Frame) :
    (s.flowShown child).d_sequenceLength =
      s.d_sequenceLength + (if s.d_sequence_size > 1 then s.spacing.get s.d_length else 0) +
        (if child.dexpand s.d_length then 0 else child.doffset s.d_length) := by
  by_cases h1 : s.d_sequence_size > 1
  · have := (flowShown_tail
      { s with d_sequenceLength := s.d_sequenceLength + s.spacing.get s.d_length } child).1
    simp only [flowShown, h1, if_true]
    exact this
  · have := (flowShown_tail s child).1
    simp only [flowShown, h1, if_false, add_zero]
    exact this

theorem flowShown_relayout (s : Stripe) (child : Frame) (h : s.d_relayout = true) :
    (s.flowShown child).d_relayout = true := by
  by_cases h1 : s.d_sequence_size > 1
  · have := (flowShown_tail
      { s with d_sequenceLength := s.d_sequenceLength + s.spacing.get s.d_length } child).2 h
    simp only [flowShown, h1, if_true]
    exact this
  · have := (flowShown_tail s child).2 h
    simp only [flowShown, h1, if_false]
    exact this

end Stripe
/-! ## Insertion of visible flow children -/

theorem map_of_resized {β : Type} (g : Frame → β)
    (hg : ∀ f f', Frame.Resized f f' → g f' = g f) {cs ds : List Frame}
    (h : List.Forall₂ Frame.Resized cs ds) : ds.map g = cs.map g := by
  induction h with
  | nil => rfl
  | cons h _ ih => rw [List.map_cons, List.map_cons, ih, hg _ _ h]

theorem map_reindexFrom {β : Type} (g : Frame → β) (hg : ∀ f i, g (Frame.setIndex f i) = g f)
    (start k : Nat) (cs : List Frame) : (Stripe.reindexFrom start k cs).map g = cs.map g := by
  induction cs generalizing k with
  | nil => rfl
  | cons f fs ih =>
    simp only [Stripe.reindexFrom, List.map_cons, ih]
    split
    · rw [hg]
    · rfl

theorem dexpand_of_resized {f f' : Frame} (h : Frame.Resized f f') (d : Dimension) :
    f'.dexpand d = f.dexpand d := by
  have := congrArg Frame.sizing h.1
  simp only [Frame.forgetSize] at this
  simp [Frame.dexpand, this]

namespace Stripe

/-- The result of `insert` on a visible flow frame. -/
theorem insert_visible_flow (s : Stripe) (frame : Frame) (index : Nat)
    (hf : frame.flow = true) (hv : frame.hidden = false)
    (hk : s.d_sequence_size ≤ s.d_contents.length) :
    ∃ t, s.insert frame index = some t ∧
      Kept { reindex (s.spliced frame (min s.d_sequence_size index))
          (min s.d_sequence_size index) with
        d_sequence_size := s.d_sequence_size + 1, d_relayout := true } t ∧
      t.d_sequenceLength = s.d_sequenceLength +
        (if s.d_sequence_size + 1 > 1 then s.spacing.get s.d_length else 0) +
        (if frame.dexpand s.d_length then 0 else frame.doffset s.d_length) ∧
      t.d_relayout = true := by
  have hrange : min s.d_sequence_size index ≤ s.d_contents.length := by omega
  have hins : s.insert frame index = some
      (Stripe.insertFlow
        (Stripe.reindex (s.spliced frame (min s.d_sequence_size index))
          (min s.d_sequence_size index))
        (frame.setIndex (min s.d_sequence_size index)) (min s.d_sequence_size index)) := by
    simp only [Stripe.insert, Stripe.insertAt, hf, if_true, hrange, Stripe.spliced]
  rw [insertFlow_visible _ (frame.setIndex (min s.d_sequence_size index)) _ hv] at hins
  refine ⟨_, hins, kept_flowShown _ _, ?_, flowShown_relayout _ _ rfl⟩
  rw [flowShown_sequenceLength]
  rfl

theorem insert_visible_flow_map {β : Type} (g : Frame → β)
    (hres : ∀ f f', Frame.Resized f f' → g f' = g f)
    (hidx : ∀ f i, g (Frame.setIndex f i) = g f)
    (s t : Stripe) (frame : Frame) (i : Nat)
    (h : Kept { reindex (s.spliced frame i) i with
        d_sequence_size := s.d_sequence_size + 1, d_relayout := true } t) :
    t.d_contents.map g =
      (s.d_contents.map g).take i ++ g frame :: (s.d_contents.map g).drop i := by
  rw [map_of_resized g hres h.contents]
  show (reindexFrom i 0 _).map g = _
  rw [map_reindexFrom g hidx]
  simp [spliced]

end Stripe

theorem length_splice {α : Type} (l : List α) (i : Nat) (x : α) :
    (l.take i ++ x :: l.drop i).length = l.length + 1 := by
  have h : (l.take i ++ l.drop i).length = l.length := by rw [List.take_append_drop]
  rw [List.length_append] at h
  rw [List.length_append, List.length_cons]
  omega

theorem foldl_cond_sum {α : Type} (p : α → Bool) (g : α → ℚ) (l : List α) (a : ℚ) :
    l.foldl (fun acc x => if p x then acc + g x else acc) a =
      a + (l.map (fun x => if p x then g x else 0)).sum := by
  induction l generalizing a with
  | nil => simp
  | cons x xs ih =>
    simp only [List.foldl_cons, List.map_cons, List.sum_cons]
    rw [ih]
    split <;> ring

theorem depth_ne_length (s : Stripe) : s.d_depth ≠ s.d_length := by
  unfold Stripe.d_depth Stripe.d_length
  cases s.layoutDim <;> simp

namespace Stripe

end Stripe
namespace Stripe

end Stripe

theorem forall₂_getElem? {α β : Type} {R : α → β → Prop} {l₁ : List α} {l₂ : List β}
    (h : List.Forall₂ R l₁ l₂) (j : Nat) (a : α) (ha : l₁[j]? = some a) :
    ∃ b, l₂[j]? = some b ∧ R a b := by
  induction h generalizing j with
  | nil => simp at ha
  | cons hab _ ih =>
    cases j with
    | zero =>
      simp only [List.getElem?_cons_zero, Option.some.injEq] at ha
      subst ha
      exact ⟨_, List.getElem?_cons_zero, hab⟩
    | succ k =>
      simp only [List.getElem?_cons_succ] at ha ⊢
      exact ih k ha

theorem forall₂_compose {α : Type} {R S T : α → α → Prop}
    (hc : ∀ a b c, R a b → S b c → T a c) {l₁ l₂ l₃ : List α}
    (h₁ : List.Forall₂ R l₁ l₂) (h₂ : List.Forall₂ S l₂ l₃) : List.Forall₂ T l₁ l₃ := by
  induction h₁ generalizing l₃ with
  | nil => cases h₂; exact List.Forall₂.nil
  | cons hab _ ih =>
    cases h₂ with
    | cons hbc tbc => exact List.Forall₂.cons (hc _ _ _ hab hbc) (ih tbc)

theorem tableRow_one (d : Dimension) (n index : Nat) (w : ℚ) (row out : Frame)
    (h : Stripe.dispatchTableRow d n index w row = some out) :
    TableRow d n [w] index row out ∧ RowShape row out := by
  unfold Stripe.dispatchTableRow at h
  split at h
  · split at h
    · rename_i hn
      split at h
      · cases h
      · rename_i sp hsp
        cases h
        refine ⟨⟨fun hne => absurd hn hne, fun _ => ⟨hn, fun i hi => ?_, fun i v hv => ?_⟩⟩,
          rfl, rfl, by simp⟩
        · simp only [List.length_singleton] at hi
          simp only
          rw [List.getElem?_set_ne (by omega)]
        · cases i with
          | zero =>
            simp only [List.getElem?_cons_zero, Option.some.injEq] at hv
            subst hv
            refine ⟨sp, hsp, ?_⟩
            have hlt : index < row.subSpans.length := by
              by_contra hc
              rw [List.getElem?_eq_none (by omega)] at hsp; cases hsp
            simp only [Nat.add_zero]
            rw [List.getElem?_set]
            simp [hlt]
          | succ k => simp at hv
    · rename_i hn
      cases h
      exact ⟨⟨fun _ => rfl, fun he => absurd he hn⟩, rfl, rfl, rfl⟩
  · cases h

theorem tableRows_one (d : Dimension) (n index : Nat) (w : ℚ) (rows out : List Frame)
    (h : Stripe.dispatchTableRows d n index w rows = some out) :
    List.Forall₂ (fun row o => TableRow d n [w] index row o ∧ RowShape row o) rows out := by
  induction rows generalizing out with
  | nil => simp only [Stripe.dispatchTableRows] at h; cases h; exact List.Forall₂.nil
  | cons f fs ih =>
    simp only [Stripe.dispatchTableRows] at h
    split at h
    · rename_i f1 fs1 hf1 hfs1
      cases h
      exact List.Forall₂.cons (tableRow_one _ _ _ _ _ _ hf1) (ih _ hfs1)
    · cases h

theorem tableRow_step (d : Dimension) (n index : Nat) (w : ℚ) (ws : List ℚ)
    (row mid out : Frame) (h1 : TableRow d n [w] index row mid)
    (h2 : TableRow d n ws (index + 1) mid out) : TableRow d n (w :: ws) index row out := by
  refine ⟨fun hne => ?_, fun he => ?_⟩
  · have hm := h1.1 hne
    subst hm
    exact h2.1 hne
  · obtain ⟨hmn, hmlt, hmw⟩ := h1.2 he
    obtain ⟨hon, holt, how⟩ := h2.2 hmn
    obtain ⟨sp, hsp, hmid⟩ := hmw 0 w rfl
    simp only [Nat.add_zero] at hsp hmid
    simp only [List.length_singleton] at hmlt
    refine ⟨hon, fun i hi => ?_, fun i v hv => ?_⟩
    · simp only [List.length_cons] at hi
      rw [holt i (by omega), hmlt i (by omega)]
    · cases i with
      | zero =>
        simp only [List.getElem?_cons_zero, Option.some.injEq] at hv
        subst hv
        refine ⟨sp, hsp, ?_⟩
        simp only [Nat.add_zero]
        rw [holt index (by omega), hmid]
      | succ k =>
        simp only [List.getElem?_cons_succ] at hv
        obtain ⟨sp1, hsp1, hout⟩ := how k v hv
        have e : index + (k + 1) = index + 1 + k := by omega
        rw [e]
        refine ⟨sp1, ?_, hout⟩
        rw [← hsp1, hmlt (index + 1 + k) (by omega)]

theorem tableLoop_rows (d : Dimension) (n : Nat) (ws : List ℚ) (index : Nat)
    (rows out : List Frame) (h : Stripe.dispatchTableLoop d n ws index rows = some out) :
    List.Forall₂ (TableRow d n ws index) rows out := by
  induction ws generalizing index rows with
  | nil =>
    simp only [Stripe.dispatchTableLoop] at h
    cases h
    exact List.forall₂_same.2 (fun row _ =>
      ⟨fun _ => rfl, fun he => ⟨he, fun _ _ => rfl, fun i w hw => by simp at hw⟩⟩)
  | cons w ws ih =>
    simp only [Stripe.dispatchTableLoop] at h
    split at h
    · cases h
    · rename_i rows1 h1
      have hc : ∀ a b c, (TableRow d n [w] index a b ∧ RowShape a b) →
          TableRow d n ws (index + 1) b c → TableRow d n (w :: ws) index a c :=
        fun a b c hab hbc => tableRow_step d n index w ws a b c hab.1 hbc
      exact forall₂_compose hc (tableRows_one d n index w rows rows1 h1)
        (ih (index + 1) rows1 h)

theorem tableRows_defined (d : Dimension) (n index : Nat) (w : ℚ) (rows : List Frame)
    (h : ∀ row ∈ rows, Stripe.isStripe row = true ∧
      (row.subSequenceSize = n → index < row.subSpans.length)) :
    ∃ out, Stripe.dispatchTableRows d n index w rows = some out := by
  induction rows with
  | nil => exact ⟨[], rfl⟩
  | cons f fs ih =>
    obtain ⟨out, hout⟩ := ih (fun row hrow => h row (List.mem_cons_of_mem _ hrow))
    obtain ⟨hst, hlen⟩ := h f (List.mem_cons_self _ _)
    have hf : ∃ f1, Stripe.dispatchTableRow d n index w f = some f1 := by
      unfold Stripe.dispatchTableRow
      rw [if_pos hst]
      by_cases hn : f.subSequenceSize = n
      · rw [if_pos hn, List.getElem?_eq_getElem (hlen hn)]
        exact ⟨_, rfl⟩
      · rw [if_neg hn]
        exact ⟨_, rfl⟩
    obtain ⟨f1, hf1⟩ := hf
    exact ⟨f1 :: out, by simp only [Stripe.dispatchTableRows, hf1, hout]⟩

theorem tableLoop_defined (d : Dimension) (n : Nat) (ws : List ℚ) (index : Nat)
    (rows : List Frame)
    (h : ∀ row ∈ rows, Stripe.isStripe row = true ∧
      (row.subSequenceSize = n → index + ws.length ≤ row.subSpans.length)) :
    ∃ out, Stripe.dispatchTableLoop d n ws index rows = some out := by
  induction ws generalizing index rows with
  | nil => exact ⟨rows, rfl⟩
  | cons w ws ih =>
    simp only [List.length_cons] at h
    obtain ⟨rows1, h1⟩ := tableRows_defined d n index w rows
      (fun row hrow => ⟨(h row hrow).1, fun hn => by have := (h row hrow).2 hn; omega⟩)
    simp only [Stripe.dispatchTableLoop, h1]
    apply ih
    intro row1 hrow1
    have hf := List.Forall₂.flip (tableRows_one d n index w rows rows1 h1)
    obtain ⟨j, hj⟩ := List.getElem?_of_mem hrow1
    obtain ⟨row, hrow, -, hs1, hs2, hs3⟩ := forall₂_getElem? hf j row1 hj
    have hmem : row ∈ rows := List.getElem?_mem hrow
    obtain ⟨hst, hlen⟩ := h row hmem
    refine ⟨hs1.trans hst, fun hn => ?_⟩
    have := hlen (hs2.symm.trans hn)
    omega

theorem take_rows_append {α : Type} (k : Nat) (cs rows : List α)
    (h : rows.length = (cs.take k).length) : (rows ++ cs.drop k).take k = rows := by
  rw [List.length_take] at h
  by_cases hk : k ≤ cs.length
  · rw [Nat.min_eq_left hk] at h
    rw [List.take_append_of_le_length (by omega), List.take_of_length_le (by omega)]
  · rw [Nat.min_eq_right (by omega)] at h
    rw [List.drop_of_length_le (by omega), List.append_nil, List.take_of_length_le (by omega)]

theorem forall₂_length {α β : Type} {R : α → β → Prop} {l₁ : List α} {l₂ : List β}
    (h : List.Forall₂ R l₁ l₂) : l₂.length = l₁.length := by
  induction h with
  | nil => rfl
  | cons _ _ ih => simp [ih]

/-- C11, counterexample: in the vertical TABLE-mode Stripe with weights 2, 3, 4, the
row with three children of which two are in its sequence keeps the spans 1, 1, 1,
and the row with four children of which three are in its sequence gets the spans
2, 3, 4 on its first three children: the test is on the size of the row's
sequence, not on its child count. -/
theorem C11_table_dispatch_counterexample :
    Stripe.table.dispatchTableWeights.map (fun t => t.d_contents.map
      (fun row => (row.subSpans.length, row.subSpans.map (fun sp => sp.get Stripe.table.d_depth))))
      = some [(3, [2, 3, 4]), (3, [1, 1, 1]), (4, [2, 3, 4, 1])] := by
  decide!

/-- C11 (Scenario E), amended. For every Stripe with a weight table `w` of size `k`,
after `dispatchTableWeights` every row of its sequence whose own sequence has
size `k` has, for each column `i < k`, the span of its `i`-th child on the
Stripe's depth axis set to `w[i]` (the span on the other axis is kept) and the
spans of its other children, those at the positions `k` and beyond, unchanged,
and every row whose own sequence has another size is unchanged. The dispatch is
defined when the frames of the sequence are Stripes and every row whose own
sequence has size `k` has at least `k` children. -/
theorem C11_table_dispatch (s : Stripe) (ws : List ℚ) (hw : s.d_weights = some ws) :
    (∀ t : Stripe, s.dispatchTableWeights = some t →
      ∀ (j : Nat) (row : Frame), s.sequence[j]? = some row →
        ∃ out : Frame, t.sequence[j]? = some out ∧
          (row.subSequenceSize = ws.length →
            (∀ (i : Nat) (w : ℚ), ws[i]? = some w →
              ∃ sp : DimFloat, row.subSpans[i]? = some sp ∧
                out.subSpans[i]? = some (sp.set s.d_depth w)) ∧
            (∀ i : Nat, ws.length ≤ i → out.subSpans[i]? = row.subSpans[i]?)) ∧
          (row.subSequenceSize ≠ ws.length → out = row)) ∧
    ((∀ row ∈ s.sequence, Stripe.isStripe row = true ∧
        (row.subSequenceSize = ws.length → ws.length ≤ row.subSpans.length)) →
      ∃ t, s.dispatchTableWeights = some t) := by
  constructor
  · intro t ht j row hrow
    simp only [Stripe.dispatchTableWeights, hw] at ht
    cases hrows : Stripe.dispatchTableLoop s.d_depth ws.length ws 0 s.sequence with
    | none => rw [hrows] at ht; cases ht
    | some rows =>
      rw [hrows] at ht
      cases ht
      have hf := tableLoop_rows _ _ _ _ _ _ hrows
      have hseq : (rows ++ s.d_contents.drop s.d_sequence_size).take s.d_sequence_size = rows :=
        take_rows_append _ _ _ (forall₂_length hf)
      simp only [Stripe.sequence, hseq]
      obtain ⟨out, hout, hrel⟩ := forall₂_getElem? hf j row hrow
      refine ⟨out, hout, fun he => ⟨fun i w hi => ?_, fun i hi => ?_⟩, hrel.1⟩
      · have := (hrel.2 he).2.2 i w hi
        simpa using this
      · exact (hrel.2 he).2.1 i (Or.inr (by omega))
  · intro h
    obtain ⟨rows, hrows⟩ := tableLoop_defined s.d_depth ws.length ws 0 s.sequence
      (fun row hrow => ⟨(h row hrow).1, fun hn => by have := (h row hrow).2 hn; omega⟩)
    simp only [Stripe.dispatchTableWeights, hw, hrows]
    exact ⟨_, rfl⟩

/-- Witness of C11 on the table with weights 2, 3, 4: the dispatch returns, row 0
(three children, all in its sequence) gets the spans 2, 3, 4, row 2 (four
children, three in its sequence) keeps the span of its fourth child, and row 1
(a sequence of size 2) is unchanged. -/
theorem C11_table_dispatch_witness :
    ∃ t : Stripe, Stripe.table.dispatchTableWeights = some t ∧
      (∀ (j : Nat) (row : Frame), Stripe.table.sequence[j]? = some row →
        ∃ out : Frame, t.sequence[j]? = some out ∧
          (row.subSequenceSize = 3 →
            (∀ (i : Nat) (w : ℚ), [(2 : ℚ), 3, 4][i]? = some w →
              ∃ sp : DimFloat, row.subSpans[i]? = some sp ∧
                out.subSpans[i]? = some (sp.set Stripe.table.d_depth w)) ∧
            (∀ i : Nat, 3 ≤ i → out.subSpans[i]? = row.subSpans[i]?)) ∧
          (row.subSequenceSize ≠ 3 → out = row)) := by
  have h := C11_table_dispatch Stripe.table [2, 3, 4] rfl
  obtain ⟨t, ht⟩ := h.2 (by decide)
  exact ⟨t, ht, h.1 t ht⟩

/-! ## C12: where insert places the frame -/

/-- C12, counterexample: `insert` of a non-flow frame at index 7 into the three-child
row is not clamped to `contents.size()`: the vector insertion is past the end
and has no defined result. -/
theorem C12_insert_placement_counterexample :
    (Frame.leaf 9 false false Sizing.FIXED 50 0).flow = false ∧
    Stripe.three.d_contents.length = 3 ∧
    Stripe.three.insert (Frame.leaf 9 false false Sizing.FIXED 50 0) 7 = none := by
  decide!

/-- C12 (insert placement), amended. `insert(frame, index)` brings the index of a flow
frame down to `sequence.size()` and takes the index of a non-flow frame as given;
whenever the position so obtained is at most `contents.size()`, `insert`
returns, the contents are the former contents with the frame spliced in at that
position (re-indexed from there, and up to the sizes of expanding frames): the
frame is the element at that position, the contents have grown by one and the
former children keep their order. `append(frame)` is `insert` at
`sequence.size()` for a flow frame and at `contents.size()` for a non-flow
frame. -/
theorem C12_insert_placement (s : Stripe) (frame : Frame) (index : Nat)
    (hrange : s.insertIndex frame index ≤ s.d_contents.length) :
    s.insertIndex frame index = (if frame.flow then min s.d_sequence_size index else index) ∧
    (∃ t : Stripe, s.insert frame index = some t ∧
      List.Forall₂ Frame.Resized
        (Stripe.reindexFrom (s.insertIndex frame index) 0
          (s.d_contents.take (s.insertIndex frame index) ++
            frame :: s.d_contents.drop (s.insertIndex frame index)))
        t.d_contents ∧
      t.d_contents.length = s.d_contents.length + 1 ∧
      (∃ g : Frame, t.d_contents[s.insertIndex frame index]? = some g ∧
        g.name = frame.name ∧ g.index = s.insertIndex frame index) ∧
      t.d_contents.map Frame.name =
        (s.d_contents.map Frame.name).take (s.insertIndex frame index) ++
          frame.name :: (s.d_contents.map Frame.name).drop (s.insertIndex frame index)) ∧
    s.append frame =
      s.insert frame (if frame.flow then s.d_sequence_size else s.d_contents.length) := by
  refine ⟨rfl, ?_, rfl⟩
  obtain ⟨t, ht, hres⟩ := Stripe.insert_contents s frame index hrange
  have hres' : List.Forall₂ Frame.Resized
      (Stripe.reindexFrom (s.insertIndex frame index) 0
        (s.d_contents.take (s.insertIndex frame index) ++
          frame :: s.d_contents.drop (s.insertIndex frame index)))
      t.d_contents := hres
  have hlen : t.d_contents.length = s.d_contents.length + 1 := by
    have h1 := congrArg List.length (map_name_of_resized hres')
    rw [map_name_reindexFrom] at h1
    simp only [List.length_map] at h1
    rw [h1, length_splice]
  have hget := getElem?_reindexed_splice s.d_contents (s.insertIndex frame index) frame
    (s.insertIndex frame index) hrange
  simp only [Nat.lt_irrefl, if_false, if_true] at hget
  obtain ⟨g, hg, hgr⟩ := forall₂_getElem? hres' _ _ hget
  have hgn : g.forgetSize = (frame.setIndex (s.insertIndex frame index)).forgetSize := hgr.1
  refine ⟨t, ht, hres', hlen, ⟨g, hg, ?_, ?_⟩, ?_⟩
  · have h1 : g.forgetSize.name =
        (frame.setIndex (s.insertIndex frame index)).forgetSize.name := by rw [hgn]
    exact h1
  · have h1 : g.forgetSize.index =
        (frame.setIndex (s.insertIndex frame index)).forgetSize.index := by rw [hgn]
    exact h1
  · rw [map_name_of_resized hres', map_name_reindexFrom]
    simp

/-- Witness of C12: a flow frame inserted at index 7 into the three-child row goes to
position 3, the size of the sequence. -/
theorem C12_insert_placement_witness :
    Stripe.three.insertIndex (Frame.leaf 9 true false Sizing.FIXED 50 0) 7 = 3 ∧
    ∃ t : Stripe, Stripe.three.insert (Frame.leaf 9 true false Sizing.FIXED 50 0) 7 = some t ∧
      t.d_contents.length = Stripe.three.d_contents.length + 1 ∧
      t.d_contents.map Frame.name = [1, 2, 3, 9] := by
  have h := C12_insert_placement Stripe.three (Frame.leaf 9 true false Sizing.FIXED 50 0) 7
    (by decide)
  obtain ⟨t, ht, -, hlen, -, hnames⟩ := h.2.1
  exact ⟨by decide, t, ht, hlen, hnames.trans (by decide)⟩

/-! ## C13: the dirty flag after structural operations -/

/-- C13, evaluation of the code: `move`, and `insert` and `remove` of a non-flow frame,
leave the relayout flag as it was; on the three-child row of Scenario A with a
clear flag, `move(0, 1)`, `insert` of a non-flow frame at index 3 and its
removal all return a Stripe whose flag is still false, while `clear` and the
`insert` of a flow frame set it. -/
theorem C13_move_keeps_flag :
    (∀ (s t : Stripe) (a b : Nat), s.move a b = some t → t.d_relayout = s.d_relayout) ∧
    (∀ (s t : Stripe) (frame : Frame) (index : Nat), frame.flow = false →
      s.insert frame index = some t → t.d_relayout = s.d_relayout) ∧
    (∀ (s t : Stripe) (frame : Frame), frame.flow = false →
      s.remove frame = some t → t.d_relayout = s.d_relayout) ∧
    (∀ s : Stripe, s.clear.d_relayout = true) ∧
    Stripe.clean.d_relayout = false ∧
    (Stripe.clean.move 0 1).map (fun t => t.d_relayout) = some false ∧
    (Stripe.clean.insert (Frame.leaf 9 false false Sizing.FIXED 50 0) 3).map
      (fun t => t.d_relayout) = some false ∧
    ((Stripe.clean.insert (Frame.leaf 9 false false Sizing.FIXED 50 0) 3).bind
      (fun t => t.remove (Frame.leaf 9 false false Sizing.FIXED 50 3))).map
      (fun t => (t.d_contents.length, t.d_relayout)) = some (3, false) ∧
    (Stripe.clean.insert (Frame.leaf 9 true false Sizing.FIXED 50 0) 3).map
      (fun t => t.d_relayout) = some true := by
  refine ⟨?_, ?_, ?_, fun _ => rfl, by decide!, by decide!, by decide!, by decide!, by decide!⟩
  · intro s t a b h
    unfold Stripe.move at h
    split at h
    · cases h
    · cases h; rfl
  · intro s t frame index hf h
    unfold Stripe.insert at h
    simp only [hf] at h
    split at h
    · cases h
    · simp only [Bool.false_eq_true, if_false] at h
      cases h; rfl
  · intro s t frame hf h
    unfold Stripe.remove at h
    split at h
    · cases h
    · simp only [hf, Bool.false_eq_true, if_false] at h
      cases h; rfl

/-! ## C14: the cursor -/

theorem sum_filter_map {α : Type} (p : α → Bool) (g : α → ℚ) (l : List α) :
    ((l.filter p).map g).sum = (l.map (fun x => if p x then g x else 0)).sum := by
  induction l with
  | nil => rfl
  | cons x xs ih =>
    rw [List.filter_cons]
    cases hp : p x with
    | true => simp [hp, ih]
    | false => simp [hp, ih]

theorem getElem?_mapSequence (s : Stripe) (g : Frame → Frame) (j : Nat) :
    (s.mapSequence g)[j]? =
      if j < s.d_sequence_size then (s.d_contents[j]?).map g else s.d_contents[j]? := by
  unfold Stripe.mapSequence
  by_cases hj : j < s.d_sequence_size
  · rw [if_pos hj]
    by_cases hl : j < s.d_contents.length
    · rw [List.getElem?_append_left (by simp; omega), List.getElem?_map,
        List.getElem?_take_of_lt hj]
    · rw [List.getElem?_eq_none (by simp; omega), List.getElem?_eq_none (by omega)]
      rfl
  · rw [if_neg hj]
    by_cases hl : s.d_sequence_size ≤ s.d_contents.length
    · rw [List.getElem?_append_right (by simp; omega), List.getElem?_drop]
      simp only [List.length_map, List.length_take, Nat.min_eq_left hl]
      congr 1; omega
    · rw [List.getElem?_eq_none (by simp; omega), List.getElem?_eq_none (by omega)]

theorem sequence_mapSequence (s : Stripe) (g : Frame → Frame) :
    (s.mapSequence g).take s.d_sequence_size = s.sequence.map g := by
  unfold Stripe.mapSequence Stripe.sequence
  exact take_rows_append _ _ _ (by simp)

theorem foldl_spanned (p : Frame → Bool) (g : Frame → ℚ) (l : List Frame) (acc : ℚ) :
    l.foldl (fun span frame => if p frame then round32 (span + g frame) else span) acc =
      ((l.filter p).map g).foldl (fun acc a => round32 (acc + a)) acc := by
  induction l generalizing acc with
  | nil => rfl
  | cons x xs ih =>
    rw [List.filter_cons, List.foldl_cons]
    cases hp : p x with
    | true => simp only [if_true, List.map_cons, List.foldl_cons]; exact ih _
    | false => simp only [Bool.false_eq_true, if_false]; exact ih _

theorem spanSum_running (s : Stripe) :
    s.spanSum = s.spannedSpans.foldl (fun acc a => round32 (acc + a)) 0 := by
  unfold Stripe.spanSum Stripe.spannedSpans
  exact foldl_spanned (fun f => s.spanned f) (fun f => f.dspan s.d_length) s.sequence 0

theorem normalizeSpan_normalized (s : Stripe) :
    s.normalizeSpan.d_contents = s.mapSequence (s.normalized s.spanSum) := rfl

theorem spannedSpans_normalizeSpan (s : Stripe) :
    s.normalizeSpan.spannedSpans =
      s.spannedSpans.map (fun a => round32 (round32 (1 / s.spanSum) * a)) := by
  have hseq : s.normalizeSpan.sequence = s.sequence.map (s.normalized s.spanSum) := by
    unfold Stripe.sequence
    rw [normalizeSpan_normalized]
    exact sequence_mapSequence s _
  unfold Stripe.spannedSpans
  rw [hseq]
  generalize s.sequence = l
  induction l with
  | nil => rfl
  | cons f fs ih =>
    simp only [List.map_cons, List.filter_cons]
    cases hsp : s.spanned f with
    | true =>
      have hn : s.normalized s.spanSum f =
          f.setSpanDimDirect s.d_length (round32 (round32 (1 / s.spanSum) * f.dspan s.d_length)) := by
        unfold Stripe.normalized
        rw [if_pos hsp]
      have h1 : s.normalizeSpan.spanned (s.normalized s.spanSum f) = true := by
        rw [hn]
        exact hsp
      rw [h1]
      simp only [if_true, List.map_cons]
      rw [ih]
      congr 1
      rw [hn]
      show Frame.dspan (f.setSpanDimDirect s.d_length _) s.d_length = _
      simp only [Frame.dspan, Frame.setSpanDimDirect, Dim.get_set, if_true]
    | false =>
      have hn : s.normalized s.spanSum f = f := by
        unfold Stripe.normalized
        rw [if_neg (by rw [hsp]; exact Bool.false_ne_true)]
      have h1 : s.normalizeSpan.spanned (s.normalized s.spanSum f) = false := by
        rw [hn]
        exact hsp
      rw [h1]
      simp only [Bool.false_eq_true, if_false]
      exact ih

/-- Counterexample to C15 as stated: in the three-child row whose children are
visible and length-expanding with the spans 3, 3 and 1, the running sum is 7 and
`normalizeSpan` leaves the spans 14380472 / 2^25, 14380472 / 2^25 and
9586981 / 2^26 (0.42857146, 0.42857146, 0.14285715): their sum is 1 + 5 / 2^26,
not 1, and the first is neither 3 / 7 nor the binary32 value nearest to 3 / 7. -/
theorem C15_normalizeSpan_counterexample :
    Stripe.sevenths.spanSum = 7 ∧
    Stripe.sevenths.normalizeSpan.spannedSpans =
      [14380472 / 33554432, 14380472 / 33554432, 9586981 / 67108864] ∧
    Stripe.sevenths.normalizeSpan.spannedSpans.sum = 1 + 5 / 67108864 ∧
    Stripe.sevenths.normalizeSpan.spannedSpans.sum ≠ 1 ∧
    (14380472 / 33554432 : ℚ) ≠ 3 / 7 ∧
    round32 (3 / 7) = 14380471 / 33554432 := by
  decide!

/-- C15 (normalizeSpan), amended. Take a Stripe whose visible, length-expanding frames
of the sequence have length spans of at least `2 ^ (-126)`, with a running
binary32 sum `total` that is not zero and at most `2 ^ 126`, and such that the
product of each of these spans by the binary32 reciprocal of `total` is at least
`2 ^ (-126)`. Then `total` is the left-to-right binary32 sum of these spans;
after `normalizeSpan` each of these frames has, as its length span, the binary32
product of its old span by the binary32 reciprocal of `total`, and every other
child of the contents is unchanged; and the sum `σ` of the new spans of these
`n` frames is 1 up to rounding: `(1 - u) ^ 2 ≤ σ * (1 + u) ^ n` and
`σ * (1 - u) ^ n ≤ (1 + u) ^ 2`, where `u = 2 ^ (-24)`. -/
theorem C15_normalizeSpan (s : Stripe) (hsum : s.spanSum ≠ 0)
    (hspans : ∀ a ∈ s.spannedSpans, tiny32 ≤ a) (htop : s.spanSum ≤ 1 / tiny32)
    (hlow : ∀ a ∈ s.spannedSpans, tiny32 ≤ round32 (1 / s.spanSum) * a) :
    s.spanSum = s.spannedSpans.foldl (fun acc a => round32 (acc + a)) 0 ∧
    (∀ (j : Nat) (f : Frame), s.d_contents[j]? = some f →
      s.normalizeSpan.d_contents[j]? =
        some (if j < s.d_sequence_size then s.normalized s.spanSum f else f)) ∧
    s.normalizeSpan.spannedSpans =
      s.spannedSpans.map (fun a => round32 (round32 (1 / s.spanSum) * a)) ∧
    (1 - unit32) ^ 2 ≤
      s.normalizeSpan.spannedSpans.sum * (1 + unit32) ^ s.spannedSpans.length ∧
    s.normalizeSpan.spannedSpans.sum * (1 - unit32) ^ s.spannedSpans.length ≤
      (1 + unit32) ^ 2 := by
  have hrun := spanSum_running s
  have hnew := spannedSpans_normalizeSpan s
  have hne : s.spannedSpans ≠ [] := by
    intro hnil
    rw [hnil] at hrun
    exact hsum hrun
  refine ⟨hrun, fun j f hf => ?_, hnew, ?_⟩
  · rw [normalizeSpan_normalized, getElem?_mapSequence, hf]
    split <;> rfl
  · rw [hnew]
    rw [hrun] at htop hlow
    have h := normalized_sum_bounds s.spannedSpans hne hspans htop hlow
    rw [← hrun] at h
    exact h

/-- Witness of C15 on a four-child row with spans 1, 3, 3, 2 of which the first and
the third are visible and length-expanding: the running sum is 4 and their spans
become 1/4 and 3/4. -/
theorem C15_normalizeSpan_witness :
    Stripe.spans.spanSum = 4 ∧
    Stripe.spans.spannedSpans = [1, 3] ∧
    Stripe.spans.normalizeSpan.d_contents.map (fun f => f.dspan Stripe.spans.d_length) =
      [1 / 4, 3, 3 / 4, 2] ∧
    (1 - unit32) ^ 2 ≤
      Stripe.spans.normalizeSpan.spannedSpans.sum * (1 + unit32) ^ Stripe.spans.spannedSpans.length ∧
    Stripe.spans.normalizeSpan.spannedSpans.sum * (1 - unit32) ^ Stripe.spans.spannedSpans.length ≤
      (1 + unit32) ^ 2 :=
  ⟨by decide!, by decide!, by decide!,
    (C15_normalizeSpan Stripe.spans (by decide!) (by decide!) (by decide!) (by decide!)).2.2.2⟩

/-! ## C16: dispatchWeights -/

theorem dispatchWeightsLoop_pointwise (s : Stripe) (ws : List ℚ) (index : Nat)
    (cs ds : List Frame) (h : Stripe.dispatchWeightsLoop s.d_length ws index cs = some ds) :
    ∀ (j : Nat) (f : Frame), cs[j]? = some f →
      ds[j]? = some (if j < index then f else s.weighted ws[j - index]? f) := by
  induction ws generalizing index cs with
  | nil =>
    intro j f hf
    simp only [Stripe.dispatchWeightsLoop] at h
    cases h
    rw [hf]
    simp [Stripe.weighted]
  | cons w ws ih =>
    intro j f hf
    simp only [Stripe.dispatchWeightsLoop] at h
    by_cases hw : w ≥ 0
    · rw [if_pos hw] at h
      cases hfr : cs[index]? with
      | none => rw [hfr] at h; cases h
      | some frame =>
        rw [hfr] at h
        simp only at h
        have hlt : index < cs.length := by
          by_contra hge
          rw [List.getElem?_eq_none (by omega)] at hfr
          cases hfr
        by_cases hj : j = index
        · subst hj
          have hff : f = frame := by
            rw [hf] at hfr
            exact Option.some.inj hfr
          subst hff
          have hset : (cs.set j (f.setSpanDim s.d_length w))[j]? =
              some (f.setSpanDim s.d_length w) := by
            rw [List.getElem?_set_self hlt]
          have h2 := ih (j + 1) _ h j _ hset
          rw [h2, if_pos (Nat.lt_succ_self j), if_neg (Nat.lt_irrefl j), Nat.sub_self]
          simp [Stripe.weighted, hw]
        · have hset : (cs.set index (frame.setSpanDim s.d_length w))[j]? = some f := by
            rw [List.getElem?_set_ne (fun e => hj e.symm)]
            exact hf
          have h2 := ih (index + 1) _ h j _ hset
          rw [h2]
          by_cases hji : j < index
          · rw [if_pos hji, if_pos (by omega)]
          · rw [if_neg hji, if_neg (by omega)]
            have e : j - index = (j - (index + 1)) + 1 := by omega
            rw [e, List.getElem?_cons_succ]
    · rw [if_neg hw] at h
      have h2 := ih (index + 1) _ h j _ hf
      rw [h2]
      by_cases hji : j < index
      · rw [if_pos hji, if_pos (by omega)]
      · rw [if_neg hji]
        by_cases hj : j = index
        · subst hj
          rw [if_pos (Nat.lt_succ_self j), Nat.sub_self]
          simp [Stripe.weighted, hw]
        · rw [if_neg (by omega)]
          have e : j - index = (j - (index + 1)) + 1 := by omega
          rw [e, List.getElem?_cons_succ]

/-- Counterexample to C16 as stated: on the three-child row of Scenario A with the
pending weights -1 and 3, `dispatchWeights` leaves the span 1 of the first child in
place although the first weight is -1: the spans are 1, 3 and 1 afterwards. -/
theorem C16_list_weights_counterexample :
    Stripe.negative.weight = Weight.LIST ∧
    Stripe.negative.d_weights = some [-1, 3] ∧
    Stripe.negative.d_contents.map (fun f => f.dspan Stripe.negative.d_length) = [1, 1, 1] ∧
    Stripe.negative.dispatchWeights.map
      (fun t => t.d_contents.map (fun f => f.dspan Stripe.negative.d_length)) =
      some [1, 3, 1] :=
  ⟨by decide, by decide!, by decide!, by decide!⟩

/-- C16 (LIST weight assignment), amended. For a Stripe whose pending weight table `ws`
is no longer than the contents, `dispatchWeights` returns; afterwards the child at
each position `j` is the old child with its length span set to `ws[j]` when
`j < ws.length` and `ws[j]` is not negative, and the old child itself otherwise (a
negative weight, or a position past the table); the table is left empty. -/
theorem C16_list_weights (s : Stripe) (ws : List ℚ) (hw : s.d_weights = some ws)
    (hlen : ws.length ≤ s.d_contents.length) :
    ∃ t : Stripe, s.dispatchWeights = some t ∧ t.d_weights = some [] ∧
      t.d_contents.length = s.d_contents.length ∧
      (∀ (j : Nat) (f : Frame), s.d_contents[j]? = some f →
        t.d_contents[j]? = some (s.weighted ws[j]? f)) ∧
      (∀ (j : Nat) (f : Frame) (w : ℚ), s.d_contents[j]? = some f → ws[j]? = some w →
        0 ≤ w → (t.d_contents[j]?).map (fun g => g.dspan s.d_length) = some w) ∧
      (∀ (j : Nat) (f : Frame), s.d_contents[j]? = some f →
        (ws.length ≤ j ∨ ∃ w : ℚ, ws[j]? = some w ∧ w < 0) → t.d_contents[j]? = some f) := by
  obtain ⟨ds, hds⟩ := dispatchWeightsLoop_some s.d_length ws 0 s.d_contents (by omega)
  have hpt := dispatchWeightsLoop_pointwise s ws 0 s.d_contents ds hds
  have hfs := dispatchWeightsLoop_forgetSpan s.d_length ws 0 s.d_contents ds hds
  have ht : s.dispatchWeights = some { s with d_contents := ds, d_weights := some [] } := by
    simp only [Stripe.dispatchWeights, hw, hds]
  have hall : ∀ (j : Nat) (f : Frame), s.d_contents[j]? = some f →
      ds[j]? = some (s.weighted ws[j]? f) := by
    intro j f hf
    have := hpt j f hf
    simpa using this
  refine ⟨_, ht, rfl, ?_, hall, ?_, ?_⟩
  · have := congrArg List.length hfs
    simpa using this
  · intro j f w hf hwj hpos
    show (ds[j]?).map _ = _
    rw [hall j f hf, hwj]
    simp [Stripe.weighted, hpos, Frame.dspan, Frame.setSpanDim, Dim.get_set]
  · intro j f hf hcase
    show ds[j]? = _
    rw [hall j f hf]
    rcases hcase with hge | ⟨w, hwj, hneg⟩
    · rw [List.getElem?_eq_none hge]
      rfl
    · rw [hwj]
      simp [Stripe.weighted, not_le.mpr hneg]

/-- Witness of C16 on the three-child row with the pending weights -1 and 3. -/
theorem C16_list_weights_witness :
    Stripe.negative.d_weights = some [-1, 3] ∧
    ([-1, 3] : List ℚ).length ≤ Stripe.negative.d_contents.length ∧
    ∃ t : Stripe, Stripe.negative.dispatchWeights = some t ∧ t.d_weights = some [] ∧
      t.d_contents.length = Stripe.negative.d_contents.length ∧
      (∀ (j : Nat) (f : Frame), Stripe.negative.d_contents[j]? = some f →
        t.d_contents[j]? = some (Stripe.negative.weighted ([-1, 3] : List ℚ)[j]? f)) ∧
      (∀ (j : Nat) (f : Frame) (w : ℚ), Stripe.negative.d_contents[j]? = some f →
        ([-1, 3] : List ℚ)[j]? = some w →
        0 ≤ w → (t.d_contents[j]?).map (fun g => g.dspan Stripe.negative.d_length) = some w) ∧
      (∀ (j : Nat) (f : Frame), Stripe.negative.d_contents[j]? = some f →
        (([-1, 3] : List ℚ).length ≤ j ∨ ∃ w : ℚ, ([-1, 3] : List ℚ)[j]? = some w ∧ w < 0) →
        t.d_contents[j]? = some f) :=
  ⟨by decide!, by decide, C16_list_weights Stripe.negative [-1, 3] (by decide!) (by decide)⟩

/-! ## C17: expandLength -/

theorem runningPositions_length (g : ℚ) (xs : List ℚ) (start : ℚ) :
    (runningPositions g start xs).length = xs.length := by
  induction xs generalizing start with
  | nil => rfl
  | cons x xs ih => simp only [runningPositions, List.length_cons, ih]

namespace Stripe

end Stripe

namespace Stripe

end Stripe

namespace Stripe

theorem maxDepth_resized (s : Stripe) (dim : Dimension) :
    (s.resized dim).d_maxDepth = s.d_maxDepth := by
  unfold resized
  split <;> rfl

theorem maxDepth_setSizeDim (s : Stripe) (dim : Dimension) (v : ℚ) :
    (s.setSizeDim dim v).d_maxDepth = s.d_maxDepth := by
  unfold setSizeDim
  split
  · rfl
  · rw [maxDepth_resized]

theorem maxDepth_updateLength (s : Stripe) : s.updateLength.d_maxDepth = s.d_maxDepth := by
  unfold updateLength
  split
  · rw [maxDepth_setSizeDim]
  · rfl

theorem maxDepth_updateDepth (s : Stripe) : s.updateDepth.d_maxDepth = s.d_maxDepth := by
  unfold updateDepth
  split
  · rw [maxDepth_setSizeDim]
  · rfl

theorem maxDepth_flowSizedLength (s : Stripe) (child : Frame) (delta : ℚ) :
    (s.flowSizedLength child delta).d_maxDepth = s.d_maxDepth := by
  unfold flowSizedLength
  exact maxDepth_updateLength _

/-- The first two steps of `flowShown` and of `flowHidden` (the spacing and the call of
`flowSizedLength`) leave `d_maxDepth` and the axes alone. -/
theorem maxDepth_lengthSteps (s : Stripe) (child : Frame) (v delta : ℚ) (c : Prop)
    [Decidable c] :
    (if !child.dexpand (if c then { s with d_sequenceLength := v } else s).d_length then
        (if c then { s with d_sequenceLength := v } else s).flowSizedLength child delta
      else (if c then { s with d_sequenceLength := v } else s)).d_maxDepth = s.d_maxDepth ∧
    (if !child.dexpand (if c then { s with d_sequenceLength := v } else s).d_length then
        (if c then { s with d_sequenceLength := v } else s).flowSizedLength child delta
      else (if c then { s with d_sequenceLength := v } else s)).d_depth = s.d_depth := by
  have h1 : (if c then { s with d_sequenceLength := v } else s).d_maxDepth = s.d_maxDepth := by
    split <;> rfl
  have h2 : (if c then { s with d_sequenceLength := v } else s).d_depth = s.d_depth := by
    split <;> rfl
  generalize (if c then { s with d_sequenceLength := v } else s) = s1 at h1 h2 ⊢
  split
  · refine ⟨(maxDepth_flowSizedLength _ _ _).trans h1, ?_⟩
    have hk := kept_flowSizedLength s1 child delta
    have : (s1.flowSizedLength child delta).d_depth = s1.d_depth := by
      unfold d_depth
      rw [hk.layoutDim]
    rw [this, h2]
  · exact ⟨h1, h2⟩

theorem flowHidden_tail (s : Stripe) (child : Frame) :
    (if !child.dexpand
        (if !child.dexpand s.d_length then s.flowSizedLength child (-child.doffset s.d_length)
          else s).d_depth
      then Stripe.flowSizedDepth
        (if !child.dexpand s.d_length then s.flowSizedLength child (-child.doffset s.d_length)
          else s) child
        (-child.doffset
          (if !child.dexpand s.d_length then s.flowSizedLength child (-child.doffset s.d_length)
            else s).d_depth)
      else
        (if !child.dexpand s.d_length then s.flowSizedLength child (-child.doffset s.d_length)
          else s)).d_sequenceLength =
      s.d_sequenceLength - (if child.dexpand s.d_length then 0 else child.doffset s.d_length) := by
  have h2 : (if !child.dexpand s.d_length then
        s.flowSizedLength child (-child.doffset s.d_length) else s).d_sequenceLength =
      s.d_sequenceLength -
        (if child.dexpand s.d_length then 0 else child.doffset s.d_length) := by
    cases hc : child.dexpand s.d_length with
    | true => simp
    | false =>
      simp only [Bool.not_false, if_true, Bool.false_eq_true, if_false]
      rw [flowSizedLength_sequenceLength]
      ring
  generalize (if !child.dexpand s.d_length then
        s.flowSizedLength child (-child.doffset s.d_length) else s) = s2 at h2 ⊢
  split
  · exact (tracked_flowSizedDepth _ _ _).1.trans h2
  · exact h2

/-- The length of the sequence after `flowHidden`: a spacing less when the sequence has
more than one frame, and the extent of the child less when it is not
length-expanding. -/
theorem flowHidden_sequenceLength (s : Stripe) (child : Frame) :
    (s.flowHidden child).d_sequenceLength =
      s.d_sequenceLength - (if s.d_sequence_size > 1 then s.spacing.get s.d_length else 0) -
        (if child.dexpand s.d_length then 0 else child.doffset s.d_length) := by
  by_cases h1 : s.d_sequence_size > 1
  · have := flowHidden_tail
      { s with d_sequenceLength := s.d_sequenceLength - s.spacing.get s.d_length } child
    simp only [flowHidden, h1, if_true]
    exact this
  · have := flowHidden_tail s child
    simp only [flowHidden, h1, if_false, sub_zero]
    exact this

/-- After `flowShown` of a child that is not depth-expanding and has a positive depth
extent, `d_maxDepth` is the larger of its old value and that extent. -/
theorem flowShown_maxDepth (s : Stripe) (child : Frame)
    (he : child.dexpand s.d_depth = false) (hpos : 0 < child.doffset s.d_depth) :
    (s.flowShown child).d_maxDepth = max s.d_maxDepth (child.doffset s.d_depth) := by
  unfold flowShown
  simp only []
  obtain ⟨hm, hd⟩ := maxDepth_lengthSteps s child
    (s.d_sequenceLength + s.spacing.get s.d_length)
    (child.doffset (if s.d_sequence_size > 1 then
      { s with d_sequenceLength := s.d_sequenceLength + s.spacing.get s.d_length }
      else s).d_length) (s.d_sequence_size > 1)
  generalize (if !child.dexpand (if s.d_sequence_size > 1 then
      { s with d_sequenceLength := s.d_sequenceLength + s.spacing.get s.d_length }
      else s).d_length then
        (if s.d_sequence_size > 1 then
          { s with d_sequenceLength := s.d_sequenceLength + s.spacing.get s.d_length }
          else s).flowSizedLength child
          (child.doffset (if s.d_sequence_size > 1 then
            { s with d_sequenceLength := s.d_sequenceLength + s.spacing.get s.d_length }
            else s).d_length)
      else (if s.d_sequence_size > 1 then
        { s with d_sequenceLength := s.d_sequenceLength + s.spacing.get s.d_length }
        else s)) = s2 at hm hd ⊢
  rw [hd, he]
  simp only [Bool.not_false, if_true]
  unfold flowSizedDepth
  rw [if_neg (fun h => absurd h.1 (not_lt.mpr (le_of_lt hpos))), if_pos hpos,
    maxDepth_updateDepth]
  show max s2.d_maxDepth (child.doffset s2.d_depth) = _
  rw [hm, hd]

/-- After `flowHidden` of a child whose depth extent is not negative, `d_maxDepth` is
unchanged unless it equals twice that depth extent. -/
theorem flowHidden_maxDepth (s : Stripe) (child : Frame)
    (hpos : 0 ≤ child.doffset s.d_depth)
    (hne : s.d_maxDepth ≠ child.doffset s.d_depth + child.doffset s.d_depth) :
    (s.flowHidden child).d_maxDepth = s.d_maxDepth := by
  unfold flowHidden
  simp only []
  obtain ⟨hm, hd⟩ := maxDepth_lengthSteps s child
    (s.d_sequenceLength - s.spacing.get s.d_length)
    (-child.doffset (if s.d_sequence_size > 1 then
      { s with d_sequenceLength := s.d_sequenceLength - s.spacing.get s.d_length }
      else s).d_length) (s.d_sequence_size > 1)
  generalize (if !child.dexpand (if s.d_sequence_size > 1 then
      { s with d_sequenceLength := s.d_sequenceLength - s.spacing.get s.d_length }
      else s).d_length then
        (if s.d_sequence_size > 1 then
          { s with d_sequenceLength := s.d_sequenceLength - s.spacing.get s.d_length }
          else s).flowSizedLength child
          (-child.doffset (if s.d_sequence_size > 1 then
            { s with d_sequenceLength := s.d_sequenceLength - s.spacing.get s.d_length }
            else s).d_length)
      else (if s.d_sequence_size > 1 then
        { s with d_sequenceLength := s.d_sequenceLength - s.spacing.get s.d_length }
        else s)) = s2 at hm hd ⊢
  split
  · unfold flowSizedDepth
    rw [hd, hm]
    rw [if_neg (fun h => hne (by rw [h.2]; ring))]
    split
    · rename_i h
      exact absurd h (by linarith)
    · exact hm
  · exact hm

end Stripe

/-- C20 (flowHidden after flowShown). `flowShown(child)` followed by `flowHidden(child)`
with the same child restores `d_sequenceLength`, but not `d_maxDepth`: when the
child is not depth-expanding and its positive depth extent exceeds the old
`d_maxDepth`, `d_maxDepth` is left at the depth extent of the child. On the row
holding one flow child of depth 20 that has not been shown yet, `d_maxDepth` is 0
before and 20 after, while `d_sequenceLength` is 0 before and after. -/
theorem C20_hidden_after_shown (s : Stripe) (child : Frame) :
    ((s.flowShown child).flowHidden child).d_sequenceLength = s.d_sequenceLength ∧
    (child.dexpand s.d_depth = false → 0 < child.doffset s.d_depth →
      s.d_maxDepth < child.doffset s.d_depth →
      ((s.flowShown child).flowHidden child).d_maxDepth = child.doffset s.d_depth ∧
      ((s.flowShown child).flowHidden child).d_maxDepth ≠ s.d_maxDepth) ∧
    Stripe.row.append (Frame.leaf 1 true true Sizing.FIXED 50 0) = some Stripe.lone ∧
    Stripe.lone.sequence = [Frame.leaf 1 true true Sizing.FIXED 50 0] ∧
    Stripe.lone.d_maxDepth = 0 ∧
    (Stripe.lone.flowShown (Frame.leaf 1 true true Sizing.FIXED 50 0)).d_maxDepth = 20 ∧
    ((Stripe.lone.flowShown (Frame.leaf 1 true true Sizing.FIXED 50 0)).flowHidden
      (Frame.leaf 1 true true Sizing.FIXED 50 0)).d_maxDepth = 20 ∧
    ((Stripe.lone.flowShown (Frame.leaf 1 true true Sizing.FIXED 50 0)).flowHidden
      (Frame.leaf 1 true true Sizing.FIXED 50 0)).d_sequenceLength = 0 := by
  have hk := Stripe.kept_flowShown s child
  have hlen : (s.flowShown child).d_length = s.d_length := by
    unfold Stripe.d_length
    rw [hk.layoutDim]
  have hdep : (s.flowShown child).d_depth = s.d_depth := by
    unfold Stripe.d_depth
    rw [hk.layoutDim]
  refine ⟨?_, fun he hpos hlt => ?_, by decide!, by decide!, by decide!, by decide!,
    by decide!, by decide!⟩
  · rw [Stripe.flowHidden_sequenceLength, Stripe.flowShown_sequenceLength, hlen,
      hk.d_sequence_size, hk.spacing]
    ring
  · have hshown := Stripe.flowShown_maxDepth s child he hpos
    have hmax : max s.d_maxDepth (child.doffset s.d_depth) = child.doffset s.d_depth :=
      max_eq_right (le_of_lt hlt)
    have hhid := Stripe.flowHidden_maxDepth (s.flowShown child) child
      (by rw [hdep]; exact le_of_lt hpos) (by
      rw [hdep, hshown, hmax]
      intro h
      linarith)
    rw [hhid, hshown, hmax]
    exact ⟨rfl, fun h => by rw [h] at hlt; exact lt_irrefl _ hlt⟩

/-! ## C21: remove after insert -/

theorem unsplice_splice {α : Type} (l : List α) (i : Nat) (x : α) (h : i ≤ l.length) :
    (l.take i ++ x :: l.drop i).take i ++ (l.take i ++ x :: l.drop i).drop (i + 1) = l := by
  have hl : (l.take i).length = i := by simp; omega
  have h1 : (l.take i ++ x :: l.drop i).take i = l.take i := by
    rw [List.take_append_of_le_length (by omega), List.take_of_length_le (by omega)]
  have h2 : (l.take i ++ x :: l.drop i).drop (i + 1) = l.drop i := by
    rw [List.drop_append_eq_append_drop, hl, List.drop_of_length_le (by omega)]
    simp
  rw [h1, h2, List.take_append_drop]

theorem spacing_round (n : Nat) (a : ℚ) :
    (if n + 1 > 1 then a else 0) - (if n + 1 - 1 > 1 then a else 0) =
      if n = 1 then a else 0 := by
  rcases n with _ | _ | n <;> simp

/-- C21 (remove after insert). `insert` of a visible flow frame followed by `remove` of
that frame restores the size of the sequence and the order of the children, and
restores `d_sequenceLength` except on a Stripe whose sequence holds exactly one
frame, where one spacing is left behind: `insertFlow` tests `size() > 1` after
its increment and `removeFlow` after its decrement. On the row holding one
child of length 50 the round trip leaves `d_sequenceLength` at 60 instead of 50;
on the empty row and on the row of three children it is restored. -/
theorem C21_remove_after_insert (s : Stripe) (frame : Frame) (index : Nat) :
    (frame.flow = true → frame.hidden = false → s.d_sequence_size ≤ s.d_contents.length →
      ∃ u : Stripe,
        s.run [Op.insert frame index, Op.remove (s.insertIndex frame index)] = some u ∧
        u.d_sequence_size = s.d_sequence_size ∧
        u.d_contents.map Frame.name = s.d_contents.map Frame.name ∧
        u.d_sequenceLength = s.d_sequenceLength +
          (if s.d_sequence_size = 1 then s.spacing.get s.d_length else 0)) ∧
    Stripe.row.append (Frame.leaf 1 true false Sizing.FIXED 50 0) = some Stripe.one ∧
    Stripe.one.d_sequenceLength = 50 ∧
    (Stripe.one.run (roundTrip 1)).map
      (fun u => (u.d_contents, u.d_sequence_size, u.d_sequenceLength)) =
      some (Stripe.one.d_contents, 1, 60) ∧
    (Stripe.row.run (roundTrip 0)).map
      (fun u => (u.d_contents, u.d_sequence_size, u.d_sequenceLength)) =
      some ([], 0, 0) ∧
    (Stripe.three.run (roundTrip 3)).map
      (fun u => (u.d_contents, u.d_sequence_size, u.d_sequenceLength)) =
      some (Stripe.three.d_contents, 3, 170) := by
  refine ⟨fun hf hv hk => ?_, by decide!, by decide!, by decide!, by decide!, by decide!⟩
  have hi : s.insertIndex frame index = min s.d_sequence_size index := by
    simp [Stripe.insertIndex, hf]
  have hrange : min s.d_sequence_size index ≤ s.d_contents.length := by omega
  obtain ⟨t, hins, hkept, hlen, -⟩ := Stripe.insert_visible_flow s frame index hf hv hk
  have hget := getElem?_reindexed_splice s.d_contents (min s.d_sequence_size index) frame
    (min s.d_sequence_size index) hrange
  simp only [Nat.lt_irrefl, if_false, if_true] at hget
  obtain ⟨g, hg, hgr⟩ := forall₂_getElem? hkept.contents _ _ hget
  have hgf : g.forgetSize = (frame.setIndex (min s.d_sequence_size index)).forgetSize := hgr.1
  have hgi : g.index = min s.d_sequence_size index := by
    have h1 : g.forgetSize.index =
        (frame.setIndex (min s.d_sequence_size index)).forgetSize.index := by rw [hgf]
    exact h1
  have hgflow : g.flow = true := by
    have h1 : g.forgetSize.flow =
        (frame.setIndex (min s.d_sequence_size index)).forgetSize.flow := by rw [hgf]
    exact h1.trans hf
  have hghid : g.hidden = false := by
    have h1 : g.forgetSize.hidden =
        (frame.setIndex (min s.d_sequence_size index)).forgetSize.hidden := by rw [hgf]
    exact h1.trans hv
  have hgexp : g.dexpand s.d_length = frame.dexpand s.d_length :=
    dexpand_of_resized hgr s.d_length
  have hnames : t.d_contents.map Frame.name =
      (s.d_contents.map Frame.name).take (min s.d_sequence_size index) ++
        frame.name :: (s.d_contents.map Frame.name).drop (min s.d_sequence_size index) :=
    Stripe.insert_visible_flow_map Frame.name
      (fun f f' h => by
        have h1 : f'.forgetSize.name = f.forgetSize.name := by rw [h.1]
        exact h1)
      (fun _ _ => rfl) s t frame _ hkept
  have htlen : t.d_contents.length = s.d_contents.length + 1 := by
    have h1 := congrArg List.length hnames
    rw [length_splice] at h1
    simpa using h1
  have hlt : g.index < t.d_contents.length := by rw [hgi, htlen]; omega
  have hrun : s.run [Op.insert frame index, Op.remove (s.insertIndex frame index)] =
      some (Stripe.flowHidden
        { Stripe.reindex
            { t with d_contents := t.d_contents.take g.index ++ t.d_contents.drop (g.index + 1) }
            g.index with
          d_sequence_size := t.d_sequence_size - 1, d_relayout := true } g) := by
    simp only [Stripe.run, Stripe.step, hins, hi, hg, Stripe.remove, Stripe.eraseAt, hlt,
      if_true, hgflow, Stripe.removeFlow, hghid, Bool.not_false]
    rfl
  have hk2 := Stripe.kept_flowHidden
    { Stripe.reindex
        { t with d_contents := t.d_contents.take g.index ++ t.d_contents.drop (g.index + 1) }
        g.index with
      d_sequence_size := t.d_sequence_size - 1, d_relayout := true } g
  have htsize : t.d_sequence_size = s.d_sequence_size + 1 := hkept.d_sequence_size
  have htspacing : t.spacing = s.spacing := hkept.spacing
  have htdim : t.d_length = s.d_length := by
    unfold Stripe.d_length
    exact hkept.layoutDim
  refine ⟨_, hrun, ?_, ?_, ?_⟩
  · rw [hk2.d_sequence_size]
    show t.d_sequence_size - 1 = _
    omega
  · rw [map_name_of_resized hk2.contents]
    show (Stripe.reindexFrom g.index 0 _).map Frame.name = _
    rw [map_name_reindexFrom, List.map_append, List.map_take, List.map_drop, hnames, hgi]
    exact unsplice_splice _ _ _ (by simpa using hrange)
  · rw [Stripe.flowHidden_sequenceLength]
    show t.d_sequenceLength -
        (if t.d_sequence_size - 1 > 1 then t.spacing.get t.d_length else 0) -
        (if g.dexpand t.d_length then 0 else g.doffset t.d_length) = _
    rw [hlen, htsize, htspacing, htdim, hgexp]
    have hoff : frame.dexpand s.d_length = false →
        g.doffset s.d_length = frame.doffset s.d_length := by
      intro he
      exact hgr.2 s.d_length he
    have key := spacing_round s.d_sequence_size (s.spacing.get s.d_length)
    have hoff2 : (if frame.dexpand s.d_length = true then (0 : ℚ) else g.doffset s.d_length) =
        (if frame.dexpand s.d_length = true then 0 else frame.doffset s.d_length) := by
      cases he : frame.dexpand s.d_length with
      | true => rfl
      | false => simp [hoff he]
    rw [hoff2]
    linarith

/-! ## C22: flowSized and the dirty flag -/

/-- C22 (flowSized), evaluation of the code. For a hidden child `flowSized` changes
nothing, and on the length axis it sets the relayout flag; on the depth axis of
a Stripe that is not depth-shrinking it leaves the flag as it was, since
`flowSizedDepth` has no `d_relayout = true` of its own. On the clean three-child
row of Scenario A whose first child has grown to depth 25,
`flowSized(child, DIM_Y, 5)` updates `d_maxDepth` to 25 and leaves the flag
false, while `flowSized(child, DIM_X, 5)` sets it. -/
theorem C22_depth_keeps_flag (s : Stripe) (child : Frame) (delta : ℚ) :
    (child.hidden = true → ∀ dim : Dimension, s.flowSized child dim delta = s) ∧
    (child.hidden = false → (s.flowSized child s.d_length delta).d_relayout = true) ∧
    (child.hidden = false → s.dshrink s.d_depth = false →
      (s.flowSized child s.d_depth delta).d_relayout = s.d_relayout) ∧
    Stripe.notified.d_relayout = false ∧
    Stripe.notified.d_depth = Dimension.DIM_Y ∧
    Stripe.notified.sequence[0]? = some Frame.grown ∧
    Frame.grown.hidden = false ∧
    (Stripe.notified.flowSized Frame.grown Dimension.DIM_Y 5).d_relayout = false ∧
    (Stripe.notified.flowSized Frame.grown Dimension.DIM_Y 5).d_maxDepth = 25 ∧
    (Stripe.notified.flowSized Frame.grown Dimension.DIM_X 5).d_relayout = true := by
  refine ⟨fun hh dim => ?_, fun hv => ?_, fun hv hs => ?_, by decide, by decide, by decide!,
    by decide, by decide!, by decide!, by decide!⟩
  · simp [Stripe.flowSized, hh]
  · simp [Stripe.flowSized, hv, Stripe.flowSizedLength]
  · have hne : s.d_depth ≠ s.d_length := depth_ne_length s
    have hup : ∀ u : Stripe, u.dshrink u.d_depth = false → u.updateDepth = u := by
      intro u hu
      simp [Stripe.updateDepth, hu]
    have hm : ∀ m : ℚ,
        (Stripe.updateDepth { s with d_maxDepth := m }).d_relayout = s.d_relayout := by
      intro m
      rw [hup { s with d_maxDepth := m } hs]
    simp only [Stripe.flowSized, hv, Bool.false_eq_true, if_false, hne]
    unfold Stripe.flowSizedDepth
    split
    · exact hm _
    · split
      · exact hm _
      · rfl

/-! ## C23 and C24: the full recomputations -/

/-- C23 (recomputeLength), evaluation of the code. After `recomputeLength` the length of
the sequence is the sum of extent plus spacing over the visible frames of the
sequence that are not depth-expanding: the test reads `dexpand(d_depth)`. In the
row of Scenario B, whose middle child is length-expanding and of fixed depth,
the three children are counted and `d_sequenceLength` is 180, where the sum over
the visible frames that are not length-expanding is 120. -/
theorem C23_recompute_length_by_depth (s : Stripe) :
    s.recomputeLength.d_sequenceLength =
      ((s.sequence.filter (fun f => !f.dexpand s.d_depth && !f.hidden)).map
        (fun f => f.doffset s.d_length + s.spacing.get s.d_length)).sum ∧
    Stripe.stretch.sequence.map (fun f => (f.dexpand Stripe.stretch.d_length, f.hidden)) =
      [(false, false), (true, false), (false, false)] ∧
    Stripe.stretch.recomputeLength.d_sequenceLength = 180 ∧
    Stripe.stretch.specRecomputedLength = 120 := by
  refine ⟨?_, by decide!, by decide!, by decide!⟩
  unfold Stripe.recomputeLength
  simp only []
  rw [(Stripe.tracked_updateLength _).1, sum_filter_map]
  show s.sequence.foldl _ 0 = _
  rw [foldl_cond_sum (fun f => !f.dexpand s.d_depth && !f.hidden)
    (fun f => s.offset f), zero_add]
  rfl

theorem foldl_max_swap (l : List ℚ) (a b : ℚ) :
    l.foldl max (max a b) = max b (l.foldl max a) := by
  induction l generalizing a with
  | nil => exact max_comm a b
  | cons x xs ih =>
    simp only [List.foldl_cons]
    have e : max (max a b) x = max (max a x) b := by
      rw [max_assoc, max_comm b x, ← max_assoc]
    rw [e]
    exact ih (max a x)

theorem maxOf_nonneg (l : List ℚ) : 0 ≤ maxOf l := by
  unfold maxOf
  induction l with
  | nil => exact le_refl 0
  | cons x xs ih =>
    simp only [List.foldl_cons]
    rw [foldl_max_swap]
    exact le_trans ih (le_max_right _ _)

theorem maxOf_cons (x : ℚ) (l : List ℚ) : maxOf (x :: l) = max x (maxOf l) := by
  unfold maxOf
  simp only [List.foldl_cons]
  exact foldl_max_swap l 0 x

theorem le_maxOf (l : List ℚ) : ∀ x ∈ l, x ≤ maxOf l := by
  induction l with
  | nil => intro x hx; cases hx
  | cons y ys ih =>
    intro x hx
    rw [maxOf_cons]
    rcases List.mem_cons.1 hx with h | h
    · rw [h]; exact le_max_left _ _
    · exact le_trans (ih x h) (le_max_right _ _)

theorem maxOf_attained (l : List ℚ) : maxOf l = 0 ∨ maxOf l ∈ l := by
  induction l with
  | nil => exact Or.inl rfl
  | cons y ys ih =>
    rw [maxOf_cons]
    rcases le_total y (maxOf ys) with h | h
    · rw [max_eq_right h]
      rcases ih with h0 | hm
      · exact Or.inl h0
      · exact Or.inr (List.mem_cons_of_mem _ hm)
    · rw [max_eq_left h]
      exact Or.inr (List.mem_cons_self _ _)

namespace Stripe

theorem recomputeDepth_maxDepth (s : Stripe) :
    s.recomputeDepth.d_maxDepth =
      if s.dshrink s.d_depth then maxOf (s.sequence.map (fun f => f.doffset s.d_depth))
      else 0 := by
  unfold recomputeDepth
  simp only []
  rw [maxDepth_updateDepth]
  show s.sequence.foldl _ 0 = _
  cases hs : s.dshrink s.d_depth with
  | true =>
    simp only [if_true]
    unfold maxOf
    rw [List.foldl_map]
  | false =>
    simp only [Bool.false_eq_true, if_false]
    generalize s.sequence = l
    induction l with
    | nil => rfl
    | cons x xs ih => exact ih

end Stripe

/-- Counterexample to C24 as stated: in the row of fixed depth holding one
depth-shrinking child of depth 20, `recomputeDepth` leaves `maxDepth` at 0, where
the maximum among the depth-shrinking children is 20; in the depth-shrinking row
of three children of fixed depth 20 it gives 20, where no child is
depth-shrinking. -/
theorem C24_recompute_depth_counterexample :
    Stripe.wrapped.dshrink Stripe.wrapped.d_depth = false ∧
    Stripe.wrapped.recomputeDepth.d_maxDepth = 0 ∧
    Stripe.wrapped.specRecomputedDepth = 20 ∧
    Stripe.hugging.dshrink Stripe.hugging.d_depth = true ∧
    Stripe.hugging.recomputeDepth.d_maxDepth = 20 ∧
    Stripe.hugging.specRecomputedDepth = 0 := by
  decide!

/-- C24 (recomputeDepth), amended. After `recomputeDepth`, `maxDepth` is 0 when the
Stripe itself is not depth-shrinking; when it is, `maxDepth` is the largest of 0
and the depth extents of the frames of its sequence, whatever their own sizing
policy: it is at least 0 and at least every such extent, and it is 0 or the
extent of one of these frames. -/
theorem C24_recompute_depth (s : Stripe) :
    (s.dshrink s.d_depth = false → s.recomputeDepth.d_maxDepth = 0) ∧
    (s.dshrink s.d_depth = true →
      s.recomputeDepth.d_maxDepth = maxOf (s.sequence.map (fun f => f.doffset s.d_depth)) ∧
      0 ≤ s.recomputeDepth.d_maxDepth ∧
      (∀ f ∈ s.sequence, f.doffset s.d_depth ≤ s.recomputeDepth.d_maxDepth) ∧
      (s.recomputeDepth.d_maxDepth = 0 ∨
        ∃ f ∈ s.sequence, f.doffset s.d_depth = s.recomputeDepth.d_maxDepth)) ∧
    Stripe.hugging.recomputeDepth.d_maxDepth = 20 := by
  refine ⟨fun hs => ?_, fun hs => ?_, by decide!⟩
  · rw [Stripe.recomputeDepth_maxDepth, hs]
    rfl
  · have h : s.recomputeDepth.d_maxDepth =
        maxOf (s.sequence.map (fun f => f.doffset s.d_depth)) := by
      rw [Stripe.recomputeDepth_maxDepth, hs]
      rfl
    rw [h]
    refine ⟨rfl, maxOf_nonneg _, fun f hf => ?_, ?_⟩
    · exact le_maxOf _ _ (List.mem_map_of_mem (fun f => f.doffset s.d_depth) hf)
    · rcases maxOf_attained (s.sequence.map (fun f => f.doffset s.d_depth)) with h0 | hm
      · exact Or.inl h0
      · obtain ⟨f, hf, hfe⟩ := List.mem_map.1 hm
        exact Or.inr ⟨f, hf, hfe⟩

/-! ## C25: incremental and full maxDepth -/

namespace Stripe

end Stripe

namespace Stripe

end Stripe

namespace Stripe

end Stripe

namespace Stripe

theorem pinpointLoop_skip (visible : Frame → Bool) (hit : Frame → Option Nat)
    (a b : List Frame) (h : ∀ g ∈ a, Frame.eligible visible hit g = false) :
    pinpointLoop visible hit (a ++ b) = pinpointLoop visible hit b := by
  induction a with
  | nil => rfl
  | cons f fs ih =>
    have hf := h f (List.mem_cons_self _ _)
    have hrest := ih (fun g hg => h g (List.mem_cons_of_mem _ hg))
    simp only [List.cons_append, pinpointLoop]
    cases hc : (visible f && f.frameType != FrameType.LAYER3D) with
    | false => simpa using hrest
    | true =>
      simp only [if_true]
      cases hh : hit f with
      | none => exact hrest
      | some target => simp [Frame.eligible, hc, hh] at hf

theorem pinpointLoop_none (visible : Frame → Bool) (hit : Frame → Option Nat)
    (a : List Frame) (h : ∀ g ∈ a, Frame.eligible visible hit g = false) :
    pinpointLoop visible hit a = none := by
  have := pinpointLoop_skip visible hit a [] h
  rw [List.append_nil] at this
  exact this

end Stripe

/-- C26 (pinpoint order). `pinpoint` returns nothing when the point is outside the
Stripe. When it is inside: if `child` is the last child of the contents that is
visible, is not a 3D layer and whose own hit test yields a frame (no child after
it in the contents is such), `pinpoint` returns the hit of `child`; if no child
is such, it returns the result of the base hit test of the Stripe. On the row of
three children of which the second and third are hit, the hit of the third is
returned, and the hit of the second when the third is a 3D layer. -/
theorem C26_pinpoint_order (s : Stripe) (visible : Frame → Bool) (hit : Frame → Option Nat)
    (base : Option Nat) :
    s.pinpoint false visible hit base = none ∧
    (∀ (before after : List Frame) (child : Frame) (target : Nat),
      s.d_contents = before ++ child :: after →
      visible child = true → child.frameType ≠ FrameType.LAYER3D → hit child = some target →
      (∀ g ∈ after, Frame.eligible visible hit g = false) →
      s.pinpoint true visible hit base = some target) ∧
    ((∀ g ∈ s.d_contents, Frame.eligible visible hit g = false) →
      s.pinpoint true visible hit base = base) ∧
    Stripe.three.pinpoint true (fun f => !f.hidden) hitAbove (some 0) = some 3 ∧
    Stripe.layered.pinpoint true (fun f => !f.hidden) hitAbove (some 0) = some 2 ∧
    Stripe.three.pinpoint true (fun f => !f.hidden) (fun _ => none) (some 0) = some 0 := by
  refine ⟨rfl, fun before after child target hc hv ht hh hafter => ?_, fun hnone => ?_,
    by decide, by decide, by decide⟩
  · have hrev : s.d_contents.reverse = after.reverse ++ child :: before.reverse := by
      rw [hc]
      simp
    have hskip := Stripe.pinpointLoop_skip visible hit after.reverse (child :: before.reverse)
      (fun g hg => hafter g (List.mem_reverse.1 hg))
    have hloop : Stripe.pinpointLoop visible hit s.d_contents.reverse = some target := by
      rw [hrev, hskip]
      simp [Stripe.pinpointLoop, hv, ht, hh]
    simp [Stripe.pinpoint, hloop]
  · have hloop := Stripe.pinpointLoop_none visible hit s.d_contents.reverse
      (fun g hg => hnone g (List.mem_reverse.1 hg))
    simp [Stripe.pinpoint, hloop]

/-! ## C27: the style cascade -/

namespace StyleAttr

theorem cascaded_copy {α : Type} (a b : StyleAttr α) : Cascaded a b (a.copy b true) := by
  unfold Cascaded copy
  cases h : a.set <;> simp [h]

theorem cascaded_copy_val {α : Type} (a b : StyleAttr α) :
    Cascaded a b (a.copy (ofVal b.val) true) := by
  unfold Cascaded copy ofVal
  cases h : a.set <;> simp [h]

theorem copy_copy {α : Type} (a b : StyleAttr α) :
    (a.copy b true).copy b true = a.copy b true := by
  unfold copy
  cases h : a.set <;> simp [h]

end StyleAttr

/-- C27 (style cascade). After `copy(other, inherit = true)` every attribute of the
target LayoutStyle keeps its `set` flag, keeps its value when the flag is set and
has the value of the same attribute of `other` when it is not; `d_updated` is
not touched; and applying the copy a second time with the same `other` changes
nothing. -/
theorem C27_style_cascade (s other : LayoutStyle) :
    StyleAttr.Cascaded s.d_flow other.d_flow (s.copy other true).d_flow ∧
    StyleAttr.Cascaded s.d_clipping other.d_clipping (s.copy other true).d_clipping ∧
    StyleAttr.Cascaded s.d_opacity other.d_opacity (s.copy other true).d_opacity ∧
    StyleAttr.Cascaded s.d_space other.d_space (s.copy other true).d_space ∧
    StyleAttr.Cascaded s.d_layoutDim other.d_layoutDim (s.copy other true).d_layoutDim ∧
    StyleAttr.Cascaded s.d_span other.d_span (s.copy other true).d_span ∧
    StyleAttr.Cascaded s.d_size other.d_size (s.copy other true).d_size ∧
    StyleAttr.Cascaded s.d_padding other.d_padding (s.copy other true).d_padding ∧
    StyleAttr.Cascaded s.d_margin other.d_margin (s.copy other true).d_margin ∧
    StyleAttr.Cascaded s.d_spacing other.d_spacing (s.copy other true).d_spacing ∧
    StyleAttr.Cascaded s.d_pivot other.d_pivot (s.copy other true).d_pivot ∧
    StyleAttr.Cascaded s.d_weight other.d_weight (s.copy other true).d_weight ∧
    StyleAttr.Cascaded s.d_weights other.d_weights (s.copy other true).d_weights ∧
    (s.copy other true).d_updated = s.d_updated ∧
    (s.copy other true).copy other true = s.copy other true := by
  refine ⟨StyleAttr.cascaded_copy _ _, StyleAttr.cascaded_copy_val _ _,
    StyleAttr.cascaded_copy_val _ _, StyleAttr.cascaded_copy_val _ _,
    StyleAttr.cascaded_copy_val _ _, StyleAttr.cascaded_copy_val _ _,
    StyleAttr.cascaded_copy_val _ _, StyleAttr.cascaded_copy_val _ _,
    StyleAttr.cascaded_copy_val _ _, StyleAttr.cascaded_copy_val _ _,
    StyleAttr.cascaded_copy_val _ _, StyleAttr.cascaded_copy_val _ _,
    StyleAttr.cascaded_copy_val _ _, rfl, ?_⟩
  simp only [LayoutStyle.copy, StyleAttr.copy_copy]

/-! ## C28: the columns of Canvas::layoutNodes -/

theorem wrapInt_of_range (v : Int) (h1 : -2147483648 ≤ v) (h2 : v ≤ 2147483647) :
    wrapInt v = v := by
  unfold wrapInt
  omega

namespace Canvas

theorem foldl_min_le (nodes : List Node) (a : Int) :
    nodes.foldl (fun acc node => min acc node.m_order) a ≤ a ∧
    (∀ node ∈ nodes, nodes.foldl (fun acc node => min acc node.m_order) a ≤ node.m_order) ∧
    (nodes.foldl (fun acc node => min acc node.m_order) a = a ∨
      ∃ node ∈ nodes, nodes.foldl (fun acc node => min acc node.m_order) a = node.m_order) := by
  induction nodes generalizing a with
  | nil => exact ⟨le_refl a, fun _ h => (by cases h), Or.inl rfl⟩
  | cons n ns ih =>
    simp only [List.foldl_cons]
    obtain ⟨h1, h2, h3⟩ := ih (min a n.m_order)
    refine ⟨le_trans h1 (min_le_left _ _), fun node hn => ?_, ?_⟩
    · rcases List.mem_cons.1 hn with h | h
      · rw [h]; exact le_trans h1 (min_le_right _ _)
      · exact h2 node h
    · rcases h3 with h | ⟨node, hn, h⟩
      · rcases min_choice a n.m_order with hc | hc
        · exact Or.inl (h.trans hc)
        · exact Or.inr ⟨n, List.mem_cons_self _ _, h.trans hc⟩
      · exact Or.inr ⟨node, List.mem_cons_of_mem _ hn, h⟩

theorem foldl_max_ge (nodes : List Node) (a : Int) :
    a ≤ nodes.foldl (fun acc node => max acc node.m_order) a ∧
    (∀ node ∈ nodes, node.m_order ≤ nodes.foldl (fun acc node => max acc node.m_order) a) ∧
    (nodes.foldl (fun acc node => max acc node.m_order) a = a ∨
      ∃ node ∈ nodes, nodes.foldl (fun acc node => max acc node.m_order) a = node.m_order) := by
  induction nodes generalizing a with
  | nil => exact ⟨le_refl a, fun _ h => (by cases h), Or.inl rfl⟩
  | cons n ns ih =>
    simp only [List.foldl_cons]
    obtain ⟨h1, h2, h3⟩ := ih (max a n.m_order)
    refine ⟨le_trans (le_max_left _ _) h1, fun node hn => ?_, ?_⟩
    · rcases List.mem_cons.1 hn with h | h
      · rw [h]; exact le_trans (le_max_right _ _) h1
      · exact h2 node h
    · rcases h3 with h | ⟨node, hn, h⟩
      · rcases max_choice a n.m_order with hc | hc
        · exact Or.inl (h.trans hc)
        · exact Or.inr ⟨n, List.mem_cons_self _ _, h.trans hc⟩
      · exact Or.inr ⟨node, List.mem_cons_of_mem _ hn, h⟩

end Canvas

/-- Counterexample to C28 as stated: for the single node of order -2147483648, the
least `int`, the negation in `shift` overflows; with wrapping arithmetic `shift`
is -2147483648, no column is created and the subscript of the node is 0, which
is not below the number of columns. For the orders -1 and 2147483647 the sum
`maxIndex + shift` overflows and no column is created either. -/
theorem C28_column_bounds_counterexample :
    Canvas.layoutNodes [⟨-2147483648⟩] = (0, [0]) ∧
    ¬ (Canvas.columnIndex [⟨-2147483648⟩] ⟨-2147483648⟩ <
      (Canvas.columnCount [⟨-2147483648⟩] : Int)) ∧
    Canvas.layoutNodes [⟨-1⟩, ⟨2147483647⟩] = (0, [0, -2147483648]) := by
  decide

/-- C28 (column indexing), amended. For every list of nodes whose orders have
`max(0, max order) - min(0, min order) + 1` at most 2147483647 (the orders are
`int` values and no `int` expression of `layoutNodes` overflows), `shift` is `-min(0, min order)`,
`maxIndex + shift + 1` columns are created, which is at least one, and the
subscript `m_order + shift` of every node is at least 0 and below the number of
columns. -/
theorem C28_column_bounds (nodes : List Node)
    (hspan : Canvas.maxIndex nodes - Canvas.minIndex nodes + 1 ≤ 2147483647) :
    Canvas.shift nodes = -(min 0 (Canvas.minIndex nodes)) ∧
    (Canvas.columnCount nodes : Int) = Canvas.maxIndex nodes + Canvas.shift nodes + 1 ∧
    1 ≤ Canvas.columnCount nodes ∧
    ∀ node ∈ nodes,
      Canvas.columnIndex nodes node = node.m_order + Canvas.shift nodes ∧
      0 ≤ Canvas.columnIndex nodes node ∧
      Canvas.columnIndex nodes node < (Canvas.columnCount nodes : Int) := by
  obtain ⟨hmin0, hminle, -⟩ := Canvas.foldl_min_le nodes 0
  obtain ⟨hmax0, hmaxge, -⟩ := Canvas.foldl_max_ge nodes 0
  have hmin0' : Canvas.minIndex nodes ≤ 0 := hmin0
  have hmax0' : 0 ≤ Canvas.maxIndex nodes := hmax0
  have hshift : Canvas.shift nodes = -(min 0 (Canvas.minIndex nodes)) := by
    unfold Canvas.shift
    rw [min_eq_right hmin0']
    exact wrapInt_of_range _ (by omega) (by omega)
  have hshift2 : Canvas.shift nodes = -Canvas.minIndex nodes := by
    rw [hshift, min_eq_right hmin0']
  have hcount : (Canvas.columnCount nodes : Int) =
      Canvas.maxIndex nodes + Canvas.shift nodes + 1 := by
    unfold Canvas.columnCount
    rw [wrapInt_of_range (Canvas.maxIndex nodes + Canvas.shift nodes) (by omega) (by omega),
      wrapInt_of_range _ (by omega) (by omega)]
    exact Int.toNat_of_nonneg (by omega)
  refine ⟨hshift, hcount, by omega, fun node hn => ?_⟩
  have h1 : Canvas.minIndex nodes ≤ node.m_order := hminle node hn
  have h2 : node.m_order ≤ Canvas.maxIndex nodes := hmaxge node hn
  have hidx : Canvas.columnIndex nodes node = node.m_order + Canvas.shift nodes := by
    unfold Canvas.columnIndex
    exact wrapInt_of_range _ (by omega) (by omega)
  rw [hidx, hcount]
  exact ⟨rfl, by omega, by omega⟩

/-- Witness of C28 on the orders -2, 0 and 3: the shift is 2, six columns are created
and the subscripts are 0, 2 and 5. -/
theorem C28_column_bounds_witness :
    Canvas.layoutNodes [⟨-2⟩, ⟨0⟩, ⟨3⟩] = (6, [0, 2, 5]) ∧
    Canvas.shift [⟨-2⟩, ⟨0⟩, ⟨3⟩] = -(min 0 (Canvas.minIndex [⟨-2⟩, ⟨0⟩, ⟨3⟩])) ∧
    (Canvas.columnCount [⟨-2⟩, ⟨0⟩, ⟨3⟩] : Int) =
      Canvas.maxIndex [⟨-2⟩, ⟨0⟩, ⟨3⟩] + Canvas.shift [⟨-2⟩, ⟨0⟩, ⟨3⟩] + 1 ∧
    1 ≤ Canvas.columnCount [⟨-2⟩, ⟨0⟩, ⟨3⟩] ∧
    ∀ node ∈ [(⟨-2⟩ : Node), ⟨0⟩, ⟨3⟩],
      Canvas.columnIndex [⟨-2⟩, ⟨0⟩, ⟨3⟩] node = node.m_order + Canvas.shift [⟨-2⟩, ⟨0⟩, ⟨3⟩] ∧
      0 ≤ Canvas.columnIndex [⟨-2⟩, ⟨0⟩, ⟨3⟩] node ∧
      Canvas.columnIndex [⟨-2⟩, ⟨0⟩, ⟨3⟩] node < (Canvas.columnCount [⟨-2⟩, ⟨0⟩, ⟨3⟩] : Int) :=
  ⟨by decide, C28_column_bounds [⟨-2⟩, ⟨0⟩, ⟨3⟩] (by decide)⟩

end mk
